import Mathlib

/-!
Verification of the STAM arena allocator (`Arena.h`).

Shallow embedding of the C code. Machine integers are modelled as `Nat` with
explicit reduction modulo `2 ^ 64` (`size_t` / pointer arithmetic) and
`2 ^ 32` (`uint32_t`) wherever the C program computes in those types. The
target platform is LP64: `sizeof(uintptr_t) = 8`, `sizeof(FreeListNode) = 24`
(three 8-byte fields).

Heap model: each `Region`'s flexible `data` array is a separately malloc'd
buffer. The function `B : Nat → Nat` gives the byte address of the `data`
array of the i-th region of the chain (the order in which regions are
created); it stands for the addresses malloc returned. Facts the C runtime
guarantees about those addresses (8-byte alignment, disjointness of distinct
malloc'd blocks, addresses fitting in the 64-bit address space) enter the
theorems as explicit hypotheses on `B`.

`FreeListNode`s are records the program stores inside freed memory; the model
keeps them in an association list `Heap` keyed by the node's address. Reading
a field of a node the heap does not hold models a read of memory that is not
a live free-list node; such reads (and loop divergence, tracked by fuel that
is always sufficient for every terminating execution of the C loops) make the
modelled operation return `none`: the C call does not complete normally.
-/

/-- Modulus of `size_t` / `uintptr_t` arithmetic (64-bit platform). -/
def U64 : Nat := 2 ^ 64

/-- Modulus of `uint32_t` arithmetic. -/
def U32 : Nat := 2 ^ 32

/-- `sizeof(uintptr_t)` on LP64. -/
def UINTPTR_SIZE : Nat := 8

/-- `sizeof(FreeListNode)` on LP64: `size_t` + `void*` + pointer. -/
def FREELISTNODE_SIZE : Nat := 24

/-- C: `#define ALIGN_UP(n, align) (((n) + (align) - 1) & ~((align) - 1))`,
`#define ALIGN_SIZE(size_bytes) ALIGN_UP(size_bytes, sizeof(uintptr_t))`.
Computed in `size_t`: the sum wraps modulo `2 ^ 64`; masking with `~7`
clears the low three bits, i.e. rounds down to a multiple of 8. -/
def ALIGN_SIZE (size_bytes : Nat) : Nat := (size_bytes + 7) % U64 / 8 * 8

/-- C: `struct Region`. `data_count` and `capacity` are the two `size_t`
header fields; the flexible `data` array itself is addressed through `B`. -/
structure Region where
  data_count : Nat
  capacity : Nat
  deriving DecidableEq, Repr

/-- C: `struct FreeListNode`: `size_bytes`, `ptr`, `next`. `next == NULL`
is `none`; otherwise the byte address of the next node. -/
structure FreeListNode where
  size_bytes : Nat
  ptr : Nat
  next : Option Nat
  deriving DecidableEq, Repr

/-- The free-list node records the program has written into freed memory,
keyed by the byte address the record lives at. -/
abbrev Heap := List (Nat × FreeListNode)

/-- Read the `FreeListNode` record stored at address `a` (first binding). -/
def hget : Heap → Nat → Option FreeListNode
  | [], _ => none
  | (k, v) :: t, a => if k = a then some v else hget t a

/-- Store a `FreeListNode` record at address `a`, overwriting the record
already there if any. -/
def hset : Heap → Nat → FreeListNode → Heap
  | [], a, v => [(a, v)]
  | (k, w) :: t, a, v => if k = a then (a, v) :: t else (k, w) :: hset t a v

/-- C: `struct Arena`. `regions` is the chain from `start` in `next` order
(the chain only ever grows at the tail); `endIdx` is the position `end`
points at; `free_list` is the address of the head node or `none` for NULL. -/
@[ext]
structure Arena where
  regions : List Region
  endIdx : Nat
  free_list : Option Nat
  heap : Heap
  use_free_list : Bool
  deriving DecidableEq, Repr

/-- C: `struct ArenaMark`: `reg` (NULL modelled as `none`, otherwise the
chain position of the region) and `count`, a `uint32_t`. -/
structure ArenaMark where
  reg : Option Nat
  count : Nat
  deriving DecidableEq, Repr

/-- The `Region` header `create_region` initialises when malloc succeeds:
`data_count = 0`, `capacity = ALIGN_SIZE(size_bytes)`. -/
def create_region_mem (size_bytes : Nat) : Region :=
  { data_count := 0, capacity := ALIGN_SIZE size_bytes }

/-- C: `create_region(size_bytes)`: `ok` tells whether the backing `malloc`
succeeds; on failure the function returns NULL (`none`). -/
def create_region (ok : Bool) (size_bytes : Nat) : Option Region :=
  if ok then some (create_region_mem size_bytes) else none

/-- The fast-path/`region_allocate` update of a region's bump counter:
`data_count += size` in `size_t`. -/
def bump_count (er : Region) (size : Nat) : Region :=
  { er with data_count := (er.data_count + size) % U64 }

/-- C: `region_allocate(reg, size_bytes)`. Fails (NULL) when
`reg->data_count + size > reg->capacity` (computed in `size_t`); otherwise
returns the unit offset `reg->data_count` (the C code returns
`&reg->data[data_count]`, i.e. the byte address `B + 8 * data_count`)
and advances `data_count` by the aligned size. -/
def region_allocate (reg : Region) (size_bytes : Nat) : Option (Nat × Region) :=
  if (reg.data_count + ALIGN_SIZE size_bytes) % U64 > reg.capacity then none
  else some (reg.data_count, bump_count reg (ALIGN_SIZE size_bytes))

/-- C: `region_reset(reg)`: `reg->data_count = 0`. -/
def region_reset (reg : Region) : Region :=
  { reg with data_count := 0 }

/-- C: `create_arena(size_bytes)` (one fresh region, no free list; the
NULL-check-free path where the initial region's malloc succeeds). -/
def create_arena (size_bytes : Nat) : Arena :=
  { regions := [create_region_mem size_bytes]
    endIdx := 0
    free_list := none
    heap := []
    use_free_list := false }

/-- C: `create_freelist_arena(size_bytes)`. -/
def create_freelist_arena (size_bytes : Nat) : Arena :=
  { create_arena size_bytes with use_free_list := true }

/-- C: the `while (curr && curr < node)` scan of `arena_add_free_list`:
starting from `prev = curr = arena->free_list`, follow `next` while the
current node's address is below the new node's address. Returns the final
`(prev, curr)` pair. `none`: the walk read an address the heap holds no
node record for, or ran past the fuel (only possible on a cyclic or
corrupted list, where the C loop does not terminate normally). -/
def fl_find_pos (h : Heap) (nodeAddr : Nat) : Nat → Option Nat → Nat → Option (Nat × Option Nat)
  | _, _, 0 => none
  | prev, none, _ => some (prev, none)
  | prev, some a, fuel + 1 =>
    if a < nodeAddr then
      match hget h a with
      | none => none
      | some n => fl_find_pos h nodeAddr a n.next fuel
    else some (prev, some a)

/-- C: the merge scan of `arena_add_free_list`:
`while (curr && curr->next) { if (curr->ptr + curr->size_bytes ==
curr->next->ptr) { curr->size_bytes += curr->next->size_bytes;
curr->next = curr->next->next; } curr = curr->next; }`.
Address arithmetic and the size sum are `size_t`/`uintptr_t` computations,
hence the `% U64`. `none`: a read of untracked memory or fuel exhaustion
(the C loop reads garbage / never terminates there). -/
def fl_merge (h : Heap) : Option Nat → Nat → Option Heap
  | _, 0 => none
  | none, _ => some h
  | some a, fuel + 1 =>
    match hget h a with
    | none => none
    | some n =>
      match n.next with
      | none => some h
      | some b =>
        match hget h b with
        | none => none
        | some m =>
          if (n.ptr + n.size_bytes) % U64 = m.ptr then
            let h' := hset h a
              { n with size_bytes := (n.size_bytes + m.size_bytes) % U64, next := m.next }
            fl_merge h' m.next fuel
          else fl_merge h b fuel

/-- C: `arena_add_free_list(arena, ptr, size_bytes)`. No-op unless
`use_free_list`; no-op (reported) when `size_bytes < sizeof(FreeListNode)`.
Otherwise writes a node record into the freed memory at `ptr`, splices it
after the scan position (note: `arena->free_list` itself is only updated
when the list was empty), and runs the merge scan from the head.
`none`: the call does not complete normally (see `fl_find_pos`/`fl_merge`). -/
def arena_add_free_list (σ : Arena) (ptr size_bytes : Nat) : Option Arena :=
  if σ.use_free_list = false then some σ
  else if size_bytes < FREELISTNODE_SIZE then some σ
  else
    let h0 := hset σ.heap ptr { size_bytes := size_bytes, ptr := ptr, next := none }
    match σ.free_list with
    | none => some { σ with heap := h0, free_list := some ptr }
    | some head =>
      match fl_find_pos h0 ptr head (some head) (h0.length + 1) with
      | none => none
      | some (prevA, currO) =>
        match hget h0 prevA with
        | none => none
        | some pn =>
          let h1 := hset h0 prevA { pn with next := some ptr }
          match hget h1 ptr with
          | none => none
          | some nn =>
            let h2 := hset h1 ptr { nn with next := currO }
            match fl_merge h2 (some head) (h2.length + 1) with
            | none => none
            | some h3 => some { σ with heap := h3 }

/-- C: the growth loop of `arena_allocate`:
`curr = arena->end; while (curr->capacity - curr->data_count < size) { if
(curr->next == NULL) { uint32_t new_size = curr->capacity; if (size >
curr->capacity) new_size = size; curr->next = create_region(new_size *
sizeof(uintptr_t)); if (!curr->next) return NULL; } curr = curr->next; }`.
The capacity test subtracts in `size_t`; `new_size` is a `uint32_t`, so the
assigned values are reduced `% U32`. `mallocOK i` tells whether creating the
i-th region of the chain succeeds. Returns the final region list together
with `some` found index, or `none` for the C `return NULL` (the list keeps
any region that was already linked). Outer `none`: fuel ran out, which only
happens when the C loop keeps creating too-small regions forever. -/
def growth_walk (mallocOK : Nat → Bool) (size : Nat) :
    List Region → Nat → Nat → Option (List Region × Option Nat)
  | _, _, 0 => none
  | regs, i, fuel + 1 =>
    match regs[i]? with
    | none => none
    | some r =>
      if (r.capacity + U64 - r.data_count) % U64 < size then
        if i + 1 = regs.length then
          -- `uint32_t new_size = curr->capacity; if (size > curr->capacity) new_size = size;`
          match create_region (mallocOK regs.length)
              ((if size > r.capacity then size % U32 else r.capacity % U32) * UINTPTR_SIZE) with
          | none => some (regs, none)
          | some nr => growth_walk mallocOK size (regs ++ [nr]) (i + 1) fuel
        else growth_walk mallocOK size regs (i + 1) fuel
      else some (regs, some i)

/-- The growth path of `arena_allocate` (the code from `Region* curr =
arena->end;` on): run the growth loop, give up (NULL) if it did, else move
`end` to the found region and `region_allocate` from it. The fuel
`regions.length + 4` covers every terminating execution of the C loop: it
walks at most the existing chain and then creates at most two regions
before either succeeding or repeating a too-small creation forever. -/
def alloc_growth (B : Nat → Nat) (mallocOK : Nat → Bool) (σ : Arena) (size_bytes : Nat) :
    Option (Option Nat × Arena) :=
  match growth_walk mallocOK (ALIGN_SIZE size_bytes) σ.regions σ.endIdx (σ.regions.length + 4) with
  | none => none
  | some (regs', none) => some (none, { σ with regions := regs' })
  | some (regs', some rstar) =>
    match regs'[rstar]? with
    | none => none
    | some rr =>
      match region_allocate rr size_bytes with
      | none => some (none, { σ with regions := regs', endIdx := rstar })
      | some (off, rr') =>
        some (some (B rstar + UINTPTR_SIZE * off),
          { σ with regions := regs'.set rstar rr', endIdx := rstar })

/-- C: `arena_allocate(arena, size_bytes)`. Returns `some (res, σ')`: the C
call completed, returning pointer `res` (`none` = NULL) with post-state
`σ'`. Outer `none`: the call did not complete normally (fuel/untracked
read, see the loop models). Paths, in the C order: fast bump from `end`;
head-only free-list check (when `use_free_list` and the list is non-empty);
growth walk and `region_allocate` from the found/created region. -/
def arena_allocate (B : Nat → Nat) (mallocOK : Nat → Bool) (σ : Arena) (size_bytes : Nat) :
    Option (Option Nat × Arena) :=
  match σ.regions[σ.endIdx]? with
  | none => none
  | some er =>
    if (er.capacity + U64 - er.data_count) % U64 ≥ ALIGN_SIZE size_bytes then
      some (some (B σ.endIdx + UINTPTR_SIZE * er.data_count),
        { σ with regions := σ.regions.set σ.endIdx (bump_count er (ALIGN_SIZE size_bytes)) })
    else
      match σ.use_free_list, σ.free_list with
      | true, some head =>
        match hget σ.heap head with
        | none => none
        | some n =>
          if n.size_bytes ≥ size_bytes then some (some n.ptr, { σ with free_list := n.next })
          else alloc_growth B mallocOK σ size_bytes
      | true, none => alloc_growth B mallocOK σ size_bytes
      | false, _ => alloc_growth B mallocOK σ size_bytes

/-- C: `arena_scratch(arena)`: captures `(end, end->data_count)`. The
`count` field is a `uint32_t`, hence the `% U32`. `none` models the branch
where `arena->end == NULL` and the returned mark is uninitialised. -/
def arena_scratch (σ : Arena) : Option ArenaMark :=
  match σ.regions[σ.endIdx]? with
  | none => none
  | some er => some { reg := some σ.endIdx, count := er.data_count % U32 }

/-- The region-chain walk of `arena_pop_scratch`: set the marked region's
`data_count` to the saved count and zero the `data_count` of every region
after it. -/
def pop_walk (cnt : Nat) : List Region → Nat → List Region
  | [], _ => []
  | r :: rest, 0 => { r with data_count := cnt } :: rest.map region_reset
  | r :: rest, ri + 1 => r :: pop_walk cnt rest ri

/-- C: `arena_reset(arena)`: zero every region's `data_count`, set
`end = start`, drop the whole free list (node records in memory are not
touched, only the head pointer is cleared). -/
def arena_reset (σ : Arena) : Arena :=
  { σ with regions := σ.regions.map region_reset, endIdx := 0, free_list := none }

/-- C: `arena_pop_scratch(arena, m)`: for a NULL `m.reg` it resets the
arena; otherwise restores `m.reg->data_count = m.count`, zeroes every
region after `m.reg` and sets `end = m.reg`. The free list is untouched. -/
def arena_pop_scratch (σ : Arena) (m : ArenaMark) : Arena :=
  match m.reg with
  | none => arena_reset σ
  | some ri => { σ with regions := pop_walk m.count σ.regions ri, endIdx := ri }

/-- Total used alignment units of the arena, as `print_arena` sums them
(multiply by `UINTPTR_SIZE` for bytes). -/
def total_used (σ : Arena) : Nat := (σ.regions.map Region.data_count).sum

/-- The largest single-region capacity of the chain (regions are never
removed, so this is the largest capacity ever created). -/
def max_capacity (σ : Arena) : Nat := (σ.regions.map Region.capacity).foldr max 0

/-- The condition under which `arena_allocate σ size_bytes` is served from
the free list: the fast bump path fails and the head node (the only node the
code inspects) is large enough. Mirrors the branch structure of
`arena_allocate`. -/
def served_from_free_list (σ : Arena) (size_bytes : Nat) : Bool :=
  match σ.regions[σ.endIdx]? with
  | none => false
  | some er =>
    if (er.capacity + U64 - er.data_count) % U64 ≥ ALIGN_SIZE size_bytes then false
    else
      match σ.use_free_list, σ.free_list with
      | true, some head =>
        match hget σ.heap head with
        | none => false
        | some n => decide (n.size_bytes ≥ size_bytes)
      | _, _ => false

/-! ### Basic arithmetic and list lemmas -/

theorem U64_pos : 0 < U64 := by decide

theorem remCap_eq (r : Region) (h1 : r.data_count ≤ r.capacity) (h2 : r.capacity < U64) :
    (r.capacity + U64 - r.data_count) % U64 = r.capacity - r.data_count := by
  have e : r.capacity + U64 - r.data_count = U64 + (r.capacity - r.data_count) := by omega
  rw [e, Nat.add_mod_left, Nat.mod_eq_of_lt (by omega)]

theorem ALIGN_SIZE_eq (s : Nat) (h : s + 7 < U64) : ALIGN_SIZE s = (s + 7) / 8 * 8 := by
  unfold ALIGN_SIZE
  rw [Nat.mod_eq_of_lt h]

theorem ALIGN_SIZE_le (s : Nat) (h : s + 7 < U64) : s ≤ ALIGN_SIZE s := by
  rw [ALIGN_SIZE_eq s h]
  have h1 := Nat.div_add_mod (s + 7) 8
  have h2 : (s + 7) % 8 < 8 := Nat.mod_lt _ (by norm_num)
  omega

theorem ALIGN_SIZE_lt (s : Nat) : ALIGN_SIZE s < U64 := by
  unfold ALIGN_SIZE
  have h1 : (s + 7) % U64 < U64 := Nat.mod_lt _ U64_pos
  have h2 := Nat.div_add_mod ((s + 7) % U64) 8
  omega

theorem ALIGN_SIZE_dvd (s : Nat) : 8 ∣ ALIGN_SIZE s := Dvd.intro_left _ rfl

theorem ALIGN_SIZE_mono (s : Nat) (h : s + 7 < U64) : ALIGN_SIZE s ≤ s + 7 := by
  rw [ALIGN_SIZE_eq s h]
  have h1 := Nat.div_add_mod (s + 7) 8
  omega

theorem hget_hset_self (h : Heap) (a : Nat) (v : FreeListNode) :
    hget (hset h a v) a = some v := by
  induction h with
  | nil => simp [hset, hget]
  | cons p t ih =>
    by_cases hk : p.1 = a
    · simp [hset, hget, hk]
    · simp [hset, hget, hk, ih]

theorem hget_hset_ne (h : Heap) (a b : Nat) (v : FreeListNode) (hab : a ≠ b) :
    hget (hset h a v) b = hget h b := by
  induction h with
  | nil => simp [hset, hget, hab]
  | cons p t ih =>
    by_cases hk : p.1 = a
    · simp only [hset, hk, if_true, hget]
      rw [if_neg hab, if_neg (hk ▸ hab)]
    · simp only [hset, hk, if_false, hget]
      by_cases hb : p.1 = b
      · rw [if_pos hb, if_pos hb]
      · rw [if_neg hb, if_neg hb, ih]

theorem hset_length_of_get (h : Heap) (a : Nat) (v w : FreeListNode)
    (hm : hget h a = some w) : (hset h a v).length = h.length := by
  induction h with
  | nil => simp [hget] at hm
  | cons p t ih =>
    by_cases hk : p.1 = a
    · simp [hset, hk]
    · simp only [hget, hk, if_false] at hm
      simp [hset, hk, ih hm]

theorem hset_length_le (h : Heap) (a : Nat) (v : FreeListNode) :
    (hset h a v).length ≤ h.length + 1 := by
  induction h with
  | nil => simp [hset]
  | cons p t ih =>
    by_cases hk : p.1 = a
    · simp [hset, hk]
    · simp only [hset, hk, if_false, List.length_cons]
      omega

theorem list_set_getElem_self {α : Type} (l : List α) (i : Nat) (a : α)
    (h : l[i]? = some a) : l.set i a = l := by
  induction l generalizing i with
  | nil => simp at h
  | cons x t ih =>
    cases i with
    | zero => simp at h; simp [List.set, h]
    | succ j => simp at h; simp [List.set, ih j h]

/-! ### `pop_walk` lemmas -/

theorem pop_walk_length (c : Nat) (l : List Region) (ri : Nat) :
    (pop_walk c l ri).length = l.length := by
  induction l generalizing ri with
  | nil => simp [pop_walk]
  | cons r rest ih =>
    cases ri with
    | zero => simp [pop_walk]
    | succ j => simp [pop_walk, ih j]

theorem pop_walk_capacity (c : Nat) (l : List Region) (ri i : Nat) :
    ((pop_walk c l ri)[i]?).map Region.capacity = (l[i]?).map Region.capacity := by
  induction l generalizing ri i with
  | nil => simp [pop_walk]
  | cons r rest ih =>
    cases ri with
    | zero =>
      cases i with
      | zero => simp [pop_walk]
      | succ j =>
        simp only [pop_walk, List.getElem?_cons_succ, List.getElem?_map]
        cases rest[j]? <;> simp [region_reset]
    | succ rj =>
      cases i with
      | zero => simp [pop_walk]
      | succ j => simp only [pop_walk, List.getElem?_cons_succ]; exact ih rj j

theorem pop_walk_getElem_lt (c : Nat) (l : List Region) (ri i : Nat) (h : i < ri) :
    (pop_walk c l ri)[i]? = l[i]? := by
  induction l generalizing ri i with
  | nil => simp [pop_walk]
  | cons r rest ih =>
    cases ri with
    | zero => omega
    | succ rj =>
      cases i with
      | zero => simp [pop_walk]
      | succ j => simp only [pop_walk, List.getElem?_cons_succ]; exact ih rj j (by omega)

theorem pop_walk_getElem_eq (c : Nat) (l : List Region) (ri : Nat) (r : Region)
    (h : l[ri]? = some r) :
    (pop_walk c l ri)[ri]? = some { r with data_count := c } := by
  induction l generalizing ri with
  | nil => simp at h
  | cons x rest ih =>
    cases ri with
    | zero => simp at h; simp [pop_walk, h]
    | succ j =>
      simp at h
      simp only [pop_walk, List.getElem?_cons_succ]
      exact ih j h

theorem pop_walk_getElem_gt (c : Nat) (l : List Region) (ri i : Nat) (h : ri < i) :
    (pop_walk c l ri)[i]? = (l[i]?).map region_reset := by
  induction l generalizing ri i with
  | nil => simp [pop_walk]
  | cons r rest ih =>
    cases ri with
    | zero =>
      cases i with
      | zero => omega
      | succ j => simp [pop_walk]
    | succ rj =>
      cases i with
      | zero => omega
      | succ j => simp only [pop_walk, List.getElem?_cons_succ]; exact ih rj j (by omega)

/-! ### Claim C10: zero-size allocation -/

/-- Claim C10: `arena_allocate(arena, 0)` on an arena whose `end` region
exists always succeeds: the aligned size is 0, the fast path is taken
unconditionally, the returned pointer is the current bump position of the
`end` region (non-NULL since the region's buffer address is), the arena
state is left completely unchanged, and a second consecutive zero-size
allocation returns the very same address. -/
theorem c10_zero_size_alloc (B : Nat → Nat) (mallocOK : Nat → Bool) (σ : Arena) (er : Region)
    (her : σ.regions[σ.endIdx]? = some er) (hcnt : er.data_count < U64)
    (hB : 0 < B σ.endIdx) :
    arena_allocate B mallocOK σ 0 =
      some (some (B σ.endIdx + UINTPTR_SIZE * er.data_count), σ) ∧
    0 < B σ.endIdx + UINTPTR_SIZE * er.data_count ∧
    ((arena_allocate B mallocOK σ 0).bind fun p => arena_allocate B mallocOK p.2 0) =
      some (some (B σ.endIdx + UINTPTR_SIZE * er.data_count), σ) := by
  have ha : ALIGN_SIZE 0 = 0 := by decide
  have h1 : arena_allocate B mallocOK σ 0 =
      some (some (B σ.endIdx + UINTPTR_SIZE * er.data_count), σ) := by
    unfold arena_allocate
    rw [her, ha]
    have hb : bump_count er 0 = er := by
      unfold bump_count
      rw [Nat.add_zero, Nat.mod_eq_of_lt hcnt]
    simp only [ge_iff_le, Nat.zero_le, if_true, hb]
    rw [list_set_getElem_self σ.regions σ.endIdx er her]
  refine ⟨h1, by omega, ?_⟩
  rw [h1, Option.some_bind]
  simpa using h1

/-! ### Claim C9: pop does not touch the free list -/

/-- Claim C9: for every mark obtained from `arena_scratch` on a
recycling-enabled arena, `arena_pop_scratch` leaves the free-list head
pointer and every free-list node record unchanged; only the regions'
`data_count` fields and the arena's `end` pointer are modified (the chain
itself — its length and every region's capacity — is untouched). -/
theorem c9_pop_scratch_preserves_free_list (σ : Arena) (m : ArenaMark)
    (hfl : σ.use_free_list = true) (hm : arena_scratch σ = some m) :
    (arena_pop_scratch σ m).free_list = σ.free_list ∧
    (arena_pop_scratch σ m).heap = σ.heap ∧
    (arena_pop_scratch σ m).use_free_list = σ.use_free_list ∧
    (arena_pop_scratch σ m).regions.length = σ.regions.length ∧
    ∀ i : Nat, ((arena_pop_scratch σ m).regions[i]?).map Region.capacity =
      (σ.regions[i]?).map Region.capacity := by
  unfold arena_scratch at hm
  cases her : σ.regions[σ.endIdx]? with
  | none => rw [her] at hm; cases hm
  | some er =>
    rw [her] at hm
    have hmr : m = { reg := some σ.endIdx, count := er.data_count % U32 } :=
      (Option.some_injective _ hm).symm
    subst hmr
    unfold arena_pop_scratch
    exact ⟨rfl, rfl, rfl, pop_walk_length _ _ _, fun i => pop_walk_capacity _ _ _ i⟩

/-- Concrete arena for the C9 and C10 witness instantiations. -/
def witness_arena : Arena :=
  { regions := [{ data_count := 5, capacity := 64 }]
    endIdx := 0
    free_list := some 4000
    heap := [(4000, { size_bytes := 32, ptr := 4000, next := none })]
    use_free_list := true }

/-- Witness for C10 at a concrete arena and layout. -/
theorem c10_zero_size_alloc_witness :
    arena_allocate (fun i => 10000 * (i + 1)) (fun _ => true) witness_arena 0 =
      some (some (10000 * (0 + 1) + UINTPTR_SIZE * 5), witness_arena) ∧
    0 < 10000 * (0 + 1) + UINTPTR_SIZE * 5 ∧
    ((arena_allocate (fun i => 10000 * (i + 1)) (fun _ => true) witness_arena 0).bind
        fun p => arena_allocate (fun i => 10000 * (i + 1)) (fun _ => true) p.2 0) =
      some (some (10000 * (0 + 1) + UINTPTR_SIZE * 5), witness_arena) :=
  c10_zero_size_alloc (fun i => 10000 * (i + 1)) (fun _ => true) witness_arena
    { data_count := 5, capacity := 64 } (by decide) (by decide) (by decide)

/-- Witness for C9 at a concrete arena. -/
theorem c9_pop_scratch_preserves_free_list_witness :
    (arena_pop_scratch witness_arena { reg := some 0, count := 5 }).free_list =
      witness_arena.free_list ∧
    (arena_pop_scratch witness_arena { reg := some 0, count := 5 }).heap =
      witness_arena.heap ∧
    (arena_pop_scratch witness_arena { reg := some 0, count := 5 }).use_free_list =
      witness_arena.use_free_list ∧
    (arena_pop_scratch witness_arena { reg := some 0, count := 5 }).regions.length =
      witness_arena.regions.length ∧
    ∀ i : Nat, ((arena_pop_scratch witness_arena { reg := some 0, count := 5 }).regions[i]?).map
        Region.capacity = (witness_arena.regions[i]?).map Region.capacity :=
  c9_pop_scratch_preserves_free_list witness_arena { reg := some 0, count := 5 }
    (by decide) (by decide)

/-! ### `growth_walk` characterisation lemmas -/

theorem growth_walk_no_first_create (mallocOK : Nat → Bool) (size : Nat) (regs : List Region)
    (hmal : mallocOK regs.length = false) :
    ∀ fuel i regs' res, growth_walk mallocOK size regs i fuel = some (regs', res) →
      regs' = regs := by
  intro fuel
  induction fuel with
  | zero => intro i regs' res h; cases h
  | succ f ih =>
    intro i regs' res h
    unfold growth_walk at h
    split at h
    · cases h
    · split at h
      · split at h
        · split at h
          · cases h
            rfl
          · rename_i nr hcr
            rw [create_region, hmal, if_neg (by simp)] at hcr
            cases hcr
        · exact ih (i + 1) regs' res h
      · cases h
        rfl

theorem growth_walk_found (mallocOK : Nat → Bool) (size : Nat) :
    ∀ fuel regs i regs' rstar,
      growth_walk mallocOK size regs i fuel = some (regs', some rstar) →
      ∃ rr, regs'[rstar]? = some rr ∧ (rr.capacity + U64 - rr.data_count) % U64 ≥ size := by
  intro fuel
  induction fuel with
  | zero => intro regs i regs' rstar h; cases h
  | succ f ih =>
    intro regs i regs' rstar h
    unfold growth_walk at h
    split at h
    · cases h
    · rename_i r her
      split at h
      · split at h
        · split at h
          · simp at h
          · exact ih _ _ _ _ h
        · exact ih _ _ _ _ h
      · cases h
        exact ⟨r, her, by omega⟩

/-! ### Claim C7: failure leaves the arena unchanged -/

/-- Claim C7 (amended): when the backing buffer of the *first* Region
created during an `arena_allocate` call cannot be obtained — which is the
only possible creation failure whenever every capacity is below `2 ^ 32`,
the `uint32_t` truncation of `new_size` being the sole reason a second
creation can be reached — a failing `arena_allocate` leaves the arena
exactly as before the call: no partially linked Region, and every region's
used count, the `end` pointer and the free list are unchanged. -/
theorem c7_alloc_failure_preserves_state (B : Nat → Nat) (mallocOK : Nat → Bool)
    (σ σ' : Arena) (s : Nat)
    (hcnt : ∀ r ∈ σ.regions, r.data_count ≤ r.capacity)
    (hcap : ∀ r ∈ σ.regions, r.capacity < U64)
    (hmal : mallocOK σ.regions.length = false)
    (hres : arena_allocate B mallocOK σ s = some (none, σ')) :
    σ' = σ := by
  have hgrowth : alloc_growth B mallocOK σ s = some (none, σ') → σ' = σ := by
    intro hg
    unfold alloc_growth at hg
    split at hg
    · cases hg
    · rename_i regs' hw
      have hregs : regs' = σ.regions :=
        growth_walk_no_first_create mallocOK (ALIGN_SIZE s) σ.regions hmal _ _ _ _ hw
      subst hregs
      cases hg
      rfl
    · rename_i regs' rstar hw
      have hregs : regs' = σ.regions :=
        growth_walk_no_first_create mallocOK (ALIGN_SIZE s) σ.regions hmal _ _ _ _ hw
      subst hregs
      obtain ⟨rr, hrr, hsz⟩ := growth_walk_found mallocOK (ALIGN_SIZE s) _ _ _ _ _ hw
      split at hg
      · cases hg
      · rename_i rr' hrr'
        rw [hrr] at hrr'
        cases hrr'
        -- region_allocate cannot fail: the walk guarantees the fit
        have hmem : rr ∈ σ.regions := List.getElem?_mem hrr
        have h1 : rr.data_count ≤ rr.capacity := hcnt rr hmem
        have h2 : rr.capacity < U64 := hcap rr hmem
        rw [remCap_eq rr h1 h2] at hsz
        have hfit : (rr.data_count + ALIGN_SIZE s) % U64 ≤ rr.capacity := by
          rw [Nat.mod_eq_of_lt (by omega)]
          omega
        have hra : region_allocate rr s = some (rr.data_count, bump_count rr (ALIGN_SIZE s)) := by
          unfold region_allocate
          rw [if_neg (by omega)]
        rw [hra] at hg
        simp at hg
  unfold arena_allocate at hres
  split at hres
  · cases hres
  · split at hres
    · simp at hres
    · split at hres
      · split at hres
        · cases hres
        · split at hres
          · simp at hres
          · exact hgrowth hres
      · exact hgrowth hres
      · exact hgrowth hres

/-- A reachable arena one of whose regions holds `2 ^ 32` capacity units
(a region of that size is created by growing for a ~0.5 GiB request from a
`2 ^ 29`-unit tail). Its `end` region is full. -/
def c7_sigma : Arena :=
  { regions := [{ data_count := 2 ^ 32, capacity := 2 ^ 32 }]
    endIdx := 0
    free_list := none
    heap := []
    use_free_list := false }

/-- Claim C7, counterexample: with a full `2 ^ 32`-unit `end` region, an
`arena_allocate(100)` whose first created region gets capacity 0 (the
`uint32_t new_size` truncates `2 ^ 32` to 0) and whose second creation
fails returns NULL but leaves the freshly created zero-capacity region
linked into the chain: the arena is *not* exactly as before the call. -/
theorem c7_failure_changes_arena :
    arena_allocate (fun i => 10000 * (i + 1)) (fun i => decide (i = 1)) c7_sigma 100 =
      some (none, { c7_sigma with
        regions := [{ data_count := 2 ^ 32, capacity := 2 ^ 32 },
                    { data_count := 0, capacity := 0 }] }) ∧
    ({ c7_sigma with
        regions := [{ data_count := 2 ^ 32, capacity := 2 ^ 32 },
                    { data_count := 0, capacity := 0 }] } : Arena) ≠ c7_sigma := by
  constructor
  · rfl
  · decide

/-- Witness for the amended C7 theorem: a concrete failing allocation on a
small arena with malloc failing at the first creation. -/
theorem c7_alloc_failure_preserves_state_witness :
    ({ regions := [{ data_count := 8, capacity := 8 }], endIdx := 0, free_list := none,
       heap := [], use_free_list := false } : Arena) =
    ({ regions := [{ data_count := 8, capacity := 8 }], endIdx := 0, free_list := none,
       heap := [], use_free_list := false } : Arena) :=
  c7_alloc_failure_preserves_state (fun i => 10000 * (i + 1)) (fun _ => false)
    { regions := [{ data_count := 8, capacity := 8 }], endIdx := 0, free_list := none,
      heap := [], use_free_list := false }
    { regions := [{ data_count := 8, capacity := 8 }], endIdx := 0, free_list := none,
      heap := [], use_free_list := false }
    100 (by decide) (by decide) (by decide) (by rfl)

/-! ### Claim C5: growth capacity policy -/

theorem growth_walk_all_insufficient (mallocOK : Nat → Bool) (size : Nat) (regs : List Region)
    (tl nr : Region)
    (htl : regs[regs.length - 1]? = some tl)
    (hmal : mallocOK regs.length = true)
    (hnr : nr = create_region_mem
      ((if size > tl.capacity then size % U32 else tl.capacity % U32) * UINTPTR_SIZE))
    (hfits : ¬ (nr.capacity + U64 - nr.data_count) % U64 < size) :
    ∀ fuel i, i < regs.length → regs.length - i + 2 ≤ fuel →
      (∀ j r, i ≤ j → regs[j]? = some r → (r.capacity + U64 - r.data_count) % U64 < size) →
      growth_walk mallocOK size regs i fuel = some (regs ++ [nr], some regs.length) := by
  intro fuel
  induction fuel with
  | zero => intro i hi hf _; omega
  | succ f ih =>
    intro i hi hf hins
    have hri : ∃ r, regs[i]? = some r := by
      rw [List.getElem?_eq_getElem hi]
      exact ⟨_, rfl⟩
    obtain ⟨r, hr⟩ := hri
    simp only [growth_walk, hr]
    rw [if_pos (hins i r (le_refl i) hr)]
    by_cases hlast : i + 1 = regs.length
    · rw [if_pos hlast]
      have hrtl : r = tl := by
        have : i = regs.length - 1 := by omega
        rw [this] at hr
        rw [htl] at hr
        exact (Option.some_injective _ hr).symm
      subst hrtl
      rw [show create_region (mallocOK regs.length)
          ((if size > r.capacity then size % U32 else r.capacity % U32) * UINTPTR_SIZE) =
          some nr by rw [create_region, hmal, if_pos rfl, hnr]]
      -- one more unfolding step: the walk stops at the freshly created region
      cases f with
      | zero => omega
      | succ f2 =>
        have hget2 : (regs ++ [nr])[i + 1]? = some nr := by
          rw [hlast, List.getElem?_append_right (le_refl regs.length)]
          simp
        simp only [growth_walk, hget2]
        rw [if_neg hfits, hlast]
    · rw [if_neg hlast]
      have := ih (i + 1) (by omega) (by omega)
        (fun j rj hj hrj => hins j rj (by omega) hrj)
      exact this

/-- Claim C5, counterexample: from a fresh 1024-byte arena, `allocate(600)`
then `allocate(600)` triggers one growth; the created region's capacity is
8192 units — `sizeof(uintptr_t)` times the last region's capacity — not
`max(last capacity, requested size) = 1024`. -/
theorem c5_capacity_counterexample :
    ((match arena_allocate (fun i => 10000 * (i + 1)) (fun _ => true) (create_arena 1024) 600 with
      | some (_, σ1) => arena_allocate (fun i => 10000 * (i + 1)) (fun _ => true) σ1 600
      | none => none).map fun (p : Option Nat × Arena) => p.2.regions.map Region.capacity) =
      some [1024, 8192] ∧
    (8192 : Nat) ≠ max 1024 600 := by
  constructor
  · rfl
  · decide

theorem list_set_append_length {α : Type} (l : List α) (a b : α) :
    (l ++ [a]).set l.length b = l ++ [b] := by
  induction l with
  | nil => rfl
  | cons x t ih => simp [List.set, ih]

theorem ALIGN_SIZE_of_dvd (n : Nat) (hd : 8 ∣ n) (hn : n + 7 < U64) : ALIGN_SIZE n = n := by
  obtain ⟨k, rfl⟩ := hd
  unfold ALIGN_SIZE
  rw [Nat.mod_eq_of_lt hn]
  omega

/-- The region the C5 growth step creates, after serving the allocation:
`data_count` holds the aligned request, the capacity is
`sizeof(uintptr_t) * max(tail capacity, aligned size)`. -/
def grown_region (tlcap alignS : Nat) : Region :=
  { data_count := alignS, capacity := max tlcap alignS * UINTPTR_SIZE }

/-- When the fast path fails and the recycling path is unavailable
(recycling off or empty free list), `arena_allocate` is its growth path. -/
theorem arena_allocate_fastfail_nofl (B : Nat → Nat) (mallocOK : Nat → Bool) (σ : Arena)
    (s : Nat) (er : Region)
    (her : σ.regions[σ.endIdx]? = some er)
    (hc : ¬ (er.capacity + U64 - er.data_count) % U64 ≥ ALIGN_SIZE s)
    (hnofl : σ.use_free_list = false ∨ σ.free_list = none) :
    arena_allocate B mallocOK σ s = alloc_growth B mallocOK σ s := by
  unfold arena_allocate
  simp only [her]
  rw [if_neg hc]
  cases husf : σ.use_free_list with
  | false => rfl
  | true =>
    have hflnone : σ.free_list = none := by
      rcases hnofl with h | h
      · rw [husf] at h; cases h
      · exact h
    rw [hflnone]

/-- The region `create_region` makes on the C5 growth step, before the
allocation is served from it. -/
def new_region0 (tlcap alignS : Nat) : Region :=
  { data_count := 0, capacity := max tlcap alignS * UINTPTR_SIZE }

/-- Claim C5 (amended): when the growth path of `arena_allocate` finds no
existing Region with sufficient remaining capacity, the newly created
Region's capacity equals `sizeof(uintptr_t) *` max(the last Region's
capacity, the aligned requested size) — each `max` operand truncated to
`uint32_t`, which below `2 ^ 32` is no truncation — not that max itself.
The allocation is served entirely inside the single new Region (its `s`
requested bytes fit in the region's data area), and in the untruncated
regime the new capacity is at least the last Region's, so capacities stay
monotonically non-decreasing along the chain. -/
theorem c5_growth_capacity (B : Nat → Nat) (mallocOK : Nat → Bool) (σ : Arena) (s : Nat)
    (tl : Region)
    (hcnt : ∀ r ∈ σ.regions, r.data_count ≤ r.capacity)
    (hcap : ∀ r ∈ σ.regions, r.capacity < U32)
    (hend : σ.endIdx < σ.regions.length)
    (htl : σ.regions[σ.regions.length - 1]? = some tl)
    (hs : ALIGN_SIZE s < U32)
    (hs7 : s + 7 < U64)
    (hmal : mallocOK σ.regions.length = true)
    (hnofl : σ.use_free_list = false ∨ σ.free_list = none)
    (hins : ∀ j r, σ.endIdx ≤ j → σ.regions[j]? = some r →
      r.capacity - r.data_count < ALIGN_SIZE s) :
    arena_allocate B mallocOK σ s = some (some (B σ.regions.length),
      { σ with
        regions := σ.regions ++ [grown_region tl.capacity (ALIGN_SIZE s)]
        endIdx := σ.regions.length }) ∧
    tl.capacity ≤ max tl.capacity (ALIGN_SIZE s) * UINTPTR_SIZE ∧
    s ≤ max tl.capacity (ALIGN_SIZE s) * UINTPTR_SIZE * UINTPTR_SIZE := by
  have htlmem : tl ∈ σ.regions := List.getElem?_mem htl
  have htlcap : tl.capacity < U32 := hcap tl htlmem
  have hsle : s ≤ ALIGN_SIZE s := ALIGN_SIZE_le s hs7
  have h8 : max tl.capacity (ALIGN_SIZE s) ≤ max tl.capacity (ALIGN_SIZE s) * UINTPTR_SIZE :=
    Nat.le_mul_of_pos_right _ (by decide)
  -- the capacity the C code computes for the new region
  have hifmax : (if ALIGN_SIZE s > tl.capacity then ALIGN_SIZE s % U32 else tl.capacity % U32) =
      max tl.capacity (ALIGN_SIZE s) := by
    rw [Nat.mod_eq_of_lt hs, Nat.mod_eq_of_lt htlcap]
    rcases Nat.lt_or_ge tl.capacity (ALIGN_SIZE s) with h | h
    · rw [if_pos h, Nat.max_eq_right (le_of_lt h)]
    · rw [if_neg (by omega), Nat.max_eq_left h]
  have hcapnew : max tl.capacity (ALIGN_SIZE s) * UINTPTR_SIZE + 7 < U64 := by
    have h1 : max tl.capacity (ALIGN_SIZE s) < U32 := Nat.max_lt.mpr ⟨htlcap, hs⟩
    have h2 : max tl.capacity (ALIGN_SIZE s) * UINTPTR_SIZE ≤ U32 * UINTPTR_SIZE :=
      Nat.mul_le_mul_right _ (le_of_lt h1)
    have h3 : U32 * UINTPTR_SIZE + 7 < U64 := by decide
    omega
  have hnrdef : create_region_mem
      ((if ALIGN_SIZE s > tl.capacity then ALIGN_SIZE s % U32 else tl.capacity % U32) *
        UINTPTR_SIZE) = new_region0 tl.capacity (ALIGN_SIZE s) := by
    rw [hifmax]
    unfold create_region_mem new_region0
    rw [ALIGN_SIZE_of_dvd _ ⟨max tl.capacity (ALIGN_SIZE s), by
      show _ = 8 * _
      rw [Nat.mul_comm]
      rfl⟩ hcapnew]
  have hfits : ¬ ((new_region0 tl.capacity (ALIGN_SIZE s)).capacity + U64 -
      (new_region0 tl.capacity (ALIGN_SIZE s)).data_count) % U64 < ALIGN_SIZE s := by
    show ¬ (max tl.capacity (ALIGN_SIZE s) * UINTPTR_SIZE + U64 - 0) % U64 < ALIGN_SIZE s
    rw [Nat.sub_zero, Nat.add_mod_right, Nat.mod_eq_of_lt (by omega)]
    have h1 : ALIGN_SIZE s ≤ max tl.capacity (ALIGN_SIZE s) := Nat.le_max_right _ _
    omega
  have hinsU : ∀ j r, σ.endIdx ≤ j → σ.regions[j]? = some r →
      (r.capacity + U64 - r.data_count) % U64 < ALIGN_SIZE s := by
    intro j r hj hr
    have hm : r ∈ σ.regions := List.getElem?_mem hr
    rw [remCap_eq r (hcnt r hm) (by have := hcap r hm; unfold U32 U64 at *; omega)]
    exact hins j r hj hr
  have hwalk := growth_walk_all_insufficient mallocOK (ALIGN_SIZE s) σ.regions tl
    (new_region0 tl.capacity (ALIGN_SIZE s))
    htl hmal hnrdef.symm hfits (σ.regions.length + 4) σ.endIdx hend (by omega) hinsU
  have hgrowth : alloc_growth B mallocOK σ s = some (some (B σ.regions.length),
      { σ with
        regions := σ.regions ++ [grown_region tl.capacity (ALIGN_SIZE s)]
        endIdx := σ.regions.length }) := by
    unfold alloc_growth
    rw [hwalk]
    have hget2 : (σ.regions ++ [new_region0 tl.capacity (ALIGN_SIZE s)])[σ.regions.length]? =
        some (new_region0 tl.capacity (ALIGN_SIZE s)) := by
      rw [List.getElem?_append_right (le_refl σ.regions.length)]
      simp
    simp only [hget2]
    have hra : region_allocate (new_region0 tl.capacity (ALIGN_SIZE s)) s =
        some (0, bump_count (new_region0 tl.capacity (ALIGN_SIZE s)) (ALIGN_SIZE s)) := by
      unfold region_allocate
      rw [if_neg (by
        show ¬ (0 + ALIGN_SIZE s) % U64 > max tl.capacity (ALIGN_SIZE s) * UINTPTR_SIZE
        rw [Nat.zero_add, Nat.mod_eq_of_lt (ALIGN_SIZE_lt s)]
        have h1 : ALIGN_SIZE s ≤ max tl.capacity (ALIGN_SIZE s) := Nat.le_max_right _ _
        omega)]
      rfl
    simp only [hra]
    have hbump : bump_count (new_region0 tl.capacity (ALIGN_SIZE s)) (ALIGN_SIZE s) =
        grown_region tl.capacity (ALIGN_SIZE s) := by
      unfold bump_count new_region0 grown_region
      rw [show ((0 : Nat) + ALIGN_SIZE s) % U64 = ALIGN_SIZE s from by
        rw [Nat.zero_add, Nat.mod_eq_of_lt (ALIGN_SIZE_lt s)]]
    rw [hbump, list_set_append_length]
    rw [Nat.mul_zero, Nat.add_zero]
  have hmain : arena_allocate B mallocOK σ s = some (some (B σ.regions.length),
      { σ with
        regions := σ.regions ++ [grown_region tl.capacity (ALIGN_SIZE s)]
        endIdx := σ.regions.length }) := by
    obtain ⟨er, her⟩ : ∃ er, σ.regions[σ.endIdx]? = some er := by
      rw [List.getElem?_eq_getElem hend]; exact ⟨_, rfl⟩
    rw [arena_allocate_fastfail_nofl B mallocOK σ s er her (by
      have := hinsU σ.endIdx er (le_refl _) her
      omega) hnofl]
    exact hgrowth
  refine ⟨hmain, ?_, ?_⟩
  · have h1 := Nat.le_max_left tl.capacity (ALIGN_SIZE s)
    omega
  · have h1 : ALIGN_SIZE s ≤ max tl.capacity (ALIGN_SIZE s) := Nat.le_max_right _ _
    have h82 : max tl.capacity (ALIGN_SIZE s) * UINTPTR_SIZE ≤
        max tl.capacity (ALIGN_SIZE s) * UINTPTR_SIZE * UINTPTR_SIZE :=
      Nat.le_mul_of_pos_right _ (by decide)
    omega

/-- The arena of the C5 witness: a fresh 1024-byte arena after one
`allocate(600)`. -/
def c5_sigma : Arena :=
  { regions := [{ data_count := 600, capacity := 1024 }]
    endIdx := 0
    free_list := none
    heap := []
    use_free_list := false }

/-- Witness for the amended C5 theorem at a concrete growth step. -/
theorem c5_growth_capacity_witness :
    arena_allocate (fun i => 10000 * (i + 1)) (fun _ => true) c5_sigma 600 =
      some (some 20000,
        { regions := [{ data_count := 600, capacity := 1024 },
                      { data_count := 600, capacity := 8192 }]
          endIdx := 1
          free_list := none
          heap := []
          use_free_list := false }) ∧
    (1024 : Nat) ≤ 8192 ∧ (600 : Nat) ≤ 65536 := by
  exact c5_growth_capacity (fun i => 10000 * (i + 1)) (fun _ => true) c5_sigma 600
    { data_count := 600, capacity := 1024 }
    (by decide) (by decide) (by decide) (by rfl) (by decide) (by decide) (by rfl)
    (Or.inl rfl)
    (by
      intro j r _ hr
      cases j with
      | zero =>
        have : r = { data_count := 600, capacity := 1024 } := by
          have h0 : (c5_sigma.regions[0]?) = some { data_count := 600, capacity := 1024 } := rfl
          rw [h0] at hr
          exact (Option.some_injective _ hr).symm
        rw [this]
        decide
      | succ k => simp [c5_sigma] at hr)

/-! ### Claims C2, C3, C4: free-list behaviour at concrete, reachable states -/

/-- A concrete memory layout for the code-bug evaluations: the i-th region's
data array starts at byte `10000 * (i + 1)` (8-aligned, disjoint areas). -/
def layoutB : Nat → Nat := fun i => 10000 * (i + 1)

/-- All backing-buffer allocations succeed. -/
def mallocAll : Nat → Bool := fun _ => true

/-- C3: a recycling arena built by `create_freelist_arena(512)`, three
allocations (24, 200 and 288 bytes) filling its region, then deallocation
of the first two blocks: the free list holds a 24-byte node at 10000 and a
200-byte node at 10192. -/
def c3_state : Option Arena :=
  (arena_allocate layoutB mallocAll (create_freelist_arena 512) 24).bind fun p1 =>
  (arena_allocate layoutB mallocAll p1.2 200).bind fun p2 =>
  (arena_allocate layoutB mallocAll p2.2 288).bind fun p3 =>
  (arena_add_free_list p3.2 10000 24).bind fun a1 =>
  arena_add_free_list a1 10192 200

/-- Claim C3, failing input: with the bump region full, the free list
holding a 24-byte head node at 10000 and a 200-byte node at 10192,
`arena_allocate(100)` does *not* splice the fitting 200-byte node: it only
inspects the head (24 < 100), falls through to growth and returns the
fresh region's address 20000, leaving both free nodes in place. -/
theorem c3_firstfit_only_checks_head :
    c3_state = some
      { regions := [{ data_count := 512, capacity := 512 }]
        endIdx := 0
        free_list := some 10000
        heap := [(10000, { size_bytes := 24, ptr := 10000, next := some 10192 }),
                 (10192, { size_bytes := 200, ptr := 10192, next := none })]
        use_free_list := true } ∧
    (c3_state.bind fun σ => arena_allocate layoutB mallocAll σ 100) = some (some 20000,
      { regions := [{ data_count := 512, capacity := 512 },
                    { data_count := 104, capacity := 4096 }]
        endIdx := 1
        free_list := some 10000
        heap := [(10000, { size_bytes := 24, ptr := 10000, next := some 10192 }),
                 (10192, { size_bytes := 200, ptr := 10192, next := none })]
        use_free_list := true }) ∧
    (200 : Nat) ≥ 100 ∧ (20000 : Nat) ≠ 10192 := by
  exact ⟨rfl, rfl, by decide, by decide⟩

/-- C4: a recycling arena with two 32-byte allocations at 10000 and 10256;
the one at the higher address 10256 has been deallocated, so the free list
is the single node at 10256. -/
def c4_state : Option Arena :=
  (arena_allocate layoutB mallocAll (create_freelist_arena 512) 32).bind fun p1 =>
  (arena_allocate layoutB mallocAll p1.2 32).bind fun p2 =>
  arena_add_free_list p2.2 10256 32

/-- Claim C4, failing input: deallocating the block at 10000, whose address
is *lower* than the head node's 10256, corrupts the list instead of keeping
it sorted and acyclic: the insertion writes leave `free_list` at 10256 and
link 10256 → 10000 → 10256 (a cycle, not an address-sorted list), and the
following merge scan — and hence the whole `arena_add_free_list` call —
never terminates (`none`). -/
theorem c4_low_address_insert_corrupts :
    c4_state = some
      { regions := [{ data_count := 64, capacity := 512 }]
        endIdx := 0
        free_list := some 10256
        heap := [(10256, { size_bytes := 32, ptr := 10256, next := none })]
        use_free_list := true } ∧
    -- the C writes: node init at 10000, `prev->next = node`, `node->next = curr`
    hset (hset (hset [(10256, { size_bytes := 32, ptr := 10256, next := none })]
        10000 { size_bytes := 32, ptr := 10000, next := none })
        10256 { size_bytes := 32, ptr := 10256, next := some 10000 })
        10000 { size_bytes := 32, ptr := 10000, next := some 10256 } =
      [(10256, { size_bytes := 32, ptr := 10256, next := some 10000 }),
       (10000, { size_bytes := 32, ptr := 10000, next := some 10256 })] ∧
    fl_merge [(10256, { size_bytes := 32, ptr := 10256, next := some 10000 }),
              (10000, { size_bytes := 32, ptr := 10000, next := some 10256 })]
      (some 10256) 3 = none ∧
    (c4_state.bind fun σ => arena_add_free_list σ 10000 32) = none := by
  exact ⟨rfl, rfl, rfl, rfl⟩

/-- C2: a recycling arena with a 192-byte block reserved at
[10000, 11536) and a 200-byte block reserved at [11536, 13136); the higher
block B has been deallocated as (11536, 1600), making it the free-list
head. The lower block A spans [10000, 11536): A and B are exactly
address-adjacent. -/
def c2_state : Option Arena :=
  (arena_allocate layoutB mallocAll (create_freelist_arena 512) 192).bind fun p1 =>
  (arena_allocate layoutB mallocAll p1.2 200).bind fun p2 =>
  arena_add_free_list p2.2 11536 1600

/-- Claim C2, failing input: deallocating B then the address-adjacent lower
block A — one of the two orders the claim covers — makes
`arena_add_free_list` corrupt the list into a cycle and loop forever
(`none`): no merged single entry spanning A ∪ B ever results. -/
theorem c2_adjacent_dealloc_descending_diverges :
    c2_state = some
      { regions := [{ data_count := 392, capacity := 512 }]
        endIdx := 0
        free_list := some 11536
        heap := [(11536, { size_bytes := 1600, ptr := 11536, next := none })]
        use_free_list := true } ∧
    (10000 : Nat) + 1536 = 11536 ∧
    (c2_state.bind fun σ => arena_add_free_list σ 10000 1536) = none := by
  exact ⟨rfl, by decide, rfl⟩

/-! ### Claim C6: mark/pop round trip -/

/-- Full characterisation of a successful growth walk: the final chain
extends the initial one by zero-count regions, every region strictly
before the found index (from the start position on) lacks space, and the
found region has space. A found index inside the initial chain means
nothing was created. -/
theorem growth_walk_spec (mallocOK : Nat → Bool) (size : Nat) :
    ∀ fuel regs i regs' rstar,
      growth_walk mallocOK size regs i fuel = some (regs', some rstar) →
      i ≤ rstar ∧ rstar < regs'.length ∧
      (∃ ext, regs' = regs ++ ext ∧
        ∀ e ∈ ext, e.data_count = 0 ∧ e.capacity < U64) ∧
      (∀ j rj, i ≤ j → j < rstar → regs'[j]? = some rj →
        (rj.capacity + U64 - rj.data_count) % U64 < size) ∧
      (∃ rr, regs'[rstar]? = some rr ∧ (rr.capacity + U64 - rr.data_count) % U64 ≥ size) ∧
      (rstar < regs.length → regs' = regs) := by
  intro fuel
  induction fuel with
  | zero => intro regs i regs' rstar h; cases h
  | succ f ih =>
    intro regs i regs' rstar h
    unfold growth_walk at h
    split at h
    · cases h
    · rename_i r her
      split at h
      · rename_i hins
        split at h
        · rename_i hlast
          split at h
          · simp at h
          · rename_i nr hcr
            have hnr : nr = create_region_mem
                ((if size > r.capacity then size % U32 else r.capacity % U32) * UINTPTR_SIZE) := by
              unfold create_region at hcr
              split at hcr
              · exact (Option.some_injective _ hcr).symm
              · cases hcr
            obtain ⟨h1, h2, ⟨ext, hext, hext0⟩, h4, h5, h6⟩ := ih _ _ _ _ h
            refine ⟨by omega, h2, ⟨nr :: ext, by rw [hext]; simp, ?_⟩, ?_, h5, ?_⟩
            · intro e he
              rcases List.mem_cons.mp he with rfl | he2
              · exact ⟨by rw [hnr]; rfl, by rw [hnr]; exact ALIGN_SIZE_lt _⟩
              · exact hext0 e he2
            · intro j rj hj1 hj2 hrj
              by_cases hji : j = i
              · subst hji
                have hq : regs'[j]? = regs[j]? := by
                  rw [hext]
                  rw [List.getElem?_append_left (by
                    rw [List.length_append, List.length_cons, List.length_nil]
                    omega)]
                  exact List.getElem?_append_left (by omega)
                rw [hq, her] at hrj
                have := Option.some_injective _ hrj
                subst this
                exact hins
              · exact h4 j rj (by omega) hj2 hrj
            · intro hlt
              omega
        · rename_i hlast
          obtain ⟨h1, h2, h3, h4, h5, h6⟩ := ih _ _ _ _ h
          refine ⟨by omega, h2, h3, ?_, h5, h6⟩
          intro j rj hj1 hj2 hrj
          by_cases hji : j = i
          · subst hji
            obtain ⟨ext, hext, _⟩ := h3
            have hq : regs'[j]? = regs[j]? := by
              rw [hext]
              exact List.getElem?_append_left (List.getElem?_eq_some.mp her).1
            rw [hq, her] at hrj
            have := Option.some_injective _ hrj
            subst this
            exact hins
          · exact h4 j rj (by omega) hj2 hrj
      · rename_i hsuff
        cases h
        refine ⟨le_refl _, (List.getElem?_eq_some.mp her).1, ⟨[], by simp, by simp⟩,
          ?_, ⟨r, her, by omega⟩, fun _ => rfl⟩
        intro j rj hj1 hj2 _
        omega

/-- Evaluation of the growth walk when a sufficient region already exists in
the chain at index `rstar` and everything from `i` up to it lacks space:
nothing is created and `rstar` is found. -/
theorem growth_walk_eval (mallocOK : Nat → Bool) (size : Nat) (regs : List Region)
    (rstar i0 : Nat) (rr : Region)
    (hrr : regs[rstar]? = some rr)
    (hsuff : ¬ (rr.capacity + U64 - rr.data_count) % U64 < size)
    (hins : ∀ j rj, i0 ≤ j → j < rstar → regs[j]? = some rj →
      (rj.capacity + U64 - rj.data_count) % U64 < size) :
    ∀ fuel i, i0 ≤ i → i ≤ rstar → rstar - i < fuel →
      growth_walk mallocOK size regs i fuel = some (regs, some rstar) := by
  have hlen : rstar < regs.length := (List.getElem?_eq_some.mp hrr).1
  intro fuel
  induction fuel with
  | zero => intro i _ _ h; omega
  | succ f ih =>
    intro i hi0 hi hf
    rcases Nat.eq_or_lt_of_le hi with rfl | hlt
    · unfold growth_walk
      simp only [hrr]
      rw [if_neg hsuff]
    · have hil : i < regs.length := by omega
      obtain ⟨ri, hri⟩ : ∃ ri, regs[i]? = some ri := by
        rw [List.getElem?_eq_getElem hil]; exact ⟨_, rfl⟩
      unfold growth_walk
      simp only [hri]
      rw [if_pos (hins i ri hi0 hlt hri)]
      rw [if_neg (by omega)]
      exact ih (i + 1) (by omega) (by omega) (by omega)

/-- When the fast path fails and the free-list head is too small (the only
node the code inspects), `arena_allocate` is its growth path. -/
theorem arena_allocate_fastfail_headsmall (B : Nat → Nat) (mallocOK : Nat → Bool) (σ : Arena)
    (s : Nat) (er : Region) (head : Nat) (n : FreeListNode)
    (her : σ.regions[σ.endIdx]? = some er)
    (hc : ¬ (er.capacity + U64 - er.data_count) % U64 ≥ ALIGN_SIZE s)
    (husf : σ.use_free_list = true)
    (hfl : σ.free_list = some head)
    (hn : hget σ.heap head = some n)
    (hsmall : ¬ n.size_bytes ≥ s) :
    arena_allocate B mallocOK σ s = alloc_growth B mallocOK σ s := by
  unfold arena_allocate
  simp only [her]
  rw [if_neg hc, husf, hfl]
  simp only [hn]
  rw [if_neg hsmall]

theorem region_reset_of_zero (r : Region) (h : r.data_count = 0) : region_reset r = r := by
  cases r
  unfold region_reset
  simp at h
  simp [h]

theorem arena_pop_scratch_some (σ : Arena) (ri cnt : Nat) :
    arena_pop_scratch σ { reg := some ri, count := cnt } =
    { σ with regions := pop_walk cnt σ.regions ri, endIdx := ri } := rfl

/-- Claim C6 (amended): for a well-formed arena (valid `end`, counts within
capacities, zero counts past `end`, `end` count below `2 ^ 32`), after
`m = arena_scratch(arena); arena_allocate(arena, K); arena_pop_scratch(arena, m)`
the total used count equals its pre-mark value, and — provided the
allocation between mark and pop was *not* served from the free list — the
next `arena_allocate(arena, K)` returns the same address as that
allocation. (When the free list serves the mark-to-pop allocation, the
spliced node is not restored by pop and the replayed allocation returns a
different address; the used-count restoration still holds.) -/
theorem c6_mark_pop_roundtrip (B : Nat → Nat) (mallocOK : Nat → Bool) (σ σ1 : Arena)
    (K a1 : Nat) (er : Region) (m : ArenaMark)
    (hcnt : ∀ r ∈ σ.regions, r.data_count ≤ r.capacity)
    (hcap : ∀ r ∈ σ.regions, r.capacity < U64)
    (hzero : ∀ i r, σ.endIdx < i → σ.regions[i]? = some r → r.data_count = 0)
    (her : σ.regions[σ.endIdx]? = some er)
    (hU32 : er.data_count < U32)
    (hm : arena_scratch σ = some m)
    (hserve : served_from_free_list σ K = false)
    (halloc : arena_allocate B mallocOK σ K = some (some a1, σ1)) :
    total_used (arena_pop_scratch σ1 m) = total_used σ ∧
    ∃ σ2, arena_allocate B mallocOK (arena_pop_scratch σ1 m) K = some (some a1, σ2) := by
  have hend : σ.endIdx < σ.regions.length := (List.getElem?_eq_some.mp her).1
  have hmv : m = { reg := some σ.endIdx, count := er.data_count } := by
    unfold arena_scratch at hm
    simp only [her] at hm
    rw [Nat.mod_eq_of_lt hU32] at hm
    exact (Option.some_injective _ hm).symm
  subst hmv
  by_cases hfast : (er.capacity + U64 - er.data_count) % U64 ≥ ALIGN_SIZE K
  · -- served by the fast bump path: pop restores the arena exactly
    have hav : arena_allocate B mallocOK σ K =
        some (some (B σ.endIdx + UINTPTR_SIZE * er.data_count),
          { σ with regions := σ.regions.set σ.endIdx (bump_count er (ALIGN_SIZE K)) }) := by
      unfold arena_allocate
      simp only [her]
      rw [if_pos hfast]
    rw [hav] at halloc
    simp only [Option.some.injEq, Prod.mk.injEq] at halloc
    obtain ⟨ha1, hσ1⟩ := halloc
    subst ha1
    subst hσ1
    have hregs : pop_walk er.data_count
        (σ.regions.set σ.endIdx (bump_count er (ALIGN_SIZE K))) σ.endIdx = σ.regions := by
      apply List.ext_getElem?
      intro i
      rcases Nat.lt_trichotomy i σ.endIdx with hlt | hieq | hgt
      · rw [pop_walk_getElem_lt _ _ _ _ hlt, List.getElem?_set_ne (by omega)]
      · subst hieq
        rw [pop_walk_getElem_eq _ _ _ (bump_count er (ALIGN_SIZE K))
          (by rw [List.getElem?_set_self hend]), her]
        rfl
      · rw [pop_walk_getElem_gt _ _ _ _ hgt, List.getElem?_set_ne (by omega)]
        cases hri : σ.regions[i]? with
        | none => rfl
        | some ri => simp [region_reset_of_zero ri (hzero i ri hgt hri)]
    have hpop : arena_pop_scratch
        { σ with regions := σ.regions.set σ.endIdx (bump_count er (ALIGN_SIZE K)) }
        { reg := some σ.endIdx, count := er.data_count } = σ := by
      rw [arena_pop_scratch_some]
      show ({ σ with regions := pop_walk er.data_count (σ.regions.set σ.endIdx (bump_count er (ALIGN_SIZE K))) σ.endIdx, endIdx := σ.endIdx } : Arena) = σ
      rw [hregs]
    rw [hpop]
    exact ⟨rfl, _, hav⟩
  · -- served by the growth path
    -- why the recycling path was not taken, in usable form
    have htriple : σ.use_free_list = false ∨ σ.free_list = none ∨
        (∃ head n, σ.free_list = some head ∧ hget σ.heap head = some n ∧
          ¬ n.size_bytes ≥ K) := by
      unfold served_from_free_list at hserve
      simp only [her] at hserve
      rw [if_neg hfast] at hserve
      cases husf : σ.use_free_list with
      | false => exact Or.inl rfl
      | true =>
        cases hfl2 : σ.free_list with
        | none => exact Or.inr (Or.inl rfl)
        | some head =>
          rw [husf, hfl2] at hserve
          simp only [] at hserve
          cases hn : hget σ.heap head with
          | none =>
            exfalso
            have hnone : arena_allocate B mallocOK σ K = none := by
              unfold arena_allocate
              simp only [her]
              rw [if_neg hfast, husf, hfl2]
              simp only [hn]
            rw [hnone] at halloc
            cases halloc
          | some n =>
            simp only [hn] at hserve
            refine Or.inr (Or.inr ⟨head, n, rfl, hn, ?_⟩)
            simpa using hserve
    have hag : ∀ τ : Arena, τ.regions[τ.endIdx]? = some er →
        τ.use_free_list = σ.use_free_list → τ.free_list = σ.free_list →
        τ.heap = σ.heap →
        arena_allocate B mallocOK τ K = alloc_growth B mallocOK τ K := by
      intro τ herτ husfτ hflτ hheapτ
      rcases htriple with h | h | ⟨head, n, hfl2, hn, hsmall⟩
      · exact arena_allocate_fastfail_nofl B mallocOK τ K er herτ hfast (Or.inl (husfτ.trans h))
      · exact arena_allocate_fastfail_nofl B mallocOK τ K er herτ hfast (Or.inr (hflτ.trans h))
      · cases husf2 : τ.use_free_list with
        | false => exact arena_allocate_fastfail_nofl B mallocOK τ K er herτ hfast (Or.inl husf2)
        | true =>
          exact arena_allocate_fastfail_headsmall B mallocOK τ K er head n herτ hfast husf2
            (hflτ.trans hfl2) (hheapτ ▸ hn) hsmall
    rw [hag σ her rfl rfl rfl] at halloc
    unfold alloc_growth at halloc
    split at halloc
    · cases halloc
    · simp at halloc
    · rename_i regs' rstar hw
      split at halloc
      · cases halloc
      · rename_i rr hrr
        cases hra : region_allocate rr K with
        | none => rw [hra] at halloc; simp at halloc
        | some p =>
          rw [hra] at halloc
          obtain ⟨off, rr'⟩ := p
          have hinv : rr.data_count = off ∧ bump_count rr (ALIGN_SIZE K) = rr' := by
            unfold region_allocate at hra
            split at hra
            · cases hra
            · simpa using hra
          obtain ⟨hoff, hbump⟩ := hinv
          subst hoff
          subst hbump
          simp only [Option.some.injEq, Prod.mk.injEq] at halloc
          obtain ⟨ha1, hσ1⟩ := halloc
          subst ha1
          subst hσ1
          obtain ⟨hs1, hs2, ⟨ext, hext, hext0⟩, hjudg, ⟨rr0, hrr0, hsuff0⟩, hs6⟩ :=
            growth_walk_spec mallocOK (ALIGN_SIZE K) _ _ _ _ _ hw
          rw [hrr] at hrr0
          obtain rfl : rr = rr0 := Option.some_injective _ hrr0
          have herx : regs'[σ.endIdx]? = some er := by
            rw [hext, List.getElem?_append_left hend]
            exact her
          have hne : σ.endIdx < rstar := by
            rcases Nat.lt_or_ge σ.endIdx rstar with h | h
            · exact h
            · exfalso
              have heq : rstar = σ.endIdx := by omega
              subst heq
              rw [herx] at hrr
              obtain rfl : rr = er := (Option.some_injective _ hrr).symm
              exact hfast hsuff0
          have hcnt0 : rr.data_count = 0 := by
            rcases Nat.lt_or_ge rstar σ.regions.length with hlt | hge
            · have hq : regs' = σ.regions := hs6 hlt
              rw [hq] at hrr
              exact hzero rstar rr hne hrr
            · have hq : regs'[rstar]? = ext[rstar - σ.regions.length]? := by
                rw [hext]
                exact List.getElem?_append_right hge
              rw [hq] at hrr
              exact (hext0 rr (List.getElem?_mem hrr)).1
          -- pop leaves exactly the grown chain with the bump undone
          have hregs : pop_walk er.data_count
              (regs'.set rstar (bump_count rr (ALIGN_SIZE K))) σ.endIdx = regs' := by
            apply List.ext_getElem?
            intro i
            rcases Nat.lt_trichotomy i σ.endIdx with hlt | hieq | hgt
            · rw [pop_walk_getElem_lt _ _ _ _ hlt, List.getElem?_set_ne (by omega)]
            · subst hieq
              rw [pop_walk_getElem_eq _ _ _ er
                (by rw [List.getElem?_set_ne (by omega)]; exact herx), herx]
            · rw [pop_walk_getElem_gt _ _ _ _ hgt]
              by_cases hir : i = rstar
              · subst hir
                rw [List.getElem?_set_self (by omega : i < regs'.length), hrr]
                show some (region_reset (bump_count rr (ALIGN_SIZE K))) = some rr
                have hrst : region_reset (bump_count rr (ALIGN_SIZE K)) = rr := by
                  obtain ⟨a, b⟩ := rr
                  have ha : a = 0 := hcnt0
                  subst ha
                  rfl
                rw [hrst]
              · rw [List.getElem?_set_ne (by omega)]
                cases hri : regs'[i]? with
                | none => rfl
                | some ri =>
                  show some (region_reset ri) = some ri
                  rw [region_reset_of_zero ri ?hz]
                  case hz =>
                    rcases Nat.lt_or_ge i σ.regions.length with hlt2 | hge2
                    · have hq : regs'[i]? = σ.regions[i]? := by
                        rw [hext]
                        exact List.getElem?_append_left hlt2
                      rw [hq] at hri
                      exact hzero i ri hgt hri
                    · have hq : regs'[i]? = ext[i - σ.regions.length]? := by
                        rw [hext]
                        exact List.getElem?_append_right hge2
                      rw [hq] at hri
                      exact (hext0 ri (List.getElem?_mem hri)).1
          rw [arena_pop_scratch_some]
          dsimp only
          rw [hregs]
          constructor
          · show (regs'.map Region.data_count).sum = (σ.regions.map Region.data_count).sum
            rw [hext, List.map_append, List.sum_append]
            have hz : (ext.map Region.data_count).sum = 0 := by
              apply List.sum_eq_zero
              intro x hx
              obtain ⟨e, he, rfl⟩ := List.mem_map.mp hx
              exact (hext0 e he).1
            rw [hz]
            omega
          · -- replayed allocation finds the same region at its zeroed bump
            have hwτ : growth_walk mallocOK (ALIGN_SIZE K) regs' σ.endIdx
                (regs'.length + 4) = some (regs', some rstar) :=
              growth_walk_eval mallocOK (ALIGN_SIZE K) regs' rstar σ.endIdx rr hrr
                (by omega) hjudg _ σ.endIdx (le_refl _) (by omega) (by omega)
            refine ⟨?_, ?_⟩
            case _ => exact { σ with regions := regs'.set rstar (bump_count rr (ALIGN_SIZE K)), endIdx := rstar }
            rw [hag { regions := regs', endIdx := σ.endIdx, free_list := σ.free_list, heap := σ.heap, use_free_list := σ.use_free_list } herx rfl rfl rfl]
            unfold alloc_growth
            dsimp only
            rw [hwτ]
            simp only [hrr, hra]

/-- C6: a recycling arena whose single 512-unit region is full and whose
free list holds the one deallocated 512-byte block at address 10000. -/
def c6_state : Option Arena :=
  (arena_allocate layoutB mallocAll (create_freelist_arena 512) 512).bind fun p =>
  arena_add_free_list p.2 10000 512

/-- Claim C6, counterexample: on the reachable recycling arena `c6_state`,
`mark; allocate(50); pop` restores the used count, but the allocation was
served from the free list (address 10000, head spliced off); pop does not
restore the list, so the next `allocate(50)` grows a new region and
returns 20000, not the same address. -/
theorem c6_mark_pop_counterexample :
    c6_state = some
      { regions := [{ data_count := 512, capacity := 512 }]
        endIdx := 0
        free_list := some 10000
        heap := [(10000, { size_bytes := 512, ptr := 10000, next := none })]
        use_free_list := true } ∧
    arena_scratch
      { regions := [{ data_count := 512, capacity := 512 }]
        endIdx := 0
        free_list := some 10000
        heap := [(10000, { size_bytes := 512, ptr := 10000, next := none })]
        use_free_list := true } = some { reg := some 0, count := 512 } ∧
    arena_allocate layoutB mallocAll
      { regions := [{ data_count := 512, capacity := 512 }]
        endIdx := 0
        free_list := some 10000
        heap := [(10000, { size_bytes := 512, ptr := 10000, next := none })]
        use_free_list := true } 50 = some (some 10000,
      { regions := [{ data_count := 512, capacity := 512 }]
        endIdx := 0
        free_list := none
        heap := [(10000, { size_bytes := 512, ptr := 10000, next := none })]
        use_free_list := true }) ∧
    total_used (arena_pop_scratch
      { regions := [{ data_count := 512, capacity := 512 }]
        endIdx := 0
        free_list := none
        heap := [(10000, { size_bytes := 512, ptr := 10000, next := none })]
        use_free_list := true } { reg := some 0, count := 512 }) =
      total_used
      { regions := [{ data_count := 512, capacity := 512 }]
        endIdx := 0
        free_list := some 10000
        heap := [(10000, { size_bytes := 512, ptr := 10000, next := none })]
        use_free_list := true } ∧
    (arena_allocate layoutB mallocAll (arena_pop_scratch
      { regions := [{ data_count := 512, capacity := 512 }]
        endIdx := 0
        free_list := none
        heap := [(10000, { size_bytes := 512, ptr := 10000, next := none })]
        use_free_list := true } { reg := some 0, count := 512 }) 50).map
        (fun (p : Option Nat × Arena) => p.1) = some (some 20000) ∧
    (20000 : Nat) ≠ 10000 := by
  exact ⟨rfl, rfl, rfl, rfl, rfl, by decide⟩

/-- Witness for the amended C6 theorem: a fast-path mark/pop round trip on
a fresh arena. -/
theorem c6_mark_pop_roundtrip_witness :
    total_used (arena_pop_scratch
      { regions := [{ data_count := 8, capacity := 64 }]
        endIdx := 0
        free_list := none
        heap := []
        use_free_list := false } { reg := some 0, count := 0 }) =
      total_used (create_arena 64) ∧
    ∃ σ2, arena_allocate layoutB mallocAll (arena_pop_scratch
      { regions := [{ data_count := 8, capacity := 64 }]
        endIdx := 0
        free_list := none
        heap := []
        use_free_list := false } { reg := some 0, count := 0 }) 8 =
      some (some 10000, σ2) := by
  exact c6_mark_pop_roundtrip layoutB mallocAll (create_arena 64)
    { regions := [{ data_count := 8, capacity := 64 }]
      endIdx := 0
      free_list := none
      heap := []
      use_free_list := false }
    8 10000 { data_count := 0, capacity := 64 } { reg := some 0, count := 0 }
    (by decide) (by decide)
    (by
      intro i r hi hr
      cases i with
      | zero => omega
      | succ k => simp [create_arena, create_region_mem] at hr)
    (by rfl) (by decide) (by rfl) (by rfl) (by rfl)

/-! ### Claim C8: reset/replay -/

/-- Run a sequence of `arena_allocate` calls, requiring every one to
complete successfully; collects the returned addresses. -/
def runAllocs (B : Nat → Nat) (mallocOK : Nat → Bool) (σ : Arena) :
    List Nat → Option (List Nat × Arena)
  | [] => some ([], σ)
  | s :: rest =>
    match arena_allocate B mallocOK σ s with
    | some (some a, σ') =>
      match runAllocs B mallocOK σ' rest with
      | some (l, σf) => some (a :: l, σf)
      | none => none
    | _ => none

theorem list_set_append_left {α : Type} (l1 l2 : List α) (i : Nat) (x : α)
    (h : i < l1.length) : (l1 ++ l2).set i x = l1.set i x ++ l2 := by
  induction l1 generalizing i with
  | nil => simp at h
  | cons y t ih =>
    cases i with
    | zero => simp [List.set]
    | succ j =>
      simp only [List.cons_append, List.set]
      show y :: ((t ++ l2).set j x) = y :: (t.set j x ++ l2)
      rw [ih j (by simpa using h)]

/-- Inversion of a successful, address-returning `arena_allocate` call on
an arena with an empty free list: it went through the fast path or the
growth path, with fully described results. -/
theorem arena_allocate_success_inv (B : Nat → Nat) (mallocOK : Nat → Bool)
    (σ σ' : Arena) (s addr : Nat)
    (hfl : σ.free_list = none)
    (h : arena_allocate B mallocOK σ s = some (some addr, σ')) :
    σ'.free_list = none ∧ σ'.heap = σ.heap ∧ σ'.use_free_list = σ.use_free_list ∧
    ∃ er, σ.regions[σ.endIdx]? = some er ∧
      (((er.capacity + U64 - er.data_count) % U64 ≥ ALIGN_SIZE s ∧
        addr = B σ.endIdx + UINTPTR_SIZE * er.data_count ∧
        σ' = { σ with regions := σ.regions.set σ.endIdx (bump_count er (ALIGN_SIZE s)) }) ∨
       (¬ (er.capacity + U64 - er.data_count) % U64 ≥ ALIGN_SIZE s ∧
        ∃ regs' rstar rr,
          growth_walk mallocOK (ALIGN_SIZE s) σ.regions σ.endIdx (σ.regions.length + 4) =
            some (regs', some rstar) ∧
          regs'[rstar]? = some rr ∧
          region_allocate rr s = some (rr.data_count, bump_count rr (ALIGN_SIZE s)) ∧
          addr = B rstar + UINTPTR_SIZE * rr.data_count ∧
          σ' = { σ with
            regions := regs'.set rstar (bump_count rr (ALIGN_SIZE s))
            endIdx := rstar })) := by
  have hgrow : alloc_growth B mallocOK σ s = some (some addr, σ') →
      ∃ regs' rstar rr,
        growth_walk mallocOK (ALIGN_SIZE s) σ.regions σ.endIdx (σ.regions.length + 4) =
          some (regs', some rstar) ∧
        regs'[rstar]? = some rr ∧
        region_allocate rr s = some (rr.data_count, bump_count rr (ALIGN_SIZE s)) ∧
        addr = B rstar + UINTPTR_SIZE * rr.data_count ∧
        σ' = { σ with
          regions := regs'.set rstar (bump_count rr (ALIGN_SIZE s))
          endIdx := rstar } := by
    intro hg
    unfold alloc_growth at hg
    split at hg
    · cases hg
    · simp at hg
    · rename_i regs' rstar hw
      split at hg
      · cases hg
      · rename_i rr hrr
        cases hra : region_allocate rr s with
        | none => rw [hra] at hg; simp at hg
        | some p =>
          rw [hra] at hg
          obtain ⟨off, rr'⟩ := p
          have hinv : rr.data_count = off ∧ bump_count rr (ALIGN_SIZE s) = rr' := by
            unfold region_allocate at hra
            split at hra
            · cases hra
            · simpa using hra
          obtain ⟨hoff, hbump⟩ := hinv
          subst hoff
          subst hbump
          simp only [Option.some.injEq, Prod.mk.injEq] at hg
          exact ⟨regs', rstar, rr, hw, hrr, hra, hg.1.symm, hg.2.symm⟩
  unfold arena_allocate at h
  split at h
  · cases h
  · rename_i er her
    split at h
    · rename_i hfast
      simp only [Option.some.injEq, Prod.mk.injEq] at h
      obtain ⟨ha, hs⟩ := h
      subst ha
      refine ⟨by rw [← hs]; exact hfl, by rw [← hs], by rw [← hs], er, her,
        Or.inl ⟨hfast, rfl, hs.symm⟩⟩
    · rename_i hfast
      have hgeq : alloc_growth B mallocOK σ s = some (some addr, σ') := by
        cases husf : σ.use_free_list with
        | false => rw [husf] at h; exact h
        | true => rw [husf, hfl] at h; exact h
      obtain ⟨regs', rstar, rr, hw, hrr, hra, haddr, hσ'⟩ := hgrow hgeq
      refine ⟨?_, ?_, ?_, er, her, Or.inr ⟨hfast, regs', rstar, rr, hw, hrr, hra, haddr, hσ'⟩⟩
      · rw [hσ']; exact hfl
      · rw [hσ']
      · rw [hσ']

/-- The replay relation of the reset/replay argument: `b` is `a` with the
final chain's extra regions appended, counts zeroed, agreeing with the
final chain `F` on capacities; both arenas carry an empty free list and
identical remaining fields. -/
structure Rrel (F : List Region) (a b : Arena) : Prop where
  regs : b.regions = a.regions ++ (F.drop a.regions.length).map region_reset
  caps : (F.take a.regions.length).map region_reset = a.regions.map region_reset
  hlen : a.regions.length ≤ F.length
  hend : b.endIdx = a.endIdx
  hfla : a.free_list = none
  hflb : b.free_list = none
  hheap : b.heap = a.heap
  huf : b.use_free_list = a.use_free_list

theorem caps_pointwise (F R : List Region) (hlen : R.length ≤ F.length)
    (h : (F.take R.length).map region_reset = R.map region_reset) :
    ∀ j, j < R.length → (F[j]?).map region_reset = (R[j]?).map region_reset := by
  intro j hj
  have h1 : ((F.take R.length).map region_reset)[j]? = ((R.map region_reset))[j]? := by
    rw [h]
  rw [List.getElem?_map, List.getElem?_map, List.getElem?_take, if_pos hj] at h1
  exact h1

/-- Every region strictly after `end` has a zero bump count — an invariant
of arenas whose `end` never moved backwards (no pops). -/
def ZeroAfter (σ : Arena) : Prop :=
  ∀ i r, σ.endIdx < i → σ.regions[i]? = some r → r.data_count = 0

theorem list_set_append_right {α : Type} (l1 l2 : List α) (i : Nat) (x : α)
    (h : l1.length ≤ i) : (l1 ++ l2).set i x = l1 ++ l2.set (i - l1.length) x := by
  induction l1 generalizing i with
  | nil => simp
  | cons y t ih =>
    cases i with
    | zero => simp at h
    | succ j =>
      simp only [List.cons_append, List.set, List.length_cons]
      show y :: ((t ++ l2).set j x) = y :: (t ++ l2.set (j + 1 - (t.length + 1)) x)
      have hidx : j + 1 - (t.length + 1) = j - t.length := by omega
      rw [hidx, ih j (by simpa using h)]

theorem region_reset_bump (r : Region) (x : Nat) :
    region_reset (bump_count r x) = region_reset r := rfl

/-- One successful, address-returning allocation on an empty-free-list
arena: the chain keeps its capacities (up to the old length), only grows,
the free list stays empty, and the zero-after-end invariant is preserved. -/
theorem alloc_caps_step (B : Nat → Nat) (mallocOK : Nat → Bool) (a a1 : Arena) (s addr : Nat)
    (hfl : a.free_list = none) (hz : ZeroAfter a)
    (h : arena_allocate B mallocOK a s = some (some addr, a1)) :
    a.regions.length ≤ a1.regions.length ∧
    (a1.regions.take a.regions.length).map region_reset = a.regions.map region_reset ∧
    a1.free_list = none ∧ ZeroAfter a1 := by
  obtain ⟨hfl', hheap', huf', er, her, hcase⟩ :=
    arena_allocate_success_inv B mallocOK a a1 s addr hfl h
  have henda : a.endIdx < a.regions.length := (List.getElem?_eq_some.mp her).1
  rcases hcase with ⟨hfast, haddr, ha1⟩ | ⟨hfast, regs', rstar, rr, hw, hrr, hra, haddr, ha1⟩
  · -- fast path
    have hregs1 : a1.regions = a.regions.set a.endIdx (bump_count er (ALIGN_SIZE s)) := by
      rw [ha1]
    have hlen1 : a1.regions.length = a.regions.length := by
      rw [hregs1, List.length_set]
    refine ⟨by omega, ?_, hfl', ?_⟩
    · rw [hregs1, List.take_all_of_le (by rw [List.length_set])]
      apply List.ext_getElem?
      intro i
      rw [List.getElem?_map, List.getElem?_map]
      by_cases hie : i = a.endIdx
      · subst hie
        rw [List.getElem?_set_self henda, her]
        rfl
      · rw [List.getElem?_set_ne (fun hh => hie hh.symm)]
    · intro i r hi hr
      have hie : a1.endIdx = a.endIdx := by rw [ha1]
      rw [hregs1] at hr
      rw [hie] at hi
      rw [List.getElem?_set_ne (by omega)] at hr
      exact hz i r hi hr
  · -- growth path
    obtain ⟨hs1, hs2, ⟨ext, hext, hext0⟩, hjudg, ⟨rr0, hrr0, hsuff0⟩, hs6⟩ :=
      growth_walk_spec mallocOK (ALIGN_SIZE s) _ _ _ _ _ hw
    rw [hrr] at hrr0
    obtain rfl : rr = rr0 := Option.some_injective _ hrr0
    have hregs1 : a1.regions = regs'.set rstar (bump_count rr (ALIGN_SIZE s)) := by
      rw [ha1]
    have hie : a1.endIdx = rstar := by rw [ha1]
    have hlen1 : a1.regions.length = regs'.length := by
      rw [hregs1, List.length_set]
    have hlenr : a.regions.length ≤ regs'.length := by
      rw [hext, List.length_append]
      omega
    refine ⟨by omega, ?_, hfl', ?_⟩
    · -- capacities preserved on the old prefix
      apply List.ext_getElem?
      intro i
      by_cases hlt : i < a.regions.length
      · rw [List.getElem?_map, List.getElem?_map, List.getElem?_take, if_pos hlt, hregs1]
        by_cases hirs : i = rstar
        · subst hirs
          rw [List.getElem?_set_self (by omega)]
          have hq : regs'[i]? = a.regions[i]? := by
            rw [hext]
            exact List.getElem?_append_left hlt
          rw [← hq, hrr]
          rfl
        · rw [List.getElem?_set_ne (fun hh => hirs hh.symm)]
          rw [hext, List.getElem?_append_left hlt]
      · rw [List.getElem?_map, List.getElem?_map]
        have h1 : (a1.regions.take a.regions.length)[i]? = none := by
          apply List.getElem?_eq_none
          have := List.length_take_le a.regions.length a1.regions
          omega
        have h2 : a.regions[i]? = none := List.getElem?_eq_none (by omega)
        rw [h1, h2]
    · -- ZeroAfter a1
      have hne : a.endIdx < rstar := by
        rcases Nat.lt_or_ge a.endIdx rstar with hgood | hbad
        · exact hgood
        · exfalso
          have heq : rstar = a.endIdx := by omega
          subst heq
          have herx : regs'[a.endIdx]? = some er := by
            rw [hext, List.getElem?_append_left henda]
            exact her
          rw [herx] at hrr
          obtain rfl : rr = er := (Option.some_injective _ hrr).symm
          exact hfast hsuff0
      intro i r hi hr
      rw [hie] at hi
      rw [hregs1, List.getElem?_set_ne (by omega)] at hr
      rcases Nat.lt_or_ge i a.regions.length with hlt | hge
      · have hq : regs'[i]? = a.regions[i]? := by
          rw [hext]
          exact List.getElem?_append_left hlt
        rw [hq] at hr
        exact hz i r (by omega) hr
      · have hq : regs'[i]? = ext[i - a.regions.length]? := by
          rw [hext]
          exact List.getElem?_append_right hge
        rw [hq] at hr
        exact (hext0 r (List.getElem?_mem hr)).1

/-- Along a successful allocation-only run with an empty free list, the
chain only grows, capacities of existing regions never change, and the
free list stays empty. -/
theorem run_caps_mono (B : Nat → Nat) (mallocOK : Nat → Bool) :
    ∀ sizes (a : Arena) l σf, runAllocs B mallocOK a sizes = some (l, σf) →
      a.free_list = none → ZeroAfter a →
      a.regions.length ≤ σf.regions.length ∧
      (σf.regions.take a.regions.length).map region_reset = a.regions.map region_reset := by
  intro sizes
  induction sizes with
  | nil =>
    intro a l σf h _ _
    unfold runAllocs at h
    simp only [Option.some.injEq, Prod.mk.injEq] at h
    obtain ⟨-, hσ⟩ := h
    subst hσ
    exact ⟨le_refl _, by rw [List.take_length]⟩
  | cons s rest ih =>
    intro a l σf h hfl hz
    unfold runAllocs at h
    split at h
    · rename_i addr a1 hstep
      split at h
      · rename_i l1 σf1 hrest
        simp only [Option.some.injEq, Prod.mk.injEq] at h
        obtain ⟨-, hσ⟩ := h
        subst hσ
        obtain ⟨hl1, hc1, hfl1, hz1⟩ := alloc_caps_step B mallocOK a a1 s addr hfl hz hstep
        obtain ⟨hl2, hc2⟩ := ih a1 l1 σf1 hrest hfl1 hz1
        refine ⟨by omega, ?_⟩
        have e1 : σf1.regions.take a.regions.length =
            (σf1.regions.take a1.regions.length).take a.regions.length := by
          rw [List.take_take, Nat.min_eq_left hl1]
        rw [e1, List.map_take, hc2, ← List.map_take]
        exact hc1
      · cases h
    · cases h

/-- Replay step: if `b` is `a` extended by the final chain's zero-count
regions and one successful allocation takes `a` to `a'`, then the same
allocation on `b` returns the same address and re-establishes the relation. -/
theorem c8_step (B : Nat → Nat) (mallocOK : Nat → Bool) (F : List Region) (a b a' : Arena)
    (s addr : Nat)
    (hR : Rrel F a b) (hz : ZeroAfter a)
    (h : arena_allocate B mallocOK a s = some (some addr, a'))
    (hlen' : a'.regions.length ≤ F.length)
    (hcaps' : (F.take a'.regions.length).map region_reset = a'.regions.map region_reset) :
    ∃ b', arena_allocate B mallocOK b s = some (some addr, b') ∧ Rrel F a' b' := by
  obtain ⟨hfl', hheap', huf', er, her, hcase⟩ :=
    arena_allocate_success_inv B mallocOK a a' s addr hR.hfla h
  have henda : a.endIdx < a.regions.length := (List.getElem?_eq_some.mp her).1
  have herb : b.regions[b.endIdx]? = some er := by
    rw [hR.regs, hR.hend, List.getElem?_append_left henda]
    exact her
  rcases hcase with ⟨hfast, haddr, ha1⟩ | ⟨hfast, regs', rstar, rr, hw, hrr, hra, haddr, ha1⟩
  · -- fast path on both sides
    have hbv : arena_allocate B mallocOK b s =
        some (some (B b.endIdx + UINTPTR_SIZE * er.data_count),
          { b with regions := b.regions.set b.endIdx (bump_count er (ALIGN_SIZE s)) }) := by
      unfold arena_allocate
      simp only [herb]
      rw [if_pos hfast]
    refine ⟨{ b with regions := b.regions.set b.endIdx (bump_count er (ALIGN_SIZE s)) }, ?_, ?_⟩
    · rw [hbv]
      have haddr2 : B b.endIdx + UINTPTR_SIZE * er.data_count = addr := by
        rw [haddr, hR.hend]
      rw [haddr2]
    have hregs : b.regions.set b.endIdx (bump_count er (ALIGN_SIZE s)) =
        a'.regions ++ (F.drop a'.regions.length).map region_reset := by
      rw [hR.regs, hR.hend, list_set_append_left _ _ _ _ henda, ha1]
      show a.regions.set a.endIdx (bump_count er (ALIGN_SIZE s)) ++ (F.drop a.regions.length).map region_reset = a.regions.set a.endIdx (bump_count er (ALIGN_SIZE s)) ++ (F.drop (a.regions.set a.endIdx (bump_count er (ALIGN_SIZE s))).length).map region_reset
      rw [List.length_set]
    exact {
      regs := hregs
      caps := hcaps'
      hlen := hlen'
      hend := by rw [ha1]; exact hR.hend
      hfla := by rw [ha1]; exact hR.hfla
      hflb := hR.hflb
      hheap := by rw [ha1]; exact hR.hheap
      huf := by rw [ha1]; exact hR.huf }
  · -- growth path: the replay finds the very region the first run created
    obtain ⟨hs1, hs2, ⟨ext, hext, hext0⟩, hjudg, ⟨rr0, hrr0, hsuff0⟩, hs6⟩ :=
      growth_walk_spec mallocOK (ALIGN_SIZE s) _ _ _ _ _ hw
    rw [hrr] at hrr0
    obtain rfl : rr = rr0 := Option.some_injective _ hrr0
    have hne : a.endIdx < rstar := by
      rcases Nat.lt_or_ge a.endIdx rstar with hgood | hbad
      · exact hgood
      · exfalso
        have heq : rstar = a.endIdx := by omega
        subst heq
        have herx : regs'[a.endIdx]? = some er := by
          rw [hext, List.getElem?_append_left henda]
          exact her
        rw [herx] at hrr
        obtain rfl : rr = er := (Option.some_injective _ hrr).symm
        exact hfast hsuff0
    have hcnt0 : rr.data_count = 0 := by
      rcases Nat.lt_or_ge rstar a.regions.length with hlt | hge
      · have hq : regs' = a.regions := hs6 hlt
        rw [hq] at hrr
        exact hz rstar rr hne hrr
      · have hq : regs'[rstar]? = ext[rstar - a.regions.length]? := by
          rw [hext]
          exact List.getElem?_append_right hge
        rw [hq] at hrr
        exact (hext0 rr (List.getElem?_mem hrr)).1
    have hlenr : regs'.length ≤ F.length := by
      have h1 : a'.regions.length = regs'.length := by
        rw [ha1]
        show (regs'.set rstar (bump_count rr (ALIGN_SIZE s))).length = _
        rw [List.length_set]
      omega
    have hcapsr : (F.take regs'.length).map region_reset =
        (regs'.set rstar (bump_count rr (ALIGN_SIZE s))).map region_reset := by
      have h1 : a'.regions = regs'.set rstar (bump_count rr (ALIGN_SIZE s)) := by rw [ha1]
      have h2 := hcaps'
      rw [h1, List.length_set] at h2
      exact h2
    have hpw : ∀ j, j < regs'.length → (F[j]?).map region_reset =
        ((regs'.set rstar (bump_count rr (ALIGN_SIZE s)))[j]?).map region_reset := by
      intro j hj
      exact caps_pointwise F (regs'.set rstar (bump_count rr (ALIGN_SIZE s)))
        (by rw [List.length_set]; exact hlenr)
        (by rw [List.length_set]; exact hcapsr) j (by rw [List.length_set]; exact hj)
    -- the replay chain equals the grown chain plus the final tail
    have hBeq : b.regions = regs' ++ (F.drop regs'.length).map region_reset := by
      have hFi : ∀ i, a.regions.length ≤ i →
          b.regions[i]? = (F[i]?).map region_reset := by
        intro i hi
        rw [hR.regs, List.getElem?_append_right (by
          have := hR.regs
          omega), List.getElem?_map, List.getElem?_drop]
        congr 2
        omega
      apply List.ext_getElem?
      intro i
      rcases Nat.lt_or_ge i a.regions.length with hlt | hge
      · rw [hR.regs, List.getElem?_append_left hlt, hext,
          List.getElem?_append_left (by rw [List.length_append]; omega),
          List.getElem?_append_left hlt]
      · rw [hFi i hge]
        rcases Nat.lt_or_ge i regs'.length with hmid | hhigh
        · rw [List.getElem?_append_left hmid, hpw i hmid]
          by_cases hirs : i = rstar
          · subst hirs
            rw [List.getElem?_set_self hs2, hrr]
            show some (region_reset (bump_count rr (ALIGN_SIZE s))) = some rr
            rw [region_reset_bump, region_reset_of_zero rr hcnt0]
          · rw [List.getElem?_set_ne (fun hh => hirs hh.symm)]
            obtain ⟨e, he⟩ : ∃ e, regs'[i]? = some e := by
              rw [List.getElem?_eq_getElem hmid]
              exact ⟨_, rfl⟩
            rw [he]
            have hee : e.data_count = 0 := by
              have hq : regs'[i]? = ext[i - a.regions.length]? := by
                rw [hext]
                exact List.getElem?_append_right hge
              rw [hq] at he
              exact (hext0 e (List.getElem?_mem he)).1
            show some (region_reset e) = some e
            rw [region_reset_of_zero e hee]
        · rw [List.getElem?_append_right hhigh, List.getElem?_map, List.getElem?_drop]
          congr 2
          omega
    -- evaluate the replayed allocation
    have hbrr : b.regions[rstar]? = some rr := by
      rw [hBeq, List.getElem?_append_left hs2]
      exact hrr
    have hwb : growth_walk mallocOK (ALIGN_SIZE s) b.regions b.endIdx
        (b.regions.length + 4) = some (b.regions, some rstar) := by
      apply growth_walk_eval mallocOK (ALIGN_SIZE s) b.regions rstar b.endIdx rr hbrr
        (by omega)
      · intro j rj hj1 hj2 hrj
        rw [hBeq, List.getElem?_append_left (by omega)] at hrj
        exact hjudg j rj (by rw [hR.hend] at hj1; omega) hj2 hrj
      · exact Nat.le_refl _
      · rw [hR.hend]
        omega
      · have : rstar < b.regions.length := (List.getElem?_eq_some.mp hbrr).1
        omega
    have hbv : arena_allocate B mallocOK b s =
        some (some (B rstar + UINTPTR_SIZE * rr.data_count),
          { b with
            regions := b.regions.set rstar (bump_count rr (ALIGN_SIZE s))
            endIdx := rstar }) := by
      rw [arena_allocate_fastfail_nofl B mallocOK b s er herb hfast (Or.inr hR.hflb)]
      unfold alloc_growth
      rw [hwb]
      simp only [hbrr, hra]
    refine ⟨_, by rw [hbv, ← haddr], ?_⟩
    have hregsb : (({ b with
        regions := b.regions.set rstar (bump_count rr (ALIGN_SIZE s))
        endIdx := rstar } : Arena)).regions =
        a'.regions ++ (F.drop a'.regions.length).map region_reset := by
      show b.regions.set rstar (bump_count rr (ALIGN_SIZE s)) = _
      rw [hBeq, list_set_append_left _ _ _ _ hs2, ha1]
      show regs'.set rstar (bump_count rr (ALIGN_SIZE s)) ++ _ =
        regs'.set rstar (bump_count rr (ALIGN_SIZE s)) ++ _
      have hL : (({ a with
          regions := regs'.set rstar (bump_count rr (ALIGN_SIZE s))
          endIdx := rstar } : Arena)).regions.length = regs'.length := by
        show (regs'.set rstar (bump_count rr (ALIGN_SIZE s))).length = _
        rw [List.length_set]
      rw [hL]
    exact {
      regs := hregsb
      caps := hcaps'
      hlen := hlen'
      hend := by rw [ha1]
      hfla := by rw [ha1]; exact hR.hfla
      hflb := hR.hflb
      hheap := by rw [ha1]; exact hR.hheap
      huf := by rw [ha1]; exact hR.huf }

theorem map_region_reset_id (l : List Region) (h : ∀ r ∈ l, r.data_count = 0) :
    l.map region_reset = l := by
  induction l with
  | nil => rfl
  | cons x t ih =>
    rw [List.map_cons, region_reset_of_zero x (h x (List.mem_cons_self x t)),
      ih (fun r hr => h r (List.mem_cons_of_mem x hr))]

/-- A run of successful allocations on an empty-free-list arena never
touches the node heap, the recycling flag, or the (empty) free list, and
keeps the zero-after-end invariant. -/
theorem run_misc (B : Nat → Nat) (mallocOK : Nat → Bool) :
    ∀ sizes (a : Arena) l σf, runAllocs B mallocOK a sizes = some (l, σf) →
      a.free_list = none → ZeroAfter a →
      σf.heap = a.heap ∧ σf.use_free_list = a.use_free_list ∧
      σf.free_list = none ∧ ZeroAfter σf := by
  intro sizes
  induction sizes with
  | nil =>
    intro a l σf h hfl hz
    unfold runAllocs at h
    simp only [Option.some.injEq, Prod.mk.injEq] at h
    obtain ⟨-, hσ⟩ := h
    subst hσ
    exact ⟨rfl, rfl, hfl, hz⟩
  | cons s rest ih =>
    intro a l σf h hfl hz
    unfold runAllocs at h
    split at h
    · rename_i addr a1 hstep
      split at h
      · rename_i l1 σf1 hrest
        simp only [Option.some.injEq, Prod.mk.injEq] at h
        obtain ⟨-, hσ⟩ := h
        subst hσ
        obtain ⟨hfl1, hheap1, huf1, -, -, -⟩ :=
          arena_allocate_success_inv B mallocOK a a1 s addr hfl hstep
        obtain ⟨-, -, -, hz1⟩ := alloc_caps_step B mallocOK a a1 s addr hfl hz hstep
        obtain ⟨hh, hu, hf, hzf⟩ := ih a1 l1 σf1 hrest hfl1 hz1
        exact ⟨hh.trans hheap1, hu.trans huf1, hf, hzf⟩
      · cases h
    · cases h

/-- Replay of a whole run: if `b` extends `a` by the final chain's zeroed
tail, the same size sequence succeeds on `b` with the same addresses and
ends in exactly the first run's final arena. -/
theorem c8_run (B : Nat → Nat) (mallocOK : Nat → Bool) :
    ∀ sizes (a b : Arena) l σf, runAllocs B mallocOK a sizes = some (l, σf) →
      ZeroAfter a → Rrel σf.regions a b →
      runAllocs B mallocOK b sizes = some (l, σf) := by
  intro sizes
  induction sizes with
  | nil =>
    intro a b l σf h hz hR
    unfold runAllocs at h ⊢
    simp only [Option.some.injEq, Prod.mk.injEq] at h
    obtain ⟨hl, hσ⟩ := h
    subst hσ
    have hr := hR.regs
    rw [List.drop_length] at hr
    simp only [List.map_nil, List.append_nil] at hr
    have hb : b = a :=
      Arena.ext hr hR.hend (hR.hflb.trans hR.hfla.symm) hR.hheap hR.huf
    rw [hb, ← hl]
  | cons s rest ih =>
    intro a b l σf h hz hR
    unfold runAllocs at h
    split at h
    · rename_i addr a1 hstep
      split at h
      · rename_i l1 σf1 hrest
        simp only [Option.some.injEq, Prod.mk.injEq] at h
        obtain ⟨hl, hσ⟩ := h
        subst hσ
        obtain ⟨-, -, hfl1, hz1⟩ :=
          alloc_caps_step B mallocOK a a1 s addr hR.hfla hz hstep
        obtain ⟨hlen1, hcaps1⟩ :=
          run_caps_mono B mallocOK rest a1 l1 σf1 hrest hfl1 hz1
        obtain ⟨b1, hbstep, hR1⟩ :=
          c8_step B mallocOK σf1.regions a b a1 s addr hR hz hstep hlen1 hcaps1
        have hbrest := ih a1 b1 l1 σf1 hrest hz1 hR1
        unfold runAllocs
        simp only [hbstep, hbrest]
        rw [← hl]
      · cases h
    · cases h

/-- C8: reset idempotence. For an arena that started empty (all regions
zeroed, `end = start`, empty free list) and was filled by a sequence of
successful `arena_allocate` calls, performing `arena_reset` and then
repeating the exact same sequence of calls returns the identical addresses
and ends in the identical arena; `arena_reset` keeps the region count, so
no new Region is created during the replay. -/
theorem c8_reset_replay (B : Nat → Nat) (mallocOK : Nat → Bool)
    (σ0 σf : Arena) (sizes addrs : List Nat)
    (hcnt : ∀ r ∈ σ0.regions, r.data_count = 0)
    (hend0 : σ0.endIdx = 0)
    (hfl : σ0.free_list = none)
    (h : runAllocs B mallocOK σ0 sizes = some (addrs, σf)) :
    runAllocs B mallocOK (arena_reset σf) sizes = some (addrs, σf) ∧
    (arena_reset σf).regions.length = σf.regions.length := by
  have hz : ZeroAfter σ0 := fun i r _ hr => hcnt r (List.getElem?_mem hr)
  obtain ⟨hlen, hcaps⟩ := run_caps_mono B mallocOK sizes σ0 addrs σf h hfl hz
  obtain ⟨hheapf, huff, -, -⟩ := run_misc B mallocOK sizes σ0 addrs σf h hfl hz
  have hR : Rrel σf.regions σ0 (arena_reset σf) := by
    refine ⟨?_, hcaps, hlen, ?_, hfl, rfl, ?_, ?_⟩
    · show σf.regions.map region_reset = _
      conv_lhs => rw [← List.take_append_drop σ0.regions.length σf.regions]
      rw [List.map_append]
      congr 1
      rw [hcaps, map_region_reset_id σ0.regions hcnt]
    · show 0 = σ0.endIdx
      exact hend0.symm
    · show σf.heap = σ0.heap
      exact hheapf
    · show σf.use_free_list = σ0.use_free_list
      exact huff
  refine ⟨c8_run B mallocOK sizes σ0 (arena_reset σf) addrs σf h hz hR, ?_⟩
  show (σf.regions.map region_reset).length = σf.regions.length
  rw [List.length_map]

theorem c8_reset_replay_witness :
    runAllocs layoutB mallocAll
      (arena_reset { regions := [{ data_count := 32, capacity := 64 },
                                 { data_count := 104, capacity := 832 }]
                     endIdx := 1
                     free_list := none
                     heap := []
                     use_free_list := false }) [32, 100] =
      some ([10000, 20000],
        { regions := [{ data_count := 32, capacity := 64 },
                      { data_count := 104, capacity := 832 }]
          endIdx := 1
          free_list := none
          heap := []
          use_free_list := false }) ∧
    (arena_reset { regions := [{ data_count := 32, capacity := 64 },
                               { data_count := 104, capacity := 832 }]
                   endIdx := 1
                   free_list := none
                   heap := []
                   use_free_list := false } : Arena).regions.length =
      ([{ data_count := 32, capacity := 64 },
        { data_count := 104, capacity := 832 }] : List Region).length :=
  c8_reset_replay layoutB mallocAll (create_arena 64)
    { regions := [{ data_count := 32, capacity := 64 },
                  { data_count := 104, capacity := 832 }]
      endIdx := 1
      free_list := none
      heap := []
      use_free_list := false } [32, 100] [10000, 20000]
    (by decide) (by rfl) (by rfl) (by decide)

/-! ### Claim C1: disjointness and alignment of live allocations

A client trace interleaves `arena_allocate` calls (whose results become
live blocks) with `arena_add_free_list` calls that return a live block
(with the size it was requested with) to the allocator. -/

/-- One client operation: allocate `s` bytes, or deallocate the `k`-th
currently live block via `arena_add_free_list`. -/
inductive ArenaOp where
  | alloc : Nat → ArenaOp
  | dealloc : Nat → ArenaOp
  deriving Repr, DecidableEq

/-- Client-visible state: the arena plus the list of live blocks
`(address, requested byte size)` in allocation order. -/
structure TraceSt where
  arena : Arena
  live : List (Nat × Nat)
  deriving Repr, DecidableEq

/-- Run one operation. An `alloc` must complete and return non-NULL; a
`dealloc` must name a live block and the `arena_add_free_list` call must
return (the C loops diverge on some inputs, see claims C2/C4). -/
def stepOp (B : Nat → Nat) (mallocOK : Nat → Bool) (st : TraceSt) : ArenaOp → Option TraceSt
  | .alloc s =>
    match arena_allocate B mallocOK st.arena s with
    | some (some addr, σ') => some { arena := σ', live := st.live ++ [(addr, s)] }
    | _ => none
  | .dealloc k =>
    match st.live[k]? with
    | none => none
    | some b =>
      match arena_add_free_list st.arena b.1 b.2 with
      | some σ' => some { arena := σ', live := st.live.eraseIdx k }
      | none => none

/-- Run a whole operation sequence. -/
def runOps (B : Nat → Nat) (mallocOK : Nat → Bool) (st : TraceSt) : List ArenaOp → Option TraceSt
  | [] => some st
  | op :: rest => (stepOp B mallocOK st op).bind fun st' => runOps B mallocOK st' rest

/-- Byte ranges `[b1.1, b1.1 + b1.2)` and `[b2.1, b2.1 + b2.2)` do not
overlap. -/
def blkDisj (b1 b2 : Nat × Nat) : Prop := b1.1 + b1.2 ≤ b2.1 ∨ b2.1 + b2.2 ≤ b1.1

/-- The block lies (pointwise) inside the consumed part of the region
chain: every byte of it is covered by some region's
`[data, data + 8 * data_count)` area. -/
def InConsumed (B : Nat → Nat) (σ : Arena) (b : Nat × Nat) : Prop :=
  ∀ x, b.1 ≤ x → x < b.1 + b.2 →
    ∃ i r, σ.regions[i]? = some r ∧ B i ≤ x ∧ x < B i + UINTPTR_SIZE * r.data_count

/-- The free list is the node chain `L`: starting from the head address,
each listed address holds the listed record in the heap and its `next`
field leads to the rest. -/
inductive chainOK (h : Heap) : Option Nat → List (Nat × FreeListNode) → Prop where
  | nil : chainOK h none []
  | cons {a : Nat} {n : FreeListNode} {t : List (Nat × FreeListNode)} :
      hget h a = some n → chainOK h n.next t → chainOK h (some a) ((a, n) :: t)

/-- The byte ranges described by a free-list chain. -/
def flBlocks (L : List (Nat × FreeListNode)) : List (Nat × Nat) :=
  L.map (fun p => (p.1, p.2.size_bytes))

/-- C1 invariant: `L` is the current free-list chain; live blocks and
free-list blocks are pairwise disjoint, 8-aligned, bounded, and lie in the
consumed parts of the regions; bump counters never exceed capacities. -/
structure C1Inv (B : Nat → Nat) (st : TraceSt) (L : List (Nat × FreeListNode)) : Prop where
  chain : chainOK st.arena.heap st.arena.free_list L
  nodup : (L.map Prod.fst).Nodup
  fl_ptr : ∀ p ∈ L, p.2.ptr = p.1
  fl_size : ∀ p ∈ L, FREELISTNODE_SIZE ≤ p.2.size_bytes
  fl_align : ∀ p ∈ L, p.1 % UINTPTR_SIZE = 0
  live_pos : ∀ b ∈ st.live, 0 < b.2
  live_align : ∀ b ∈ st.live, b.1 % UINTPTR_SIZE = 0
  bound : ∀ b ∈ st.live ++ flBlocks L, b.1 + b.2 < U64
  disj : (st.live ++ flBlocks L).Pairwise blkDisj
  inCons : ∀ b ∈ st.live ++ flBlocks L, InConsumed B st.arena b
  cnt_le : ∀ r ∈ st.arena.regions, r.data_count ≤ r.capacity

/-- Region counts and capacities only ever grow / are preserved along a
trace: `σ2` has at least the regions of `σ1`, with the same capacities. -/
def CapAgree (σ1 σ2 : Arena) : Prop :=
  σ1.regions.length ≤ σ2.regions.length ∧
  ∀ (i : Nat) (r1 r2 : Region), σ1.regions[i]? = some r1 → σ2.regions[i]? = some r2 →
    r1.capacity = r2.capacity

/-- Size precondition of a C1 trace operation: allocations request a
positive size no larger than the given byte bound. -/
def opOK (szBound : Nat) : ArenaOp → Prop
  | .alloc s => 0 < s ∧ s ≤ szBound
  | .dealloc _ => True

/-- The single merge pass of `arena_add_free_list`, as a pure function on
the chain: merge a node into its successor when their ranges are exactly
adjacent (`size_t` arithmetic), then continue scanning AFTER the merged
node. -/
def onePassMerge : List (Nat × FreeListNode) → List (Nat × FreeListNode)
  | [] => []
  | [x] => [x]
  | (k, n) :: (b, m) :: rest =>
    if (n.ptr + n.size_bytes) % U64 = m.ptr then
      (k, { n with size_bytes := (n.size_bytes + m.size_bytes) % U64, next := m.next })
        :: onePassMerge rest
    else (k, n) :: onePassMerge ((b, m) :: rest)

/-- The `(prev, curr)` pair the insertion scan of `arena_add_free_list`
ends on, as a pure function of the chain. -/
def findPosL (a : Nat) (prev : Nat) : List (Nat × FreeListNode) → Nat × Option Nat
  | [] => (prev, none)
  | (k, _) :: t => if k < a then findPosL a k t else (prev, some k)

theorem chainOK_none_inv {h : Heap} {L : List (Nat × FreeListNode)}
    (hc : chainOK h none L) : L = [] := by
  cases hc
  rfl

theorem chainOK_some_inv {h : Heap} {a : Nat} {L : List (Nat × FreeListNode)}
    (hc : chainOK h (some a) L) :
    ∃ n t, L = (a, n) :: t ∧ hget h a = some n ∧ chainOK h n.next t := by
  cases hc with
  | cons hn ht => exact ⟨_, _, rfl, hn, ht⟩

theorem chainOK_ext {h h' : Heap} {start : Option Nat} {L : List (Nat × FreeListNode)}
    (he : ∀ p ∈ L, hget h' p.1 = hget h p.1) (hc : chainOK h start L) :
    chainOK h' start L := by
  induction hc with
  | nil => exact chainOK.nil
  | cons hn ht ih =>
    rename_i a n t
    exact chainOK.cons (by rw [he (a, n) (List.mem_cons_self _ _)]; exact hn)
      (ih fun p hp => he p (List.mem_cons_of_mem _ hp))

theorem chainOK_mem_hget {h : Heap} {start : Option Nat} {L : List (Nat × FreeListNode)}
    (hc : chainOK h start L) : ∀ p ∈ L, hget h p.1 = some p.2 := by
  induction hc with
  | nil => intro p hp; cases hp
  | cons hn ht ih =>
    rename_i a n t
    intro p hp
    rcases List.mem_cons.mp hp with hp | hp
    · rw [hp]; exact hn
    · exact ih p hp

theorem hget_some_mem {h : Heap} {a : Nat} {v : FreeListNode}
    (hv : hget h a = some v) : a ∈ h.map Prod.fst := by
  induction h with
  | nil => cases hv
  | cons p t ih =>
    unfold hget at hv
    split at hv
    · rename_i hk
      rw [List.map_cons, hk]
      exact List.mem_cons_self _ _
    · exact List.mem_cons_of_mem _ (ih hv)

theorem chain_length_le {h : Heap} {start : Option Nat} {L : List (Nat × FreeListNode)}
    (hc : chainOK h start L) (hnd : (L.map Prod.fst).Nodup) : L.length ≤ h.length := by
  have hsub : L.map Prod.fst ⊆ h.map Prod.fst := by
    intro a ha
    obtain ⟨p, hp, hpa⟩ := List.mem_map.mp ha
    rw [← hpa]
    exact hget_some_mem (chainOK_mem_hget hc p hp)
  have := (List.subperm_of_subset hnd hsub).length_le
  rw [List.length_map, List.length_map] at this
  exact this

/-- Inversion of the growth path (`alloc_growth`) returning an address. -/
theorem alloc_growth_inv (B : Nat → Nat) (mallocOK : Nat → Bool)
    (σ σ' : Arena) (s addr : Nat)
    (hg : alloc_growth B mallocOK σ s = some (some addr, σ')) :
    ∃ regs' rstar rr,
      growth_walk mallocOK (ALIGN_SIZE s) σ.regions σ.endIdx (σ.regions.length + 4) =
        some (regs', some rstar) ∧
      regs'[rstar]? = some rr ∧
      region_allocate rr s = some (rr.data_count, bump_count rr (ALIGN_SIZE s)) ∧
      addr = B rstar + UINTPTR_SIZE * rr.data_count ∧
      σ' = { σ with
        regions := regs'.set rstar (bump_count rr (ALIGN_SIZE s))
        endIdx := rstar } := by
  unfold alloc_growth at hg
  split at hg
  · cases hg
  · simp at hg
  · rename_i regs' rstar hw
    split at hg
    · cases hg
    · rename_i rr hrr
      cases hra : region_allocate rr s with
      | none => rw [hra] at hg; simp at hg
      | some p =>
        rw [hra] at hg
        obtain ⟨off, rr'⟩ := p
        have hinv : rr.data_count = off ∧ bump_count rr (ALIGN_SIZE s) = rr' := by
          unfold region_allocate at hra
          split at hra
          · cases hra
          · simpa using hra
        obtain ⟨hoff, hbump⟩ := hinv
        subst hoff
        subst hbump
        simp only [Option.some.injEq, Prod.mk.injEq] at hg
        exact ⟨regs', rstar, rr, hw, hrr, hra, hg.1.symm, hg.2.symm⟩

/-- Full inversion of a successful, address-returning `arena_allocate`
call: it went through the fast path, the head-only free-list check, or the
growth path. -/
theorem c1_alloc_inv (B : Nat → Nat) (mallocOK : Nat → Bool)
    (σ σ' : Arena) (s addr : Nat)
    (h : arena_allocate B mallocOK σ s = some (some addr, σ')) :
    σ'.heap = σ.heap ∧ σ'.use_free_list = σ.use_free_list ∧
    ∃ er, σ.regions[σ.endIdx]? = some er ∧
      (((er.capacity + U64 - er.data_count) % U64 ≥ ALIGN_SIZE s ∧
        addr = B σ.endIdx + UINTPTR_SIZE * er.data_count ∧
        σ' = { σ with regions := σ.regions.set σ.endIdx (bump_count er (ALIGN_SIZE s)) }) ∨
       (¬ (er.capacity + U64 - er.data_count) % U64 ≥ ALIGN_SIZE s ∧
        σ.use_free_list = true ∧
        ∃ head n, σ.free_list = some head ∧ hget σ.heap head = some n ∧
          n.size_bytes ≥ s ∧ addr = n.ptr ∧
          σ' = { σ with free_list := n.next }) ∨
       (¬ (er.capacity + U64 - er.data_count) % U64 ≥ ALIGN_SIZE s ∧
        σ'.free_list = σ.free_list ∧
        ∃ regs' rstar rr,
          growth_walk mallocOK (ALIGN_SIZE s) σ.regions σ.endIdx (σ.regions.length + 4) =
            some (regs', some rstar) ∧
          regs'[rstar]? = some rr ∧
          region_allocate rr s = some (rr.data_count, bump_count rr (ALIGN_SIZE s)) ∧
          addr = B rstar + UINTPTR_SIZE * rr.data_count ∧
          σ' = { σ with
            regions := regs'.set rstar (bump_count rr (ALIGN_SIZE s))
            endIdx := rstar })) := by
  unfold arena_allocate at h
  split at h
  · cases h
  · rename_i er her
    split at h
    · rename_i hfast
      simp only [Option.some.injEq, Prod.mk.injEq] at h
      obtain ⟨ha, hs⟩ := h
      subst ha
      exact ⟨by rw [← hs], by rw [← hs], er, her, Or.inl ⟨hfast, rfl, hs.symm⟩⟩
    · rename_i hfast
      split at h
      · rename_i head hu hf
        cases hn : hget σ.heap head with
        | none => rw [hn] at h; cases h
        | some n =>
          simp only [hn] at h
          by_cases hsz : n.size_bytes ≥ s
          · rw [if_pos hsz] at h
            simp only [Option.some.injEq, Prod.mk.injEq] at h
            obtain ⟨ha, hs2⟩ := h
            subst ha
            exact ⟨by rw [← hs2], by rw [← hs2], er, her,
              Or.inr (Or.inl ⟨hfast, hu, head, n, hf, hn, hsz, rfl, hs2.symm⟩)⟩
          · rw [if_neg hsz] at h
            obtain ⟨regs', rstar, rr, hw, hrr, hra, haddr, hσ'⟩ :=
              alloc_growth_inv B mallocOK σ σ' s addr h
            exact ⟨by rw [hσ'], by rw [hσ'], er, her,
              Or.inr (Or.inr ⟨hfast, by rw [hσ'], regs', rstar, rr, hw, hrr, hra, haddr, hσ'⟩)⟩
      · rename_i hu hf
        obtain ⟨regs', rstar, rr, hw, hrr, hra, haddr, hσ'⟩ :=
          alloc_growth_inv B mallocOK σ σ' s addr h
        exact ⟨by rw [hσ'], by rw [hσ'], er, her,
          Or.inr (Or.inr ⟨hfast, by rw [hσ'], regs', rstar, rr, hw, hrr, hra, haddr, hσ'⟩)⟩
      · rename_i hu
        obtain ⟨regs', rstar, rr, hw, hrr, hra, haddr, hσ'⟩ :=
          alloc_growth_inv B mallocOK σ σ' s addr h
        exact ⟨by rw [hσ'], by rw [hσ'], er, her,
          Or.inr (Or.inr ⟨hfast, by rw [hσ'], regs', rstar, rr, hw, hrr, hra, haddr, hσ'⟩)⟩

theorem capAgree_refl (σ : Arena) : CapAgree σ σ := by
  refine ⟨le_refl _, fun i r1 r2 h1 h2 => ?_⟩
  rw [h1] at h2
  rw [Option.some_injective _ h2]

theorem capAgree_trans {σ1 σ2 σ3 : Arena} (h12 : CapAgree σ1 σ2) (h23 : CapAgree σ2 σ3) :
    CapAgree σ1 σ3 := by
  refine ⟨le_trans h12.1 h23.1, fun i r1 r3 h1 h3 => ?_⟩
  have hi : i < σ1.regions.length := (List.getElem?_eq_some.mp h1).1
  have hi2 : i < σ2.regions.length := lt_of_lt_of_le hi h12.1
  obtain ⟨r2, h2⟩ : ∃ r2, σ2.regions[i]? = some r2 := by
    rw [List.getElem?_eq_getElem hi2]
    exact ⟨_, rfl⟩
  exact (h12.2 i r1 r2 h1 h2).trans (h23.2 i r2 r3 h2 h3)

theorem alloc_capAgree (B : Nat → Nat) (mallocOK : Nat → Bool)
    (σ σ' : Arena) (s addr : Nat)
    (h : arena_allocate B mallocOK σ s = some (some addr, σ')) :
    CapAgree σ σ' := by
  obtain ⟨-, -, er, her, hcase⟩ := c1_alloc_inv B mallocOK σ σ' s addr h
  have hend : σ.endIdx < σ.regions.length := (List.getElem?_eq_some.mp her).1
  rcases hcase with ⟨-, -, hσ'⟩ | ⟨-, -, head, n, -, -, -, -, hσ'⟩ |
    ⟨-, -, regs', rstar, rr, hw, hrr, -, -, hσ'⟩
  · refine ⟨by rw [hσ']; simp [List.length_set], fun i r1 r2 h1 h2 => ?_⟩
    rw [hσ'] at h2
    by_cases hie : i = σ.endIdx
    · subst hie
      rw [List.getElem?_set_self hend] at h2
      rw [her] at h1
      rw [← Option.some_injective _ h1, ← Option.some_injective _ h2]
      rfl
    · rw [List.getElem?_set_ne (fun hh => hie hh.symm)] at h2
      rw [h1] at h2
      rw [Option.some_injective _ h2]
  · rw [hσ']
    exact capAgree_refl σ
  · obtain ⟨-, hs2, ⟨ext, hext, -⟩, -, -, hs6⟩ :=
      growth_walk_spec mallocOK (ALIGN_SIZE s) _ _ _ _ _ hw
    have hlen' : σ'.regions.length = regs'.length := by
      rw [hσ']
      show (regs'.set rstar (bump_count rr (ALIGN_SIZE s))).length = _
      rw [List.length_set]
    refine ⟨by rw [hlen', hext, List.length_append]; omega, fun i r1 r2 h1 h2 => ?_⟩
    have hi : i < σ.regions.length := (List.getElem?_eq_some.mp h1).1
    rw [hσ'] at h2
    by_cases hir : i = rstar
    · subst hir
      have hq : regs' = σ.regions := hs6 hi
      rw [hq] at hrr
      rw [her] at *
      rw [hrr] at h1
      have h2' : (σ.regions.set i (bump_count rr (ALIGN_SIZE s)))[i]? =
          some (bump_count rr (ALIGN_SIZE s)) := List.getElem?_set_self hi
      rw [hq] at h2
      rw [h2'] at h2
      rw [← Option.some_injective _ h1, ← Option.some_injective _ h2]
      rfl
    · rw [List.getElem?_set_ne (fun hh => hir hh.symm), hext,
        List.getElem?_append_left hi, h1] at h2
      rw [Option.some_injective _ h2]
  
theorem add_free_list_frame (σ σ' : Arena) (p s : Nat)
    (h : arena_add_free_list σ p s = some σ') :
    σ'.regions = σ.regions ∧ σ'.endIdx = σ.endIdx ∧
    σ'.use_free_list = σ.use_free_list := by
  unfold arena_add_free_list at h
  simp only [] at h
  split at h
  · cases h
    exact ⟨rfl, rfl, rfl⟩
  · split at h
    · cases h
      exact ⟨rfl, rfl, rfl⟩
    · split at h
      · cases h
        exact ⟨rfl, rfl, rfl⟩
      · split at h
        · cases h
        · split at h
          · cases h
          · split at h
            · cases h
            · split at h
              · cases h
              · cases h
                exact ⟨rfl, rfl, rfl⟩

theorem step_capAgree (B : Nat → Nat) (mallocOK : Nat → Bool)
    (st st' : TraceSt) (op : ArenaOp)
    (h : stepOp B mallocOK st op = some st') : CapAgree st.arena st'.arena := by
  cases op with
  | alloc s =>
    simp only [stepOp] at h
    split at h
    · rename_i addr σ' hstep
      cases h
      exact alloc_capAgree B mallocOK st.arena σ' s addr hstep
    · cases h
  | dealloc k =>
    simp only [stepOp] at h
    split at h
    · cases h
    · rename_i b hb
      split at h
      · rename_i σ' hfree
        cases h
        obtain ⟨hr, -, -⟩ := add_free_list_frame st.arena σ' b.1 b.2 hfree
        refine ⟨by rw [hr], fun i r1 r2 h1 h2 => ?_⟩
        rw [hr, h1] at h2
        rw [Option.some_injective _ h2]
      · cases h

theorem run_capAgree (B : Nat → Nat) (mallocOK : Nat → Bool) :
    ∀ ops (st stf : TraceSt), runOps B mallocOK st ops = some stf →
      CapAgree st.arena stf.arena := by
  intro ops
  induction ops with
  | nil =>
    intro st stf h
    unfold runOps at h
    rw [Option.some_injective _ h]
    exact capAgree_refl _
  | cons op rest ih =>
    intro st stf h
    unfold runOps at h
    cases hstep : stepOp B mallocOK st op with
    | none => rw [hstep] at h; cases h
    | some st1 =>
      rw [hstep] at h
      exact capAgree_trans (step_capAgree B mallocOK st st1 op hstep) (ih st1 stf h)

theorem chainOK_cons_inv {h : Heap} {o : Option Nat} {q : Nat} {qn : FreeListNode}
    {t : List (Nat × FreeListNode)} (hc : chainOK h o ((q, qn) :: t)) :
    o = some q ∧ hget h q = some qn ∧ chainOK h qn.next t := by
  cases hc with
  | cons hn ht => exact ⟨rfl, hn, ht⟩

theorem chainOK_nil_inv {h : Heap} {o : Option Nat} (hc : chainOK h o []) : o = none := by
  cases hc
  rfl

/-- In a chain, each node's `next` field holds the following node's
address. -/
theorem chainOK_link {h : Heap} :
    ∀ (L1 : List (Nat × FreeListNode)) (start : Option Nat) (p : Nat) (pn : FreeListNode)
      (L2 : List (Nat × FreeListNode)),
      chainOK h start (L1 ++ (p, pn) :: L2) → pn.next = L2.head?.map Prod.fst := by
  intro L1
  induction L1 with
  | nil =>
    intro start p pn L2 hc
    obtain ⟨-, -, ht⟩ := chainOK_cons_inv hc
    cases L2 with
    | nil =>
      rw [chainOK_nil_inv ht]
      rfl
    | cons q2 t2 =>
      obtain ⟨hq, -, -⟩ := chainOK_cons_inv (show chainOK h pn.next ((q2.1, q2.2) :: t2) from ht)
      rw [hq]
      rfl
  | cons x M ih =>
    intro start p pn L2 hc
    obtain ⟨-, -, ht⟩ := chainOK_cons_inv (show chainOK h start ((x.1, x.2) :: (M ++ (p, pn) :: L2)) from hc)
    exact ih x.2.next p pn L2 ht

/-- On a proper chain the insertion scan of `arena_add_free_list`
terminates and computes `findPosL`. -/
theorem fl_find_pos_eval (h : Heap) (a : Nat) :
    ∀ (L : List (Nat × FreeListNode)) (start : Option Nat) (prev fuel : Nat),
      chainOK h start L → L.length < fuel →
      fl_find_pos h a prev start fuel = some (findPosL a prev L) := by
  intro L
  induction L with
  | nil =>
    intro start prev fuel hc hf
    rw [chainOK_nil_inv hc]
    cases fuel with
    | zero => omega
    | succ f => rfl
  | cons x t ih =>
    intro start prev fuel hc hf
    obtain ⟨hs, hx, ht⟩ := chainOK_cons_inv (show chainOK h start ((x.1, x.2) :: t) from hc)
    rw [hs]
    cases fuel with
    | zero => omega
    | succ f =>
      show (if x.1 < a then
          match hget h x.1 with
          | none => none
          | some n => fl_find_pos h a x.1 n.next f
        else some (prev, some x.1)) = some (findPosL a prev ((x.1, x.2) :: t))
      by_cases hlt : x.1 < a
      · rw [if_pos hlt]
        simp only [hx]
        rw [ih x.2.next x.1 f ht (by simp at hf; omega)]
        have he : findPosL a prev ((x.1, x.2) :: t) = findPosL a x.1 t := by
          show (if x.1 < a then findPosL a x.1 t else (prev, some x.1)) = _
          rw [if_pos hlt]
        rw [he]
      · rw [if_neg hlt]
        show _ = some (findPosL a prev ((x.1, x.2) :: t))
        unfold findPosL
        rw [if_neg hlt]

/-- When the chain's first address is below the new node's, the scan stops
at a split point: a last visited node `(p, pn)` with `p < a`, followed by
the rest of the list. -/
theorem findPosL_split (a : Nat) :
    ∀ (t : List (Nat × FreeListNode)) (k0 : Nat) (n0 : FreeListNode) (prev : Nat),
      k0 < a →
      ∃ L1 p pn L2, (k0, n0) :: t = L1 ++ (p, pn) :: L2 ∧ p < a ∧
        findPosL a prev ((k0, n0) :: t) = (p, L2.head?.map Prod.fst) := by
  intro t
  induction t with
  | nil =>
    intro k0 n0 prev hlt
    refine ⟨[], k0, n0, [], rfl, hlt, ?_⟩
    unfold findPosL
    rw [if_pos hlt]
    rfl
  | cons y t2 ih =>
    intro k0 n0 prev hlt
    by_cases hy : y.1 < a
    · obtain ⟨L1, p, pn, L2, heq, hp, hfp⟩ := ih y.1 y.2 k0 hy
      refine ⟨(k0, n0) :: L1, p, pn, L2, by rw [List.cons_append, ← heq], hp, ?_⟩
      show findPosL a prev ((k0, n0) :: (y.1, y.2) :: t2) = _
      unfold findPosL
      rw [if_pos hlt]
      exact hfp
    · refine ⟨[], k0, n0, (y.1, y.2) :: t2, by rfl, hlt, ?_⟩
      show findPosL a prev ((k0, n0) :: (y.1, y.2) :: t2) = _
      unfold findPosL
      rw [if_pos hlt]
      unfold findPosL
      rw [if_neg hy]
      rfl

/-- Writing the predecessor's new `next` and the fresh node re-links the
chain with the node inserted after the split point. -/
theorem chainOK_insert {h : Heap} (a : Nat) (an : FreeListNode) :
    ∀ (L1 : List (Nat × FreeListNode)) (start : Option Nat) (p : Nat) (pn : FreeListNode)
      (L2 : List (Nat × FreeListNode)),
      chainOK h start (L1 ++ (p, pn) :: L2) →
      ((L1 ++ (p, pn) :: L2).map Prod.fst).Nodup →
      a ∉ (L1 ++ (p, pn) :: L2).map Prod.fst →
      an.next = pn.next →
      chainOK (hset (hset h p { pn with next := some a }) a an) start
        (L1 ++ (p, { pn with next := some a }) :: (a, an) :: L2) := by
  intro L1
  induction L1 with
  | nil =>
    intro start p pn L2 hc hnd ha han
    simp only [List.nil_append] at hc hnd ha ⊢
    obtain ⟨hs, hp, ht⟩ := chainOK_cons_inv hc
    rw [List.map_cons, List.mem_cons, not_or] at ha
    obtain ⟨hap, ha2⟩ := ha
    rw [List.map_cons, List.nodup_cons] at hnd
    obtain ⟨hp2, hnd2⟩ := hnd
    rw [hs]
    refine chainOK.cons ?_ ?_
    · rw [hget_hset_ne _ a p _ (fun hh => hap hh), hget_hset_self]
    · show chainOK _ (some a) _
      refine chainOK.cons (hget_hset_self _ a an) ?_
      rw [han]
      refine chainOK_ext (fun q hq => ?_) ht
      have hqm : q.1 ∈ L2.map Prod.fst := List.mem_map.mpr ⟨q, hq, rfl⟩
      rw [hget_hset_ne _ a q.1 _ (fun hh => ha2 (hh ▸ hqm)),
        hget_hset_ne _ p q.1 _ (fun hh => hp2 (hh ▸ hqm))]
  | cons x M ih =>
    intro start p pn L2 hc hnd ha han
    obtain ⟨hs, hx, ht⟩ :=
      chainOK_cons_inv (show chainOK h start ((x.1, x.2) :: (M ++ (p, pn) :: L2)) from hc)
    rw [hs]
    rw [List.cons_append, List.map_cons, List.nodup_cons] at hnd
    obtain ⟨hx2, hnd2⟩ := hnd
    rw [List.cons_append, List.map_cons, List.mem_cons, not_or] at ha
    obtain ⟨hax, ha2⟩ := ha
    have hpm : p ∈ (M ++ (p, pn) :: L2).map Prod.fst :=
      List.mem_map.mpr ⟨(p, pn), List.mem_append_right _ (List.mem_cons_self _ _), rfl⟩
    refine chainOK.cons ?_ ?_
    · rw [hget_hset_ne _ a x.1 _ (fun hh => hax hh),
        hget_hset_ne _ p x.1 _ (fun hh => hx2 (hh ▸ hpm))]
      exact hx
    · exact ih x.2.next p pn L2 ht hnd2 ha2 han

/-- A node whose `next` points at itself makes the merge scan loop
forever. -/
theorem fl_merge_selfloop :
    ∀ (fuel : Nat) (h : Heap) (a : Nat) (n : FreeListNode),
      hget h a = some n → n.next = some a → fl_merge h (some a) fuel = none := by
  intro fuel
  induction fuel with
  | zero => intro h a n _ _; rfl
  | succ f ih =>
    intro h a n hn hnx
    show (match hget h a with
      | none => none
      | some n =>
        match n.next with
        | none => some h
        | some b =>
          match hget h b with
          | none => none
          | some m =>
            if (n.ptr + n.size_bytes) % U64 = m.ptr then
              fl_merge (hset h a
                { n with size_bytes := (n.size_bytes + m.size_bytes) % U64, next := m.next })
                m.next f
            else fl_merge h b f) = none
    simp only [hn, hnx]
    by_cases hc : (n.ptr + n.size_bytes) % U64 = n.ptr
    · rw [if_pos hc]
      exact ih _ a _ (hget_hset_self h a _) rfl
    · rw [if_neg hc]
      exact ih h a n hn hnx

/-- Two nodes whose `next` fields point at each other make the merge scan
loop forever. -/
theorem fl_merge_2cycle :
    ∀ (fuel : Nat) (h : Heap) (p q : Nat) (pn qn : FreeListNode),
      p ≠ q → hget h p = some pn → pn.next = some q →
      hget h q = some qn → qn.next = some p →
      fl_merge h (some p) fuel = none := by
  intro fuel
  induction fuel with
  | zero => intro h p q pn qn _ _ _ _ _; rfl
  | succ f ih =>
    intro h p q pn qn hpq hp hpx hq hqx
    show (match hget h p with
      | none => none
      | some n =>
        match n.next with
        | none => some h
        | some b =>
          match hget h b with
          | none => none
          | some m =>
            if (n.ptr + n.size_bytes) % U64 = m.ptr then
              fl_merge (hset h p
                { n with size_bytes := (n.size_bytes + m.size_bytes) % U64, next := m.next })
                m.next f
            else fl_merge h b f) = none
    simp only [hp, hpx, hq]
    by_cases hc : (pn.ptr + pn.size_bytes) % U64 = qn.ptr
    · rw [if_pos hc, hqx]
      exact fl_merge_selfloop f _ p _ (hget_hset_self h p _) rfl
    · rw [if_neg hc]
      exact ih h q p qn pn (fun hh => hpq hh.symm) hq hqx hp hpx

/-- On a proper (finite, duplicate-free) chain the merge scan terminates
and performs exactly one `onePassMerge` pass, touching no other heap
records. -/
theorem fl_merge_eval :
    ∀ (fuel : Nat) (L : List (Nat × FreeListNode)) (h : Heap) (start : Option Nat),
      chainOK h start L → (L.map Prod.fst).Nodup → L.length < fuel →
      ∃ h3, fl_merge h start fuel = some h3 ∧
        chainOK h3 start (onePassMerge L) ∧
        ∀ x, x ∉ L.map Prod.fst → hget h3 x = hget h x := by
  intro fuel
  induction fuel with
  | zero =>
    intro L h start _ _ hf
    omega
  | succ f ih =>
    intro L h start hc hnd hf
    match L with
    | [] =>
      rw [chainOK_nil_inv hc]
      exact ⟨h, rfl, chainOK.nil, fun x _ => rfl⟩
    | [x] =>
      obtain ⟨hs, hx, ht⟩ := chainOK_cons_inv (show chainOK h start ((x.1, x.2) :: []) from hc)
      have hnx : x.2.next = none := chainOK_nil_inv ht
      rw [hs]
      refine ⟨h, ?_, ?_, fun y _ => rfl⟩
      · show (match hget h x.1 with
          | none => none
          | some n =>
            match n.next with
            | none => some h
            | some b =>
              match hget h b with
              | none => none
              | some m =>
                if (n.ptr + n.size_bytes) % U64 = m.ptr then
                  fl_merge (hset h x.1
                    { n with size_bytes := (n.size_bytes + m.size_bytes) % U64, next := m.next })
                    m.next f
                else fl_merge h b f) = some h
        simp only [hx, hnx]
      · show chainOK h (some x.1) [(x.1, x.2)]
        exact chainOK.cons hx (hnx ▸ ht)
    | x :: y :: t =>
      obtain ⟨hs, hx, ht⟩ :=
        chainOK_cons_inv (show chainOK h start ((x.1, x.2) :: (y.1, y.2) :: t) from hc)
      obtain ⟨hxy, hy, ht2⟩ := chainOK_cons_inv ht
      rw [List.map_cons, List.map_cons, List.nodup_cons, List.nodup_cons] at hnd
      obtain ⟨hx1, hy1, hndt⟩ := hnd
      rw [List.mem_cons, not_or] at hx1
      obtain ⟨hxny, hx1t⟩ := hx1
      have hstep : fl_merge h (some x.1) (f + 1) =
          (if (x.2.ptr + x.2.size_bytes) % U64 = y.2.ptr then
            fl_merge (hset h x.1
              { x.2 with
                size_bytes := (x.2.size_bytes + y.2.size_bytes) % U64
                next := y.2.next }) y.2.next f
          else fl_merge h y.1 f) := by
        show (match hget h x.1 with
          | none => none
          | some n =>
            match n.next with
            | none => some h
            | some b =>
              match hget h b with
              | none => none
              | some m =>
                if (n.ptr + n.size_bytes) % U64 = m.ptr then
                  fl_merge (hset h x.1
                    { n with size_bytes := (n.size_bytes + m.size_bytes) % U64, next := m.next })
                    m.next f
                else fl_merge h b f) = _
        simp only [hx, hxy, hy]
      have hlt : t.length < f := by
        simp only [List.length_cons] at hf
        omega
      have hop : onePassMerge ((x.1, x.2) :: (y.1, y.2) :: t) =
          (if (x.2.ptr + x.2.size_bytes) % U64 = y.2.ptr then
            (x.1, { x.2 with
              size_bytes := (x.2.size_bytes + y.2.size_bytes) % U64
              next := y.2.next }) :: onePassMerge t
          else (x.1, x.2) :: onePassMerge ((y.1, y.2) :: t)) := by
        rfl
      by_cases hcnd : (x.2.ptr + x.2.size_bytes) % U64 = y.2.ptr
      · have hc' : chainOK (hset h x.1
            { x.2 with
              size_bytes := (x.2.size_bytes + y.2.size_bytes) % U64
              next := y.2.next }) y.2.next t := by
          refine chainOK_ext (fun q hq => ?_) ht2
          exact hget_hset_ne _ x.1 q.1 _
            (fun hh => hx1t (hh ▸ List.mem_map.mpr ⟨q, hq, rfl⟩))
        obtain ⟨h3, hm, hcm, hfr⟩ := ih t _ y.2.next hc' hndt hlt
        refine ⟨h3, ?_, ?_, ?_⟩
        · rw [hs, hstep, if_pos hcnd]
          exact hm
        · rw [hs, hop, if_pos hcnd]
          refine chainOK.cons ?_ hcm
          rw [hfr x.1 hx1t, hget_hset_self]
        · intro z hz
          rw [List.map_cons, List.map_cons, List.mem_cons, not_or, List.mem_cons, not_or] at hz
          obtain ⟨hz1, hz2, hz3⟩ := hz
          rw [hfr z hz3]
          exact hget_hset_ne _ x.1 z _ (fun hh => hz1 hh.symm)
      · have hcy : chainOK h (some y.1) ((y.1, y.2) :: t) := chainOK.cons hy ht2
        obtain ⟨h3, hm, hcm, hfr⟩ := ih ((y.1, y.2) :: t) h (some y.1) hcy
          (by rw [List.map_cons]; exact List.nodup_cons.mpr ⟨hy1, hndt⟩)
          (by simp only [List.length_cons] at hf ⊢; omega)
        refine ⟨h3, ?_, ?_, ?_⟩
        · rw [hs, hstep, if_neg hcnd]
          exact hm
        · rw [hs, hop, if_neg hcnd]
          refine chainOK.cons ?_ (hxy ▸ hcm)
          rw [hfr x.1 (by rw [List.map_cons, List.mem_cons, not_or]; exact ⟨hxny, hx1t⟩)]
          exact hx
        · intro z hz
          rw [List.map_cons, List.mem_cons, not_or] at hz
          exact hfr z hz.2

/-- Some block of the list covers byte `x`. -/
def covers (Bs : List (Nat × Nat)) (x : Nat) : Prop :=
  ∃ b ∈ Bs, b.1 ≤ x ∧ x < b.1 + b.2

theorem blkDisj_symm {b1 b2 : Nat × Nat} (h : blkDisj b1 b2) : blkDisj b2 b1 := by
  unfold blkDisj at *
  omega

theorem blkDisj_no_common {b1 b2 : Nat × Nat} (h : blkDisj b1 b2) (x : Nat)
    (h1 : b1.1 ≤ x) (h2 : x < b1.1 + b1.2) (h3 : b2.1 ≤ x) (h4 : x < b2.1 + b2.2) : False := by
  unfold blkDisj at h
  omega

theorem pointwise_to_blkDisj {b1 b2 : Nat × Nat} (hp1 : 0 < b1.2) (hp2 : 0 < b2.2)
    (h : ∀ x, b1.1 ≤ x → x < b1.1 + b1.2 → ¬(b2.1 ≤ x ∧ x < b2.1 + b2.2)) :
    blkDisj b1 b2 := by
  rcases le_or_lt (b1.1 + b1.2) b2.1 with hle | hgt
  · exact Or.inl hle
  · rcases le_or_lt (b2.1 + b2.2) b1.1 with hle2 | hgt2
    · exact Or.inr hle2
    · exfalso
      rcases Nat.le_total b1.1 b2.1 with hc | hc
      · exact h b2.1 hc hgt ⟨le_refl _, by omega⟩
      · exact h b1.1 (le_refl _) (by omega) ⟨hc, by omega⟩

theorem mem_flBlocks {L : List (Nat × FreeListNode)} {c : Nat × Nat} :
    c ∈ flBlocks L ↔ ∃ p ∈ L, (p.1, p.2.size_bytes) = c := List.mem_map

theorem flBlocks_cons (p : Nat × FreeListNode) (t : List (Nat × FreeListNode)) :
    flBlocks (p :: t) = (p.1, p.2.size_bytes) :: flBlocks t := rfl

theorem onePassMerge_keys_sublist :
    ∀ L : List (Nat × FreeListNode),
      List.Sublist ((onePassMerge L).map Prod.fst) (L.map Prod.fst) := by
  intro L
  induction L using onePassMerge.induct with
  | case1 => simp [onePassMerge]
  | case2 x => simp [onePassMerge]
  | case3 k n b m rest hc ih =>
    rw [onePassMerge, if_pos hc]
    simp only [List.map_cons]
    exact List.Sublist.cons₂ k (List.Sublist.trans ih (List.sublist_cons_self _ _))
  | case4 k n b m rest hc ih =>
    rw [onePassMerge, if_neg hc]
    simp only [List.map_cons] at ih ⊢
    exact List.Sublist.cons₂ k ih

/-- The single merge pass keeps every per-node invariant, only covers
bytes the input chain covered, and keeps blocks pairwise disjoint. -/
theorem onePassMerge_main :
    ∀ L : List (Nat × FreeListNode),
      (∀ p ∈ L, p.2.ptr = p.1) →
      (∀ p ∈ L, FREELISTNODE_SIZE ≤ p.2.size_bytes) →
      (∀ p ∈ L, p.1 + p.2.size_bytes < U64) →
      List.Pairwise blkDisj (flBlocks L) →
      (∀ p ∈ onePassMerge L, p.2.ptr = p.1 ∧ FREELISTNODE_SIZE ≤ p.2.size_bytes ∧
        p.1 + p.2.size_bytes < U64) ∧
      (∀ x, covers (flBlocks (onePassMerge L)) x → covers (flBlocks L) x) ∧
      List.Pairwise blkDisj (flBlocks (onePassMerge L)) := by
  intro L
  induction L using onePassMerge.induct with
  | case1 =>
    intro _ _ _ _
    exact ⟨fun p hp => absurd hp (List.not_mem_nil p), fun x hx => hx, List.Pairwise.nil⟩
  | case2 x =>
    intro hptr hsz hbd hpw
    rw [onePassMerge]
    exact ⟨fun p hp => ⟨hptr p hp, hsz p hp, hbd p hp⟩, fun x hx => hx, hpw⟩
  | case3 k n b m rest hc ih =>
    intro hptr hsz hbd hpw
    have hnp : n.ptr = k := hptr (k, n) (List.mem_cons_self _ _)
    have hmp : m.ptr = b := hptr (b, m) (List.mem_cons_of_mem _ (List.mem_cons_self _ _))
    have hkb : k + n.size_bytes < U64 :=
      hbd (k, n) (List.mem_cons_self _ _)
    have hbb : b + m.size_bytes < U64 :=
      hbd (b, m) (List.mem_cons_of_mem _ (List.mem_cons_self _ _))
    have hn24 : FREELISTNODE_SIZE ≤ n.size_bytes := hsz (k, n) (List.mem_cons_self _ _)
    have hnpos : 0 < n.size_bytes := by
      unfold FREELISTNODE_SIZE at hn24
      omega
    have hadj : k + n.size_bytes = b := by
      have h2 := hc
      rw [hnp, hmp] at h2
      rw [Nat.mod_eq_of_lt hkb] at h2
      exact h2
    have hsum : n.size_bytes + m.size_bytes < U64 := by omega
    have hmsz : (n.size_bytes + m.size_bytes) % U64 = n.size_bytes + m.size_bytes :=
      Nat.mod_eq_of_lt hsum
    rw [flBlocks_cons, flBlocks_cons, List.pairwise_cons] at hpw
    obtain ⟨hd1, hpw2⟩ := hpw
    rw [List.pairwise_cons] at hpw2
    obtain ⟨hd2, hpwr⟩ := hpw2
    obtain ⟨ihb, ihc, ihp⟩ := ih
      (fun p hp => hptr p (List.mem_cons_of_mem _ (List.mem_cons_of_mem _ hp)))
      (fun p hp => hsz p (List.mem_cons_of_mem _ (List.mem_cons_of_mem _ hp)))
      (fun p hp => hbd p (List.mem_cons_of_mem _ (List.mem_cons_of_mem _ hp)))
      hpwr
    rw [onePassMerge, if_pos hc]
    refine ⟨?_, ?_, ?_⟩
    · intro p hp
      rcases List.mem_cons.mp hp with hp | hp
      · rw [hp]
        refine ⟨hnp, ?_, ?_⟩
        · show FREELISTNODE_SIZE ≤ (n.size_bytes + m.size_bytes) % U64
          rw [hmsz]
          omega
        · show k + (n.size_bytes + m.size_bytes) % U64 < U64
          rw [hmsz]
          omega
      · exact ihb p hp
    · intro x hx
      obtain ⟨c, hcm, hc1, hc2⟩ := hx
      rw [flBlocks_cons] at hcm
      rcases List.mem_cons.mp hcm with hcm | hcm
      · rw [hcm] at hc1 hc2
        have hc1' : k ≤ x := hc1
        have hc2' : x < k + (n.size_bytes + m.size_bytes) % U64 := hc2
        rw [hmsz] at hc2'
        by_cases hx2 : x < k + n.size_bytes
        · exact ⟨(k, n.size_bytes), List.mem_cons_self _ _, hc1', hx2⟩
        · refine ⟨(b, m.size_bytes), List.mem_cons_of_mem _ (List.mem_cons_self _ _),
            show b ≤ x by omega, show x < b + m.size_bytes by omega⟩
      · obtain ⟨d, hdm, hdx1, hdx2⟩ := ihc x ⟨c, hcm, hc1, hc2⟩
        exact ⟨d, List.mem_cons_of_mem _ (List.mem_cons_of_mem _ hdm), hdx1, hdx2⟩
    · rw [flBlocks_cons, List.pairwise_cons]
      refine ⟨?_, ihp⟩
      intro c hcm
      obtain ⟨p, hpm, hpc⟩ := mem_flBlocks.mp hcm
      have hcpos : 0 < c.2 := by
        rw [← hpc]
        have h24 := (ihb p hpm).2.1
        show 0 < p.2.size_bytes
        unfold FREELISTNODE_SIZE at h24
        omega
      refine pointwise_to_blkDisj ?_ hcpos ?_
      · show 0 < (n.size_bytes + m.size_bytes) % U64
        rw [hmsz]
        omega
      · intro x hx1 hx2 hx3
        have hx1' : k ≤ x := hx1
        have hx2' : x < k + (n.size_bytes + m.size_bytes) % U64 := hx2
        rw [hmsz] at hx2'
        obtain ⟨d, hdm, hdx1, hdx2⟩ := ihc x ⟨c, mem_flBlocks.mpr ⟨p, hpm, hpc⟩, hx3.1, hx3.2⟩
        by_cases hxk : x < k + n.size_bytes
        · exact blkDisj_no_common (hd1 d (List.mem_cons_of_mem _ hdm)) x hx1' hxk hdx1 hdx2
        · exact blkDisj_no_common (hd2 d hdm) x (show b ≤ x by omega)
            (show x < b + m.size_bytes by omega) hdx1 hdx2
  | case4 k n b m rest hc ih =>
    intro hptr hsz hbd hpw
    rw [flBlocks_cons, List.pairwise_cons] at hpw
    obtain ⟨hd1, hpw2⟩ := hpw
    obtain ⟨ihb, ihc, ihp⟩ := ih
      (fun p hp => hptr p (List.mem_cons_of_mem _ hp))
      (fun p hp => hsz p (List.mem_cons_of_mem _ hp))
      (fun p hp => hbd p (List.mem_cons_of_mem _ hp))
      hpw2
    rw [onePassMerge, if_neg hc]
    refine ⟨?_, ?_, ?_⟩
    · intro p hp
      rcases List.mem_cons.mp hp with hp | hp
      · rw [hp]
        exact ⟨hptr (k, n) (List.mem_cons_self _ _), hsz (k, n) (List.mem_cons_self _ _),
          hbd (k, n) (List.mem_cons_self _ _)⟩
      · exact ihb p hp
    · intro x hx
      obtain ⟨c, hcm, hc1, hc2⟩ := hx
      rw [flBlocks_cons] at hcm
      rcases List.mem_cons.mp hcm with hcm | hcm
      · exact ⟨(k, n.size_bytes), List.mem_cons_self _ _, hcm ▸ hc1, hcm ▸ hc2⟩
      · obtain ⟨d, hdm, hdx1, hdx2⟩ := ihc x ⟨c, hcm, hc1, hc2⟩
        exact ⟨d, List.mem_cons_of_mem _ hdm, hdx1, hdx2⟩
    · rw [flBlocks_cons, List.pairwise_cons]
      refine ⟨?_, ihp⟩
      intro c hcm
      obtain ⟨p, hpm, hpc⟩ := mem_flBlocks.mp hcm
      have hcpos : 0 < c.2 := by
        rw [← hpc]
        have h24 := (ihb p hpm).2.1
        show 0 < p.2.size_bytes
        unfold FREELISTNODE_SIZE at h24
        omega
      have hnpos : 0 < n.size_bytes := by
        have h24 : FREELISTNODE_SIZE ≤ n.size_bytes := hsz (k, n) (List.mem_cons_self _ _)
        unfold FREELISTNODE_SIZE at h24
        omega
      refine pointwise_to_blkDisj hnpos hcpos ?_
      · intro x hx1 hx2 hx3
        obtain ⟨d, hdm, hdx1, hdx2⟩ := ihc x ⟨c, mem_flBlocks.mpr ⟨p, hpm, hpc⟩, hx3.1, hx3.2⟩
        exact blkDisj_no_common (hd1 d hdm) x hx1 hx2 hdx1 hdx2

theorem eraseIdx_decomp {α : Type} :
    ∀ (l : List α) (k : Nat) (b : α), l[k]? = some b →
      ∃ u v, l = u ++ b :: v ∧ u.length = k ∧ l.eraseIdx k = u ++ v := by
  intro l
  induction l with
  | nil => intro k b hb; cases hb
  | cons x t ih =>
    intro k b hb
    cases k with
    | zero =>
      rw [List.getElem?_cons_zero] at hb
      exact ⟨[], t, by rw [Option.some_injective _ hb]; rfl, rfl, rfl⟩
    | succ j =>
      rw [List.getElem?_cons_succ] at hb
      obtain ⟨u, v, hl, hu, he⟩ := ih j b hb
      exact ⟨x :: u, v, by rw [List.cons_append, ← hl], by rw [List.length_cons, hu],
        by rw [List.eraseIdx_cons_succ, he]; rfl⟩

theorem inConsumed_regions_eq {B : Nat → Nat} {σ σ' : Arena} (hr : σ'.regions = σ.regions)
    {b : Nat × Nat} (h : InConsumed B σ b) : InConsumed B σ' b := by
  intro x hx1 hx2
  obtain ⟨i, r, hi, h1, h2⟩ := h x hx1 hx2
  exact ⟨i, r, by rw [hr]; exact hi, h1, h2⟩

/-- The chain after `arena_add_free_list` writes the new node (before the
merge pass): the split point's `next` leads to the new node, whose `next`
leads to the rest. -/
def insL (L1 : List (Nat × FreeListNode)) (p : Nat) (pn : FreeListNode)
    (L2 : List (Nat × FreeListNode)) (a s : Nat) : List (Nat × FreeListNode) :=
  L1 ++ (p, { pn with next := some a }) ::
    (a, { size_bytes := s, ptr := a, next := L2.head?.map Prod.fst }) :: L2

/-- What a terminating `arena_add_free_list` call does on a recycling
arena with a proper chain, a block address that is on no chain node, and a
big-enough block: empty list — the node becomes the head; non-empty list —
the call only terminates when the scan walked at least one node, and the
heap then holds the one-pass-merged chain with the node inserted at the
split point. -/
theorem add_free_list_spec (σ : Arena) (a s : Nat) (σ' : Arena)
    (L : List (Nat × FreeListNode))
    (husf : σ.use_free_list = true) (hs24 : ¬ s < FREELISTNODE_SIZE)
    (hchain : chainOK σ.heap σ.free_list L)
    (hnd : (L.map Prod.fst).Nodup)
    (ha : a ∉ L.map Prod.fst)
    (h : arena_add_free_list σ a s = some σ') :
    (L = [] ∧ σ' = { σ with
      heap := hset σ.heap a { size_bytes := s, ptr := a, next := none }
      free_list := some a }) ∨
    (∃ L1 p pn L2 h3, L = L1 ++ (p, pn) :: L2 ∧
      chainOK h3 σ.free_list (onePassMerge (insL L1 p pn L2 a s)) ∧
      ((insL L1 p pn L2 a s).map Prod.fst).Nodup ∧
      σ' = { σ with heap := h3 }) := by
  unfold arena_add_free_list at h
  rw [if_neg (by rw [husf]; exact fun hh => Bool.noConfusion hh), if_neg hs24] at h
  simp only [] at h
  cases hfl : σ.free_list with
  | none =>
    rw [hfl] at h
    rw [hfl] at hchain
    simp only [Option.some.injEq] at h
    exact Or.inl ⟨chainOK_none_inv hchain, h.symm⟩
  | some head =>
    rw [hfl] at hchain
    obtain ⟨n0, t, hL, hh0get, ht⟩ := chainOK_some_inv hchain
    simp only [hfl] at h
    have hchain0 : chainOK (hset σ.heap a { size_bytes := s, ptr := a, next := none })
        (some head) L := by
      refine chainOK_ext (fun q hq => ?_) hchain
      exact hget_hset_ne _ a q.1 _ (fun hh => ha (hh ▸ List.mem_map.mpr ⟨q, hq, rfl⟩))
    have hfuel : L.length <
        (hset σ.heap a { size_bytes := s, ptr := a, next := none }).length + 1 :=
      Nat.lt_succ_of_le (chain_length_le hchain0 hnd)
    rw [fl_find_pos_eval _ a L (some head) head _ hchain0 hfuel] at h
    have hahead : a ≠ head := by
      intro hh
      exact ha (hh ▸ (hL ▸ List.mem_map.mpr ⟨(head, n0), List.mem_cons_self _ _, rfl⟩))
    by_cases hha : head < a
    · -- proper insertion after a nonempty walked part
      obtain ⟨L1, p, pn, L2, hsplit, hpa, hfp⟩ := findPosL_split a t head n0 head hha
      rw [← hL] at hsplit
      rw [hL] at h
      rw [hfp] at h
      simp only [] at h
      have hpmem : (p, pn) ∈ L := by
        rw [hsplit]
        exact List.mem_append_right _ (List.mem_cons_self _ _)
      have hap : a ≠ p := by
        intro hh
        exact ha (hh ▸ List.mem_map.mpr ⟨(p, pn), hpmem, rfl⟩)
      have hgp : hget (hset σ.heap a { size_bytes := s, ptr := a, next := none }) p = some pn :=
        chainOK_mem_hget hchain0 (p, pn) hpmem
      simp only [hgp] at h
      have hga : hget (hset (hset σ.heap a { size_bytes := s, ptr := a, next := none }) p
          { pn with next := some a }) a = some { size_bytes := s, ptr := a, next := none } := by
        rw [hget_hset_ne _ p a _ (fun hh => hap hh.symm), hget_hset_self]
      simp only [hga] at h
      have hlink : pn.next = L2.head?.map Prod.fst := chainOK_link L1 (some head) p pn L2
        (hsplit ▸ hchain0)
      have hchain2 : chainOK
          (hset (hset (hset σ.heap a { size_bytes := s, ptr := a, next := none }) p
            { pn with next := some a }) a
            { size_bytes := s, ptr := a, next := L2.head?.map Prod.fst })
          (some head) (insL L1 p pn L2 a s) := by
        have := chainOK_insert a { size_bytes := s, ptr := a, next := L2.head?.map Prod.fst }
          L1 (some head) p pn L2 (hsplit ▸ hchain0) (hsplit ▸ hnd) (by
            intro hh
            exact ha (hsplit ▸ hh)) hlink.symm
        exact this
      have hndins : ((insL L1 p pn L2 a s).map Prod.fst).Nodup := by
        unfold insL
        have he1 : (L1 ++ (p, { pn with next := some a }) ::
            (a, { size_bytes := s, ptr := a, next := L2.head?.map Prod.fst }) :: L2).map
              Prod.fst =
            (L1.map Prod.fst ++ [p]) ++ a :: L2.map Prod.fst := by
          simp
        rw [he1, List.nodup_middle]
        have he2 : a :: (L1.map Prod.fst ++ [p] ++ L2.map Prod.fst) =
            a :: (L1 ++ (p, pn) :: L2).map Prod.fst := by
          simp
        rw [he2, List.nodup_cons]
        exact ⟨fun hh => ha (hsplit ▸ hh), hsplit ▸ hnd⟩
      have hfuel2 : (insL L1 p pn L2 a s).length <
          (hset (hset (hset σ.heap a { size_bytes := s, ptr := a, next := none }) p
            { pn with next := some a }) a
            { size_bytes := s, ptr := a, next := L2.head?.map Prod.fst }).length + 1 :=
        Nat.lt_succ_of_le (chain_length_le hchain2 hndins)
      obtain ⟨h3, hmrg, hchain3, -⟩ :=
        fl_merge_eval _ (insL L1 p pn L2 a s) _ (some head) hchain2 hndins hfuel2
      simp only [hmrg, Option.some.injEq] at h
      refine Or.inr ⟨L1, p, pn, L2, h3, hsplit, ?_, hndins, ?_⟩
      · exact hchain3
      · rw [← h]
    · -- the block's address is below the head: the C call never returns
      exfalso
      rw [hL] at h
      have hfp0 : findPosL a head ((head, n0) :: t) = (head, some head) := by
        show (if head < a then findPosL a head t else (head, some head)) = _
        rw [if_neg hha]
      rw [hfp0] at h
      simp only [] at h
      have hgh : hget (hset σ.heap a { size_bytes := s, ptr := a, next := none }) head =
          some n0 :=
        chainOK_mem_hget hchain0 (head, n0) (by rw [hL]; exact List.mem_cons_self _ _)
      simp only [hgh] at h
      have hga : hget (hset (hset σ.heap a { size_bytes := s, ptr := a, next := none }) head
          { n0 with next := some a }) a = some { size_bytes := s, ptr := a, next := none } := by
        rw [hget_hset_ne _ head a _ (fun hh => hahead hh.symm), hget_hset_self]
      simp only [hga] at h
      have hdiv : fl_merge
          (hset (hset (hset σ.heap a { size_bytes := s, ptr := a, next := none }) head
            { n0 with next := some a }) a
            { size_bytes := s, ptr := a, next := some head })
          (some head)
          ((hset (hset (hset σ.heap a { size_bytes := s, ptr := a, next := none }) head
            { n0 with next := some a }) a
            { size_bytes := s, ptr := a, next := some head }).length + 1) = none := by
        refine fl_merge_2cycle _ _ head a { n0 with next := some a }
          { size_bytes := s, ptr := a, next := some head }
          (fun hh => hahead hh.symm) ?_ rfl (hget_hset_self _ a _) rfl
        rw [hget_hset_ne _ a head _ hahead, hget_hset_self]
      rw [hdiv] at h
      cases h

theorem flBlocks_append (L1 L2 : List (Nat × FreeListNode)) :
    flBlocks (L1 ++ L2) = flBlocks L1 ++ flBlocks L2 := List.map_append _ _ _

theorem flBlocks_insL (L1 : List (Nat × FreeListNode)) (p : Nat) (pn : FreeListNode)
    (L2 : List (Nat × FreeListNode)) (a s : Nat) :
    flBlocks (insL L1 p pn L2 a s) =
      flBlocks L1 ++ (p, pn.size_bytes) :: (a, s) :: flBlocks L2 := by
  unfold insL
  rw [flBlocks_append, flBlocks_cons, flBlocks_cons]

/-- Deallocating a live block through `arena_add_free_list` (with its
requested size) preserves the C1 invariant: the block moves from the live
set into the free list, possibly merged with exactly-adjacent free
blocks. -/
theorem c1_free_preserve (B : Nat → Nat) (σ σ' : Arena) (live : List (Nat × Nat))
    (k a s : Nat) (L : List (Nat × FreeListNode))
    (hInv : C1Inv B ⟨σ, live⟩ L)
    (hk : live[k]? = some (a, s))
    (h : arena_add_free_list σ a s = some σ') :
    ∃ L', C1Inv B ⟨σ', live.eraseIdx k⟩ L' := by
  have hmem : (a, s) ∈ live := List.getElem?_mem hk
  have hspos : 0 < s := hInv.live_pos _ hmem
  have halign : a % UINTPTR_SIZE = 0 := hInv.live_align _ hmem
  have habound : a + s < U64 := hInv.bound (a, s) (List.mem_append_left _ hmem)
  have hdisj := hInv.disj
  rw [List.pairwise_append] at hdisj
  obtain ⟨hpwLive, hpwFL, hcross⟩ := hdisj
  obtain ⟨u, v, hluv, -, herase⟩ := eraseIdx_decomp live k (a, s) hk
  have hsymm : ∀ {x y : Nat × Nat}, blkDisj x y → blkDisj y x := fun hxy => blkDisj_symm hxy
  have hmid := (List.pairwise_middle hsymm).mp (hluv ▸ hpwLive)
  rw [List.pairwise_cons] at hmid
  obtain ⟨hafree, hpwUV⟩ := hmid
  have hsubE : ∀ c ∈ u ++ v, c ∈ live := by
    intro c hc
    rw [hluv]
    rcases List.mem_append.mp hc with hcl | hcr
    · exact List.mem_append_left _ hcl
    · exact List.mem_append_right _ (List.mem_cons_of_mem _ hcr)
  rw [herase]
  -- the no-op branches leave arena and chain unchanged
  have hkeep : σ' = σ → ∃ L', C1Inv B ⟨σ, u ++ v⟩ L' := by
    intro _
    refine ⟨L, ?_⟩
    exact {
      chain := hInv.chain
      nodup := hInv.nodup
      fl_ptr := hInv.fl_ptr
      fl_size := hInv.fl_size
      fl_align := hInv.fl_align
      live_pos := fun b hb => hInv.live_pos b (hsubE b hb)
      live_align := fun b hb => hInv.live_align b (hsubE b hb)
      bound := by
        intro b hb
        rcases List.mem_append.mp hb with hb | hb
        · exact hInv.bound b (List.mem_append_left _ (hsubE b hb))
        · exact hInv.bound b (List.mem_append_right _ hb)
      disj := List.pairwise_append.mpr ⟨hpwUV, hpwFL,
        fun c hc d hd => hcross c (hsubE c hc) d hd⟩
      inCons := by
        intro b hb
        rcases List.mem_append.mp hb with hb | hb
        · exact hInv.inCons b (List.mem_append_left _ (hsubE b hb))
        · exact hInv.inCons b (List.mem_append_right _ hb)
      cnt_le := hInv.cnt_le }
  cases husf : σ.use_free_list with
  | false =>
    have hσ : σ' = σ := by
      unfold arena_add_free_list at h
      rw [if_pos husf] at h
      exact (Option.some_injective _ h).symm
    rw [hσ]
    exact hkeep hσ
  | true =>
    by_cases hs24 : s < FREELISTNODE_SIZE
    · have hσ : σ' = σ := by
        unfold arena_add_free_list at h
        rw [if_neg (by rw [husf]; exact fun hh => Bool.noConfusion hh), if_pos hs24] at h
        exact (Option.some_injective _ h).symm
      rw [hσ]
      exact hkeep hσ
    · have ha : a ∉ L.map Prod.fst := by
        intro hh
        obtain ⟨q, hq, hqa⟩ := List.mem_map.mp hh
        have hd := hcross (a, s) hmem (q.1, q.2.size_bytes)
          (mem_flBlocks.mpr ⟨q, hq, rfl⟩)
        have hq24 : FREELISTNODE_SIZE ≤ q.2.size_bytes := hInv.fl_size q hq
        unfold blkDisj at hd
        unfold FREELISTNODE_SIZE at hq24
        rw [hqa] at hd
        omega
      rcases add_free_list_spec σ a s σ' L husf hs24 hInv.chain hInv.nodup ha h with
        ⟨hLnil, hσ'⟩ | ⟨L1, p, pn, L2, h3, hsplit, hchain3, hndins, hσ'⟩
      · -- empty list: the freed block becomes the single free node
        refine ⟨[(a, { size_bytes := s, ptr := a, next := none })], ?_⟩
        rw [hσ']
        refine {
          chain := chainOK.cons (hget_hset_self _ a _) chainOK.nil
          nodup := by simp
          fl_ptr := ?_
          fl_size := ?_
          fl_align := ?_
          live_pos := fun b hb => hInv.live_pos b (hsubE b hb)
          live_align := fun b hb => hInv.live_align b (hsubE b hb)
          bound := ?_
          disj := ?_
          inCons := ?_
          cnt_le := hInv.cnt_le }
        · intro q hq
          rw [List.mem_singleton] at hq
          rw [hq]
        · intro q hq
          rw [List.mem_singleton] at hq
          rw [hq]
          show FREELISTNODE_SIZE ≤ s
          omega
        · intro q hq
          rw [List.mem_singleton] at hq
          rw [hq]
          exact halign
        · intro b hb
          rcases List.mem_append.mp hb with hb | hb
          · exact hInv.bound b (List.mem_append_left _ (hsubE b hb))
          · rw [show flBlocks [(a, { size_bytes := s, ptr := a, next := none })] = [(a, s)]
              from rfl, List.mem_singleton] at hb
            rw [hb]
            exact habound
        · rw [show flBlocks [(a, { size_bytes := s, ptr := a, next := none })] = [(a, s)]
            from rfl]
          refine List.pairwise_append.mpr ⟨hpwUV, List.pairwise_singleton _ _, ?_⟩
          intro c hc d hd
          rw [List.mem_singleton] at hd
          rw [hd]
          exact blkDisj_symm (hafree c hc)
        · intro b hb
          rcases List.mem_append.mp hb with hb | hb
          · exact inConsumed_regions_eq rfl (hInv.inCons b (List.mem_append_left _ (hsubE b hb)))
          · rw [show flBlocks [(a, { size_bytes := s, ptr := a, next := none })] = [(a, s)]
              from rfl, List.mem_singleton] at hb
            rw [hb]
            exact inConsumed_regions_eq rfl (hInv.inCons (a, s) (List.mem_append_left _ hmem))
      · -- general case: insertion at the split point plus one merge pass
        have hsubL1 : ∀ q ∈ L1, q ∈ L := by
          intro q hq
          rw [hsplit]
          exact List.mem_append_left _ hq
        have hsubL2 : ∀ q ∈ L2, q ∈ L := by
          intro q hq
          rw [hsplit]
          exact List.mem_append_right _ (List.mem_cons_of_mem _ hq)
        have hpmem : (p, pn) ∈ L := by
          rw [hsplit]
          exact List.mem_append_right _ (List.mem_cons_self _ _)
        have hmemIns : ∀ q ∈ insL L1 p pn L2 a s,
            (q ∈ L ∧ q.2.size_bytes = q.2.size_bytes) ∨ q = (p, { pn with next := some a }) ∨
            q = (a, { size_bytes := s, ptr := a, next := L2.head?.map Prod.fst }) := by
          intro q hq
          unfold insL at hq
          rcases List.mem_append.mp hq with hq | hq
          · exact Or.inl ⟨hsubL1 q hq, rfl⟩
          · rcases List.mem_cons.mp hq with hq | hq
            · exact Or.inr (Or.inl hq)
            · rcases List.mem_cons.mp hq with hq | hq
              · exact Or.inr (Or.inr hq)
              · exact Or.inl ⟨hsubL2 q hq, rfl⟩
        have hptrIns : ∀ q ∈ insL L1 p pn L2 a s, q.2.ptr = q.1 := by
          intro q hq
          rcases hmemIns q hq with ⟨hq, -⟩ | hq | hq
          · exact hInv.fl_ptr q hq
          · rw [hq]
            show pn.ptr = p
            exact hInv.fl_ptr (p, pn) hpmem
          · rw [hq]
        have hszIns : ∀ q ∈ insL L1 p pn L2 a s, FREELISTNODE_SIZE ≤ q.2.size_bytes := by
          intro q hq
          rcases hmemIns q hq with ⟨hq, -⟩ | hq | hq
          · exact hInv.fl_size q hq
          · rw [hq]
            exact hInv.fl_size (p, pn) hpmem
          · rw [hq]
            show FREELISTNODE_SIZE ≤ s
            omega
        have hbdIns : ∀ q ∈ insL L1 p pn L2 a s, q.1 + q.2.size_bytes < U64 := by
          intro q hq
          rcases hmemIns q hq with ⟨hq, -⟩ | hq | hq
          · exact hInv.bound (q.1, q.2.size_bytes)
              (List.mem_append_right _ (mem_flBlocks.mpr ⟨q, hq, rfl⟩))
          · rw [hq]
            exact hInv.bound (p, pn.size_bytes)
              (List.mem_append_right _ (mem_flBlocks.mpr ⟨(p, pn), hpmem, rfl⟩))
          · rw [hq]
            exact habound
        have hflL : flBlocks L = flBlocks L1 ++ (p, pn.size_bytes) :: flBlocks L2 := by
          rw [hsplit, flBlocks_append, flBlocks_cons]
        have hpwIns : List.Pairwise blkDisj (flBlocks (insL L1 p pn L2 a s)) := by
          rw [flBlocks_insL]
          have he : flBlocks L1 ++ (p, pn.size_bytes) :: (a, s) :: flBlocks L2 =
              (flBlocks L1 ++ [(p, pn.size_bytes)]) ++ (a, s) :: flBlocks L2 := by
            simp
          rw [he, List.pairwise_middle hsymm, List.pairwise_cons]
          have he2 : (flBlocks L1 ++ [(p, pn.size_bytes)]) ++ flBlocks L2 = flBlocks L := by
            rw [hflL]
            simp
          rw [he2]
          exact ⟨fun d hd => hcross (a, s) hmem d hd, hpwFL⟩
        obtain ⟨hbun, hcov, hpwOut⟩ :=
          onePassMerge_main (insL L1 p pn L2 a s) hptrIns hszIns hbdIns hpwIns
        have hmemInsB : ∀ d ∈ flBlocks (insL L1 p pn L2 a s), d ∈ flBlocks L ∨ d = (a, s) := by
          intro d hd
          rw [flBlocks_insL] at hd
          rcases List.mem_append.mp hd with hd | hd
          · refine Or.inl ?_
            rw [hflL]
            exact List.mem_append_left _ hd
          · rcases List.mem_cons.mp hd with hd | hd
            · refine Or.inl ?_
              rw [hflL, hd]
              exact List.mem_append_right _ (List.mem_cons_self _ _)
            · rcases List.mem_cons.mp hd with hd | hd
              · exact Or.inr hd
              · refine Or.inl ?_
                rw [hflL]
                exact List.mem_append_right _ (List.mem_cons_of_mem _ hd)
        have hcovers : ∀ x, covers (flBlocks (onePassMerge (insL L1 p pn L2 a s))) x →
            covers (flBlocks L) x ∨ (a ≤ x ∧ x < a + s) := by
          intro x hx
          obtain ⟨e, he, hex1, hex2⟩ := hcov x hx
          rcases hmemInsB e he with he2 | he2
          · exact Or.inl ⟨e, he2, hex1, hex2⟩
          · rw [he2] at hex1 hex2
            exact Or.inr ⟨hex1, hex2⟩
        refine ⟨onePassMerge (insL L1 p pn L2 a s), ?_⟩
        rw [hσ']
        refine {
          chain := hchain3
          nodup := List.Nodup.sublist (onePassMerge_keys_sublist _) hndins
          fl_ptr := fun q hq => (hbun q hq).1
          fl_size := fun q hq => (hbun q hq).2.1
          fl_align := ?_
          live_pos := fun b hb => hInv.live_pos b (hsubE b hb)
          live_align := fun b hb => hInv.live_align b (hsubE b hb)
          bound := ?_
          disj := ?_
          inCons := ?_
          cnt_le := hInv.cnt_le }
        · intro q hq
          have hqk : q.1 ∈ (insL L1 p pn L2 a s).map Prod.fst :=
            (onePassMerge_keys_sublist _).subset (List.mem_map.mpr ⟨q, hq, rfl⟩)
          obtain ⟨q', hq', hq'1⟩ := List.mem_map.mp hqk
          rw [← hq'1]
          rcases hmemIns q' hq' with ⟨hq', -⟩ | hq' | hq'
          · exact hInv.fl_align q' hq'
          · rw [hq']
            exact hInv.fl_align (p, pn) hpmem
          · rw [hq']
            exact halign
        · intro b hb
          rcases List.mem_append.mp hb with hb | hb
          · exact hInv.bound b (List.mem_append_left _ (hsubE b hb))
          · obtain ⟨q, hq, hqb⟩ := mem_flBlocks.mp hb
            rw [← hqb]
            exact (hbun q hq).2.2
        · refine List.pairwise_append.mpr ⟨hpwUV, hpwOut, ?_⟩
          intro c hc d hd
          have hcpos : 0 < c.2 := hInv.live_pos c (hsubE c hc)
          obtain ⟨q, hq, hqd⟩ := mem_flBlocks.mp hd
          have hdpos : 0 < d.2 := by
            rw [← hqd]
            have h24 := (hbun q hq).2.1
            show 0 < q.2.size_bytes
            unfold FREELISTNODE_SIZE at h24
            omega
          refine pointwise_to_blkDisj hcpos hdpos ?_
          intro x hx1 hx2 hx3
          rcases hcovers x ⟨d, hd, hx3.1, hx3.2⟩ with hcv | hcv
          · obtain ⟨e, he, hex1, hex2⟩ := hcv
            exact blkDisj_no_common (hcross c (hsubE c hc) e he) x hx1 hx2 hex1 hex2
          · exact blkDisj_no_common (blkDisj_symm (hafree c hc)) x hx1 hx2 hcv.1 hcv.2
        · intro b hb
          rcases List.mem_append.mp hb with hb | hb
          · exact inConsumed_regions_eq rfl (hInv.inCons b (List.mem_append_left _ (hsubE b hb)))
          · intro x hx1 hx2
            rcases hcovers x ⟨b, hb, hx1, hx2⟩ with hcv | hcv
            · obtain ⟨e, he, hex1, hex2⟩ := hcv
              exact hInv.inCons e (List.mem_append_right _ he) x hex1 hex2
            · exact hInv.inCons (a, s) (List.mem_append_left _ hmem) x hcv.1 hcv.2

theorem blkDisj_shrink {c : Nat × Nat} {b t2 s2 : Nat} (h : blkDisj c (b, t2)) (hs : s2 ≤ t2) :
    blkDisj c (b, s2) := by
  rcases h with h | h
  · exact Or.inl h
  · refine Or.inr ?_
    show b + s2 ≤ c.1
    have h2 : b + t2 ≤ c.1 := h
    omega

theorem pairwise_insert_mid {l1 l2 : List (Nat × Nat)} {nb : Nat × Nat}
    (hpw : List.Pairwise blkDisj (l1 ++ l2)) (hnb : ∀ c ∈ l1 ++ l2, blkDisj nb c) :
    List.Pairwise blkDisj ((l1 ++ [nb]) ++ l2) := by
  have he : (l1 ++ [nb]) ++ l2 = l1 ++ nb :: l2 := by simp
  rw [he, List.pairwise_middle (fun hxy => blkDisj_symm hxy), List.pairwise_cons]
  exact ⟨hnb, hpw⟩

theorem inConsumed_mono {B : Nat → Nat} {σ σ' : Arena}
    (hmono : ∀ (i : Nat) (r : Region), σ.regions[i]? = some r →
      ∃ r', σ'.regions[i]? = some r' ∧ r.data_count ≤ r'.data_count)
    {c : Nat × Nat} (hc : InConsumed B σ c) : InConsumed B σ' c := by
  intro x hx1 hx2
  obtain ⟨i, r, hi, h1, h2⟩ := hc x hx1 hx2
  obtain ⟨r', hi', hle⟩ := hmono i r hi
  have hm : UINTPTR_SIZE * r.data_count ≤ UINTPTR_SIZE * r'.data_count :=
    Nat.mul_le_mul_left _ hle
  exact ⟨i, r', hi', h1, by omega⟩

/-- A freshly carved bump chunk `[addr, addr + s)` inside region `e`,
starting at or past `e`'s consumed area, is disjoint from every block that
lies in the consumed part of the old chain. -/
theorem fresh_chunk_disj (B : Nat → Nat) (σ σ' : Arena) (e : Nat) (c : Nat × Nat)
    (addr s cap_e : Nat)
    (hc : InConsumed B σ c) (hcpos : 0 < c.2) (hspos : 0 < s)
    (hcnt : ∀ r ∈ σ.regions, r.data_count ≤ r.capacity)
    (hagree : ∀ (i : Nat) (r : Region), σ.regions[i]? = some r →
      ∃ r', σ'.regions[i]? = some r' ∧ r'.capacity = r.capacity)
    (hee : ∃ re, σ'.regions[e]? = some re ∧ re.capacity = cap_e)
    (hsep : ∀ (i j : Nat) (ri rj : Region), i ≠ j → σ'.regions[i]? = some ri →
      σ'.regions[j]? = some rj →
      B i + UINTPTR_SIZE * ri.capacity ≤ B j ∨ B j + UINTPTR_SIZE * rj.capacity ≤ B i)
    (hlow : ∀ er, σ.regions[e]? = some er → B e + UINTPTR_SIZE * er.data_count ≤ addr)
    (hchunk1 : B e ≤ addr) (hchunk2 : addr + s ≤ B e + UINTPTR_SIZE * cap_e) :
    blkDisj c (addr, s) := by
  refine pointwise_to_blkDisj hcpos hspos ?_
  intro x hx1 hx2 hx3
  have hx4 : addr ≤ x := hx3.1
  have hx5 : x < addr + s := hx3.2
  obtain ⟨i, r, hi, h1, h2⟩ := hc x hx1 hx2
  by_cases hie : i = e
  · subst hie
    have := hlow r hi
    omega
  · obtain ⟨r', hi', hcap'⟩ := hagree i r hi
    obtain ⟨re, he', hcape⟩ := hee
    have hrle : r.data_count ≤ r.capacity := hcnt r (List.getElem?_mem hi)
    have hm : UINTPTR_SIZE * r.data_count ≤ UINTPTR_SIZE * r.capacity :=
      Nat.mul_le_mul_left _ hrle
    rcases hsep i e r' re hie hi' he' with hsp | hsp
    · rw [hcap'] at hsp
      omega
    · rw [hcape] at hsp
      omega

/-- A successful, address-returning `arena_allocate` preserves the C1
invariant, with the returned block added to the live set: the fast and
growth paths carve a fresh chunk past every consumed area, and the
recycling path hands back a front part of the head free block. -/
theorem c1_alloc_preserve (B : Nat → Nat) (mallocOK : Nat → Bool) (σ σ' : Arena)
    (live : List (Nat × Nat)) (s addr : Nat) (L : List (Nat × FreeListNode))
    (hInv : C1Inv B ⟨σ, live⟩ L)
    (hB8 : ∀ i, B i % UINTPTR_SIZE = 0)
    (hsep : ∀ (i j : Nat) (ri rj : Region), i ≠ j → σ'.regions[i]? = some ri →
      σ'.regions[j]? = some rj →
      B i + UINTPTR_SIZE * ri.capacity ≤ B j ∨ B j + UINTPTR_SIZE * rj.capacity ≤ B i)
    (hbound : ∀ (i : Nat) (ri : Region), σ'.regions[i]? = some ri →
      B i + UINTPTR_SIZE * ri.capacity < U64)
    (hspos : 0 < s) (hsmax : s + 7 < U64)
    (h : arena_allocate B mallocOK σ s = some (some addr, σ')) :
    ∃ L', C1Inv B ⟨σ', live ++ [(addr, s)]⟩ L' := by
  have hpos : ∀ c ∈ live ++ flBlocks L, 0 < c.2 := by
    intro c hc
    rcases List.mem_append.mp hc with hc | hc
    · exact hInv.live_pos c hc
    · obtain ⟨q, hq, hqc⟩ := mem_flBlocks.mp hc
      have h24 := hInv.fl_size q hq
      rw [← hqc]
      show 0 < q.2.size_bytes
      unfold FREELISTNODE_SIZE at h24
      omega
  have hsal : s ≤ ALIGN_SIZE s := ALIGN_SIZE_le s hsmax
  obtain ⟨hheap', husf', er, her, hcase⟩ := c1_alloc_inv B mallocOK σ σ' s addr h
  have hend : σ.endIdx < σ.regions.length := (List.getElem?_eq_some.mp her).1
  rcases hcase with ⟨hfast, haddr, hσ'⟩ | ⟨hfast, husf, head, n, hfl, hgn, hsz, haddr, hσ'⟩ |
    ⟨hfast, hflpres, regs', rstar, rr, hw, hrr, hra, haddr, hσ'⟩
  · -- fast bump path
    have hsete : σ'.regions[σ.endIdx]? = some (bump_count er (ALIGN_SIZE s)) := by
      rw [hσ']
      exact List.getElem?_set_self hend
    have hbe0 := hbound σ.endIdx _ hsete
    have hbe : B σ.endIdx + 8 * er.capacity < U64 := hbe0
    have hcap_lt : er.capacity < U64 := by omega
    have hcnt : er.data_count ≤ er.capacity := hInv.cnt_le er (List.getElem?_mem her)
    have hrem : ALIGN_SIZE s ≤ er.capacity - er.data_count := by
      rw [remCap_eq er hcnt hcap_lt] at hfast
      exact hfast
    have hfit : er.data_count + ALIGN_SIZE s ≤ er.capacity := by omega
    have hbv : (er.data_count + ALIGN_SIZE s) % U64 = er.data_count + ALIGN_SIZE s :=
      Nat.mod_eq_of_lt (by omega)
    have haddr8 : addr = B σ.endIdx + 8 * er.data_count := haddr
    have hub : addr + s ≤ B σ.endIdx + 8 * er.capacity := by omega
    have halignN : addr % UINTPTR_SIZE = 0 := by
      show addr % 8 = 0
      have hb8 : B σ.endIdx % 8 = 0 := hB8 σ.endIdx
      omega
    have hagree : ∀ (i : Nat) (r : Region), σ.regions[i]? = some r →
        ∃ r', σ'.regions[i]? = some r' ∧ r'.capacity = r.capacity := by
      intro i r hi
      by_cases hie : i = σ.endIdx
      · subst hie
        rw [her] at hi
        refine ⟨bump_count er (ALIGN_SIZE s), hsete, ?_⟩
        rw [← Option.some_injective _ hi]
        rfl
      · refine ⟨r, ?_, rfl⟩
        rw [hσ']
        show (σ.regions.set σ.endIdx (bump_count er (ALIGN_SIZE s)))[i]? = some r
        rw [List.getElem?_set_ne (fun hh => hie hh.symm)]
        exact hi
    have hnbdisj : ∀ c ∈ live ++ flBlocks L, blkDisj c (addr, s) := by
      intro c hc
      refine fresh_chunk_disj B σ σ' σ.endIdx c addr s er.capacity
        (hInv.inCons c hc) (hpos c hc) hspos hInv.cnt_le hagree
        ⟨bump_count er (ALIGN_SIZE s), hsete, rfl⟩ hsep ?_ ?_ ?_
      · intro er' hi
        rw [her] at hi
        rw [← Option.some_injective _ hi]
        show B σ.endIdx + 8 * er.data_count ≤ addr
        omega
      · show B σ.endIdx ≤ addr
        omega
      · exact hub
    have hmono : ∀ (i : Nat) (r : Region), σ.regions[i]? = some r →
        ∃ r', σ'.regions[i]? = some r' ∧ r.data_count ≤ r'.data_count := by
      intro i r hi
      by_cases hie : i = σ.endIdx
      · subst hie
        rw [her] at hi
        refine ⟨bump_count er (ALIGN_SIZE s), hsete, ?_⟩
        rw [← Option.some_injective _ hi]
        show er.data_count ≤ (er.data_count + ALIGN_SIZE s) % U64
        omega
      · refine ⟨r, ?_, le_refl _⟩
        rw [hσ']
        show (σ.regions.set σ.endIdx (bump_count er (ALIGN_SIZE s)))[i]? = some r
        rw [List.getElem?_set_ne (fun hh => hie hh.symm)]
        exact hi
    refine ⟨L, ?_⟩
    refine {
      chain := by rw [hσ']; exact hInv.chain
      nodup := hInv.nodup
      fl_ptr := hInv.fl_ptr
      fl_size := hInv.fl_size
      fl_align := hInv.fl_align
      live_pos := ?_
      live_align := ?_
      bound := ?_
      disj := ?_
      inCons := ?_
      cnt_le := ?_ }
    · intro b hb
      rcases List.mem_append.mp hb with hb | hb
      · exact hInv.live_pos b hb
      · rw [List.mem_singleton] at hb
        rw [hb]
        exact hspos
    · intro b hb
      rcases List.mem_append.mp hb with hb | hb
      · exact hInv.live_align b hb
      · rw [List.mem_singleton] at hb
        rw [hb]
        exact halignN
    · intro b hb
      rcases List.mem_append.mp hb with hb | hb
      · rcases List.mem_append.mp hb with hb | hb
        · exact hInv.bound b (List.mem_append_left _ hb)
        · rw [List.mem_singleton] at hb
          rw [hb]
          show addr + s < U64
          omega
      · exact hInv.bound b (List.mem_append_right _ hb)
    · exact pairwise_insert_mid hInv.disj (fun c hc => blkDisj_symm (hnbdisj c hc))
    · intro b hb
      rcases List.mem_append.mp hb with hb | hb
      · rcases List.mem_append.mp hb with hb | hb
        · exact inConsumed_mono hmono (hInv.inCons b (List.mem_append_left _ hb))
        · rw [List.mem_singleton] at hb
          rw [hb]
          intro x hx1 hx2
          refine ⟨σ.endIdx, bump_count er (ALIGN_SIZE s), hsete, ?_, ?_⟩
          · show B σ.endIdx ≤ x
            have hx1' : addr ≤ x := hx1
            omega
          · show x < B σ.endIdx + 8 * ((er.data_count + ALIGN_SIZE s) % U64)
            have hx2' : x < addr + s := hx2
            omega
      · exact inConsumed_mono hmono (hInv.inCons b (List.mem_append_right _ hb))
    · intro r' hr'
      have hr2 : r' ∈ σ.regions.set σ.endIdx (bump_count er (ALIGN_SIZE s)) := by
        rw [hσ'] at hr'
        exact hr'
      obtain ⟨j, hj⟩ := List.mem_iff_getElem?.mp hr2
      by_cases hje : j = σ.endIdx
      · subst hje
        rw [List.getElem?_set_self hend] at hj
        rw [← Option.some_injective _ hj]
        show (er.data_count + ALIGN_SIZE s) % U64 ≤ er.capacity
        omega
      · rw [List.getElem?_set_ne (fun hh => hje hh.symm)] at hj
        exact hInv.cnt_le r' (List.getElem?_mem hj)
  · -- head-of-free-list recycling path
    have hchain := hInv.chain
    rw [hfl] at hchain
    obtain ⟨n0, t, hL, hg0, ht⟩ := chainOK_some_inv hchain
    obtain rfl : n = n0 := by
      rw [hgn] at hg0
      exact Option.some_injective _ hg0
    have hptr : n.ptr = head := hInv.fl_ptr (head, n) (by rw [hL]; exact List.mem_cons_self _ _)
    have haddrh : addr = head := by rw [haddr, hptr]
    have hheadblk : (head, n.size_bytes) ∈ flBlocks L := by
      rw [hL]
      exact List.mem_cons_self _ _
    have hhbound : head + n.size_bytes < U64 := hInv.bound (head, n.size_bytes)
      (List.mem_append_right _ hheadblk)
    have hflt : flBlocks L = (head, n.size_bytes) :: flBlocks t := by
      rw [hL, flBlocks_cons]
    have hmid := (List.pairwise_middle (fun hxy => blkDisj_symm hxy)).mp
      (by rw [← hflt]; exact hInv.disj)
    rw [List.pairwise_cons] at hmid
    obtain ⟨hhd, hpw'⟩ := hmid
    have hndt : (t.map Prod.fst).Nodup := by
      have := hInv.nodup
      rw [hL, List.map_cons, List.nodup_cons] at this
      exact this.2
    have hsubt : ∀ q ∈ t, q ∈ L := by
      intro q hq
      rw [hL]
      exact List.mem_cons_of_mem _ hq
    refine ⟨t, ?_⟩
    refine {
      chain := by rw [hσ']; exact ht
      nodup := hndt
      fl_ptr := fun q hq => hInv.fl_ptr q (hsubt q hq)
      fl_size := fun q hq => hInv.fl_size q (hsubt q hq)
      fl_align := fun q hq => hInv.fl_align q (hsubt q hq)
      live_pos := ?_
      live_align := ?_
      bound := ?_
      disj := ?_
      inCons := ?_
      cnt_le := by rw [hσ']; exact hInv.cnt_le }
    · intro b hb
      rcases List.mem_append.mp hb with hb | hb
      · exact hInv.live_pos b hb
      · rw [List.mem_singleton] at hb
        rw [hb]
        exact hspos
    · intro b hb
      rcases List.mem_append.mp hb with hb | hb
      · exact hInv.live_align b hb
      · rw [List.mem_singleton] at hb
        rw [hb, haddrh]
        exact hInv.fl_align (head, n) (by rw [hL]; exact List.mem_cons_self _ _)
    · intro b hb
      rcases List.mem_append.mp hb with hb | hb
      · rcases List.mem_append.mp hb with hb | hb
        · exact hInv.bound b (List.mem_append_left _ hb)
        · rw [List.mem_singleton] at hb
          rw [hb, haddrh]
          show head + s < U64
          omega
      · obtain ⟨q, hq, hqb⟩ := mem_flBlocks.mp hb
        refine hInv.bound b (List.mem_append_right _ ?_)
        exact mem_flBlocks.mpr ⟨q, hsubt q hq, hqb⟩
    · refine pairwise_insert_mid hpw' ?_
      intro c hc
      rw [haddrh]
      exact blkDisj_symm (blkDisj_shrink (blkDisj_symm (hhd c hc)) hsz)
    · intro b hb
      rcases List.mem_append.mp hb with hb | hb
      · rcases List.mem_append.mp hb with hb | hb
        · exact inConsumed_regions_eq (by rw [hσ']) (hInv.inCons b (List.mem_append_left _ hb))
        · rw [List.mem_singleton] at hb
          rw [hb, haddrh]
          refine inConsumed_regions_eq (by rw [hσ']) ?_
          intro x hx1 hx2
          refine hInv.inCons (head, n.size_bytes) (List.mem_append_right _ hheadblk) x ?_ ?_
          · exact hx1
          · show x < head + n.size_bytes
            have hx2' : x < head + s := hx2
            omega
      · obtain ⟨q, hq, hqb⟩ := mem_flBlocks.mp hb
        refine inConsumed_regions_eq (by rw [hσ']) (hInv.inCons b (List.mem_append_right _ ?_))
        exact mem_flBlocks.mpr ⟨q, hsubt q hq, hqb⟩
  · -- growth path
    obtain ⟨hs1, hs2, ⟨ext, hext, hext0⟩, hjudg, ⟨rr0, hrr0, hsuff0⟩, hs6⟩ :=
      growth_walk_spec mallocOK (ALIGN_SIZE s) _ _ _ _ _ hw
    rw [hrr] at hrr0
    obtain rfl : rr = rr0 := Option.some_injective _ hrr0
    have hsetr : σ'.regions[rstar]? = some (bump_count rr (ALIGN_SIZE s)) := by
      rw [hσ']
      exact List.getElem?_set_self hs2
    have hbr0 := hbound rstar _ hsetr
    have hbr : B rstar + 8 * rr.capacity < U64 := hbr0
    have hcapr_lt : rr.capacity < U64 := by omega
    have hcnt_rr : rr.data_count ≤ rr.capacity := by
      rcases Nat.lt_or_ge rstar σ.regions.length with hlt | hge
      · have hq : regs' = σ.regions := hs6 hlt
        rw [hq] at hrr
        exact hInv.cnt_le rr (List.getElem?_mem hrr)
      · have hq : regs'[rstar]? = ext[rstar - σ.regions.length]? := by
          rw [hext]
          exact List.getElem?_append_right hge
        rw [hq] at hrr
        have := (hext0 rr (List.getElem?_mem hrr)).1
        omega
    have hremr : ALIGN_SIZE s ≤ rr.capacity - rr.data_count := by
      rw [remCap_eq rr hcnt_rr hcapr_lt] at hsuff0
      exact hsuff0
    have hfitr : rr.data_count + ALIGN_SIZE s ≤ rr.capacity := by omega
    have haddr8 : addr = B rstar + 8 * rr.data_count := haddr
    have hubr : addr + s ≤ B rstar + 8 * rr.capacity := by omega
    have halignN : addr % UINTPTR_SIZE = 0 := by
      show addr % 8 = 0
      have hb8 : B rstar % 8 = 0 := hB8 rstar
      omega
    have hagree : ∀ (i : Nat) (r : Region), σ.regions[i]? = some r →
        ∃ r', σ'.regions[i]? = some r' ∧ r'.capacity = r.capacity := by
      intro i r hi
      have hilen : i < σ.regions.length := (List.getElem?_eq_some.mp hi).1
      by_cases hie : i = rstar
      · subst hie
        have hq : regs' = σ.regions := hs6 hilen
        rw [hq] at hrr
        rw [hrr] at hi
        refine ⟨bump_count rr (ALIGN_SIZE s), hsetr, ?_⟩
        rw [← Option.some_injective _ hi]
        rfl
      · refine ⟨r, ?_, rfl⟩
        rw [hσ']
        show (regs'.set rstar (bump_count rr (ALIGN_SIZE s)))[i]? = some r
        rw [List.getElem?_set_ne (fun hh => hie hh.symm), hext,
          List.getElem?_append_left hilen]
        exact hi
    have hnbdisj : ∀ c ∈ live ++ flBlocks L, blkDisj c (addr, s) := by
      intro c hc
      refine fresh_chunk_disj B σ σ' rstar c addr s rr.capacity
        (hInv.inCons c hc) (hpos c hc) hspos hInv.cnt_le hagree
        ⟨bump_count rr (ALIGN_SIZE s), hsetr, rfl⟩ hsep ?_ ?_ ?_
      · intro er' hi
        have hilen : rstar < σ.regions.length := (List.getElem?_eq_some.mp hi).1
        have hq : regs' = σ.regions := hs6 hilen
        rw [hq] at hrr
        rw [hrr] at hi
        rw [← Option.some_injective _ hi]
        show B rstar + 8 * rr.data_count ≤ addr
        omega
      · show B rstar ≤ addr
        omega
      · exact hubr
    have hmono : ∀ (i : Nat) (r : Region), σ.regions[i]? = some r →
        ∃ r', σ'.regions[i]? = some r' ∧ r.data_count ≤ r'.data_count := by
      intro i r hi
      have hilen : i < σ.regions.length := (List.getElem?_eq_some.mp hi).1
      by_cases hie : i = rstar
      · subst hie
        have hq : regs' = σ.regions := hs6 hilen
        rw [hq] at hrr
        rw [hrr] at hi
        refine ⟨bump_count rr (ALIGN_SIZE s), hsetr, ?_⟩
        rw [← Option.some_injective _ hi]
        show rr.data_count ≤ (rr.data_count + ALIGN_SIZE s) % U64
        have hbvr : (rr.data_count + ALIGN_SIZE s) % U64 = rr.data_count + ALIGN_SIZE s :=
          Nat.mod_eq_of_lt (by omega)
        omega
      · refine ⟨r, ?_, le_refl _⟩
        rw [hσ']
        show (regs'.set rstar (bump_count rr (ALIGN_SIZE s)))[i]? = some r
        rw [List.getElem?_set_ne (fun hh => hie hh.symm), hext,
          List.getElem?_append_left hilen]
        exact hi
    refine ⟨L, ?_⟩
    refine {
      chain := by rw [hheap', hflpres]; exact hInv.chain
      nodup := hInv.nodup
      fl_ptr := hInv.fl_ptr
      fl_size := hInv.fl_size
      fl_align := hInv.fl_align
      live_pos := ?_
      live_align := ?_
      bound := ?_
      disj := ?_
      inCons := ?_
      cnt_le := ?_ }
    · intro b hb
      rcases List.mem_append.mp hb with hb | hb
      · exact hInv.live_pos b hb
      · rw [List.mem_singleton] at hb
        rw [hb]
        exact hspos
    · intro b hb
      rcases List.mem_append.mp hb with hb | hb
      · exact hInv.live_align b hb
      · rw [List.mem_singleton] at hb
        rw [hb]
        exact halignN
    · intro b hb
      rcases List.mem_append.mp hb with hb | hb
      · rcases List.mem_append.mp hb with hb | hb
        · exact hInv.bound b (List.mem_append_left _ hb)
        · rw [List.mem_singleton] at hb
          rw [hb]
          show addr + s < U64
          omega
      · exact hInv.bound b (List.mem_append_right _ hb)
    · exact pairwise_insert_mid hInv.disj (fun c hc => blkDisj_symm (hnbdisj c hc))
    · intro b hb
      rcases List.mem_append.mp hb with hb | hb
      · rcases List.mem_append.mp hb with hb | hb
        · exact inConsumed_mono hmono (hInv.inCons b (List.mem_append_left _ hb))
        · rw [List.mem_singleton] at hb
          rw [hb]
          intro x hx1 hx2
          refine ⟨rstar, bump_count rr (ALIGN_SIZE s), hsetr, ?_, ?_⟩
          · show B rstar ≤ x
            have hx1' : addr ≤ x := hx1
            omega
          · show x < B rstar + 8 * ((rr.data_count + ALIGN_SIZE s) % U64)
            have hx2' : x < addr + s := hx2
            have hbvr : (rr.data_count + ALIGN_SIZE s) % U64 = rr.data_count + ALIGN_SIZE s :=
              Nat.mod_eq_of_lt (by omega)
            omega
      · exact inConsumed_mono hmono (hInv.inCons b (List.mem_append_right _ hb))
    · intro r' hr'
      have hr2 : r' ∈ regs'.set rstar (bump_count rr (ALIGN_SIZE s)) := by
        rw [hσ'] at hr'
        exact hr'
      obtain ⟨j, hj⟩ := List.mem_iff_getElem?.mp hr2
      by_cases hjr : j = rstar
      · subst hjr
        rw [List.getElem?_set_self hs2] at hj
        rw [← Option.some_injective _ hj]
        show (rr.data_count + ALIGN_SIZE s) % U64 ≤ rr.capacity
        have hbvr : (rr.data_count + ALIGN_SIZE s) % U64 = rr.data_count + ALIGN_SIZE s :=
          Nat.mod_eq_of_lt (by omega)
        omega
      · rw [List.getElem?_set_ne (fun hh => hjr hh.symm)] at hj
        rcases Nat.lt_or_ge j σ.regions.length with hjl | hjl
        · rw [hext, List.getElem?_append_left hjl] at hj
          exact hInv.cnt_le r' (List.getElem?_mem hj)
        · rw [hext, List.getElem?_append_right hjl] at hj
          have := hext0 r' (List.getElem?_mem hj)
          omega

theorem sep_transfer (B : Nat → Nat) (σ' σf : Arena) (hca : CapAgree σ' σf)
    (hsepF : ∀ (i j : Nat) (ri rj : Region), i ≠ j → σf.regions[i]? = some ri →
      σf.regions[j]? = some rj →
      B i + UINTPTR_SIZE * ri.capacity ≤ B j ∨ B j + UINTPTR_SIZE * rj.capacity ≤ B i) :
    ∀ (i j : Nat) (ri rj : Region), i ≠ j → σ'.regions[i]? = some ri →
      σ'.regions[j]? = some rj →
      B i + UINTPTR_SIZE * ri.capacity ≤ B j ∨ B j + UINTPTR_SIZE * rj.capacity ≤ B i := by
  intro i j ri rj hij hi hj
  have hil : i < σf.regions.length :=
    lt_of_lt_of_le (List.getElem?_eq_some.mp hi).1 hca.1
  have hjl : j < σf.regions.length :=
    lt_of_lt_of_le (List.getElem?_eq_some.mp hj).1 hca.1
  obtain ⟨rif, hif⟩ : ∃ r, σf.regions[i]? = some r := by
    rw [List.getElem?_eq_getElem hil]; exact ⟨_, rfl⟩
  obtain ⟨rjf, hjf⟩ : ∃ r, σf.regions[j]? = some r := by
    rw [List.getElem?_eq_getElem hjl]; exact ⟨_, rfl⟩
  rw [hca.2 i ri rif hi hif, hca.2 j rj rjf hj hjf]
  exact hsepF i j rif rjf hij hif hjf

theorem bound_transfer (B : Nat → Nat) (σ' σf : Arena) (hca : CapAgree σ' σf)
    (hbF : ∀ (i : Nat) (ri : Region), σf.regions[i]? = some ri →
      B i + UINTPTR_SIZE * ri.capacity < U64) :
    ∀ (i : Nat) (ri : Region), σ'.regions[i]? = some ri →
      B i + UINTPTR_SIZE * ri.capacity < U64 := by
  intro i ri hi
  have hil : i < σf.regions.length :=
    lt_of_lt_of_le (List.getElem?_eq_some.mp hi).1 hca.1
  obtain ⟨rif, hif⟩ : ∃ r, σf.regions[i]? = some r := by
    rw [List.getElem?_eq_getElem hil]; exact ⟨_, rfl⟩
  rw [hca.2 i ri rif hi hif]
  exact hbF i rif hif

/-- The C1 invariant is preserved along every successful trace. -/
theorem c1_run (B : Nat → Nat) (mallocOK : Nat → Bool) (szB : Nat)
    (hB8 : ∀ i, B i % UINTPTR_SIZE = 0) (hszB : szB + 7 < U64) :
    ∀ (ops : List ArenaOp) (st stf : TraceSt) (L : List (Nat × FreeListNode)),
      runOps B mallocOK st ops = some stf →
      C1Inv B st L →
      (∀ op ∈ ops, opOK szB op) →
      (∀ (i j : Nat) (ri rj : Region), i ≠ j → stf.arena.regions[i]? = some ri →
        stf.arena.regions[j]? = some rj →
        B i + UINTPTR_SIZE * ri.capacity ≤ B j ∨
          B j + UINTPTR_SIZE * rj.capacity ≤ B i) →
      (∀ (i : Nat) (ri : Region), stf.arena.regions[i]? = some ri →
        B i + UINTPTR_SIZE * ri.capacity < U64) →
      ∃ L', C1Inv B stf L' := by
  intro ops
  induction ops with
  | nil =>
    intro st stf L h hInv _ _ _
    unfold runOps at h
    rw [← Option.some_injective _ h]
    exact ⟨L, hInv⟩
  | cons op rest ih =>
    intro st stf L h hInv hops hsepF hbF
    unfold runOps at h
    cases hstep : stepOp B mallocOK st op with
    | none => rw [hstep] at h; cases h
    | some st1 =>
      rw [hstep, Option.some_bind] at h
      have hopsR : ∀ op2 ∈ rest, opOK szB op2 :=
        fun op2 ho => hops op2 (List.mem_cons_of_mem _ ho)
      have hca : CapAgree st1.arena stf.arena := run_capAgree B mallocOK rest st1 stf h
      cases op with
      | alloc s =>
        simp only [stepOp] at hstep
        split at hstep
        · rename_i addr σ' hal
          have hst1 : st1 = ⟨σ', st.live ++ [(addr, s)]⟩ :=
            (Option.some_injective _ hstep).symm
          obtain ⟨hspos, hsle⟩ : 0 < s ∧ s ≤ szB := hops (.alloc s) (List.mem_cons_self _ _)
          have hsmax : s + 7 < U64 := by omega
          have hca' : CapAgree σ' stf.arena := by
            rw [hst1] at hca
            exact hca
          obtain ⟨L1, hInv1⟩ := c1_alloc_preserve B mallocOK st.arena σ' st.live s addr L
            hInv hB8 (sep_transfer B σ' stf.arena hca' hsepF)
            (bound_transfer B σ' stf.arena hca' hbF) hspos hsmax hal
          refine ih st1 stf L1 h ?_ hopsR hsepF hbF
          rw [hst1]
          exact hInv1
        · cases hstep
      | dealloc k =>
        simp only [stepOp] at hstep
        split at hstep
        · cases hstep
        · rename_i b hb
          split at hstep
          · rename_i σ' hfree
            have hst1 : st1 = ⟨σ', st.live.eraseIdx k⟩ :=
              (Option.some_injective _ hstep).symm
            obtain ⟨L1, hInv1⟩ :=
              c1_free_preserve B st.arena σ' st.live k b.1 b.2 L hInv hb hfree
            refine ih st1 stf L1 h ?_ hopsR hsepF hbF
            rw [hst1]
            exact hInv1
          · cases hstep

theorem foldr_max_achieved :
    ∀ l : List Nat, l ≠ [] → ∃ x ∈ l, l.foldr max 0 ≤ x := by
  intro l
  induction l with
  | nil => intro hh; exact absurd rfl hh
  | cons a t ih =>
    intro _
    cases t with
    | nil =>
      refine ⟨a, List.mem_cons_self _ _, ?_⟩
      show max a 0 ≤ a
      omega
    | cons b t2 =>
      obtain ⟨x, hx, hfx⟩ := ih (by intro hh; cases hh)
      rcases le_total ((b :: t2).foldr max 0) a with hc | hc
      · refine ⟨a, List.mem_cons_self _ _, ?_⟩
        show max a ((b :: t2).foldr max 0) ≤ a
        omega
      · refine ⟨x, List.mem_cons_of_mem _ hx, ?_⟩
        show max a ((b :: t2).foldr max 0) ≤ x
        omega

/-- C1: along every successful trace of `arena_allocate` calls (positive
sizes, each at most the largest single-Region byte capacity of the run)
interleaved with `arena_add_free_list` calls returning live blocks — on a
recycling or non-recycling arena — the live blocks' byte ranges are
pairwise disjoint and every returned address is a multiple of
`sizeof(uintptr_t)`. The hypotheses on `B` say the regions' data areas are
pairwise disjoint and fit in the address space, as the C allocation of
backing buffers guarantees. -/
theorem c1_disjoint_aligned (B : Nat → Nat) (mallocOK : Nat → Bool) (c0 : Nat)
    (σ0 : Arena) (ops : List ArenaOp) (stf : TraceSt)
    (h0 : σ0 = create_arena c0 ∨ σ0 = create_freelist_arena c0)
    (hB8 : ∀ i, B i % UINTPTR_SIZE = 0)
    (hsep : ∀ (i j : Nat) (ri rj : Region), i ≠ j → stf.arena.regions[i]? = some ri →
      stf.arena.regions[j]? = some rj →
      B i + UINTPTR_SIZE * ri.capacity ≤ B j ∨ B j + UINTPTR_SIZE * rj.capacity ≤ B i)
    (hbound : ∀ (i : Nat) (ri : Region), stf.arena.regions[i]? = some ri →
      B i + UINTPTR_SIZE * ri.capacity < U64)
    (hops : ∀ op ∈ ops, opOK (UINTPTR_SIZE * max_capacity stf.arena) op)
    (hrun : runOps B mallocOK ⟨σ0, []⟩ ops = some stf) :
    stf.live.Pairwise blkDisj ∧ ∀ b ∈ stf.live, b.1 % UINTPTR_SIZE = 0 := by
  have hca := run_capAgree B mallocOK ops ⟨σ0, []⟩ stf hrun
  have hlen : 1 ≤ stf.arena.regions.length := by
    have h1 : σ0.regions.length = 1 := by
      rcases h0 with h0 | h0 <;> rw [h0] <;> rfl
    have h2 := hca.1
    have h3 : σ0.regions.length ≤ stf.arena.regions.length := h2
    omega
  have hne : stf.arena.regions.map Region.capacity ≠ [] := by
    intro hh
    have h4 := congrArg List.length hh
    rw [List.length_map] at h4
    simp only [List.length_nil] at h4
    omega
  obtain ⟨x, hx, hfx⟩ := foldr_max_achieved _ hne
  obtain ⟨r, hr, hrx⟩ := List.mem_map.mp hx
  obtain ⟨j, hj⟩ := List.mem_iff_getElem?.mp hr
  have hbj : B j + 8 * r.capacity < U64 := hbound j r hj
  have hszB : UINTPTR_SIZE * max_capacity stf.arena + 7 < U64 := by
    show 8 * max_capacity stf.arena + 7 < U64
    rw [← hrx] at hfx
    have h5 : 8 * max_capacity stf.arena ≤ 8 * r.capacity := by
      unfold max_capacity
      omega
    show 8 * max_capacity stf.arena + 7 < 2 ^ 64
    have h6 : 8 * r.capacity < 2 ^ 64 := by
      have h7 : B j + 8 * r.capacity < 2 ^ 64 := hbj
      omega
    omega
  have hInv0 : C1Inv B ⟨σ0, []⟩ [] := by
    refine {
      chain := ?_
      nodup := List.nodup_nil
      fl_ptr := fun p hp => absurd hp (List.not_mem_nil p)
      fl_size := fun p hp => absurd hp (List.not_mem_nil p)
      fl_align := fun p hp => absurd hp (List.not_mem_nil p)
      live_pos := fun b hb => absurd hb (List.not_mem_nil b)
      live_align := fun b hb => absurd hb (List.not_mem_nil b)
      bound := fun b hb => absurd hb (List.not_mem_nil b)
      disj := List.Pairwise.nil
      inCons := fun b hb => absurd hb (List.not_mem_nil b)
      cnt_le := ?_ }
    · rcases h0 with h0 | h0 <;> rw [h0] <;> exact chainOK.nil
    · intro r' hr'
      have hr2 : r' ∈ [create_region_mem c0] := by
        rcases h0 with h0 | h0 <;> rw [h0] at hr' <;> exact hr'
      rw [List.mem_singleton] at hr2
      rw [hr2]
      exact Nat.zero_le _
  obtain ⟨L', hInvf⟩ := c1_run B mallocOK (UINTPTR_SIZE * max_capacity stf.arena) hB8 hszB
    ops ⟨σ0, []⟩ stf [] hrun hInv0 hops hsep hbound
  constructor
  · have hd := hInvf.disj
    rw [List.pairwise_append] at hd
    exact hd.1
  · exact fun b hb => hInvf.live_align b hb

theorem c1_disjoint_aligned_witness :
    ([(10256, 32)] : List (Nat × Nat)).Pairwise blkDisj ∧
    ∀ b ∈ ([(10256, 32)] : List (Nat × Nat)), b.1 % UINTPTR_SIZE = 0 :=
  c1_disjoint_aligned layoutB mallocAll 64 (create_freelist_arena 64)
    [ArenaOp.alloc 32, ArenaOp.dealloc 0, ArenaOp.alloc 32]
    { arena := { regions := [{ data_count := 64, capacity := 64 }]
                 endIdx := 0
                 free_list := some 10000
                 heap := [(10000, { size_bytes := 32, ptr := 10000, next := none })]
                 use_free_list := true }
      live := [(10256, 32)] }
    (Or.inr rfl)
    (by
      intro i
      show 10000 * (i + 1) % 8 = 0
      omega)
    (by
      intro i j ri rj hij hi hj
      match i, j with
      | 0, 0 => exact absurd rfl hij
      | 0, j2 + 1 => exact Option.noConfusion hj
      | i2 + 1, _ => exact Option.noConfusion hi)
    (by
      intro i ri hi
      match i with
      | 0 =>
        have hri : ri = { data_count := 64, capacity := 64 } :=
          (Option.some_injective _ hi).symm
        rw [hri]
        decide
      | i2 + 1 => exact Option.noConfusion hi)
    (by
      intro op hop
      rcases List.mem_cons.mp hop with rfl | hop
      · exact ⟨by decide, by decide⟩
      rcases List.mem_cons.mp hop with rfl | hop
      · exact trivial
      rcases List.mem_cons.mp hop with rfl | hop
      · exact ⟨by decide, by decide⟩
      · exact absurd hop (List.not_mem_nil op))
    (by decide)
